import Mathlib

/-!
# SmartPointers: SharedPtr / WeakPtr over a reference-counted control block

A shallow embedding of `sw_fwd.h`, `shared.h` and `weak.h`.

* The heap of control blocks is a function from block identities to cells; `new`
  hands out the identity of a cell that is not in use.
* Every C++ member function is a Lean function that takes the heap (and the
  handle values it reads) and returns the heap (and the handle values it wrote).
* Two ghost counters per cell record how many times `DeleteObject` ran on it and
  how many times `delete block_` ran on it.
* The managed object is represented by what the handles can affect: the
  `weak_this_` member it inherits when its type derives from `EnableSharedFromThis`.
-/

namespace SmartPointers

/-- Raw address of a managed object or sub-object; `0` is `nullptr`. -/
abbrev Addr := Nat

/-- Identity (address) of a control block. -/
abbrev BlockId := Nat

/-- Largest value of `size_t`. -/
def SIZE_MAX : Nat := 2 ^ 64 - 1

/-- Exception type `class BadWeakPtr : public std::exception`. -/
inductive BadWeakPtr where
  | mk : BadWeakPtr
deriving DecidableEq, Repr

/-- Handle `WeakPtr<T>`: members `block_` and `observed_` (in declaration order). -/
structure WeakPtr where
  block_ : Option BlockId
  observed_ : Addr
deriving DecidableEq, Repr

/-- Handle `SharedPtr<T>`: members `observed_` and `block_`. -/
structure SharedPtr where
  observed_ : Addr
  block_ : Option BlockId
deriving DecidableEq, Repr

/-- Counters of `ControlBlockBase`. -/
structure ControlBlockBase where
  reference_count_ : Nat
  weak_count_ : Nat
deriving DecidableEq, Repr

/-- The two concrete control blocks: `ControlBlockPointer` keeps `ptr_`,
`ControlBlockHolder` keeps the object in its own `storage_` (at the given address). -/
inductive BlockKind where
  | pointer (ptr_ : Addr) : BlockKind
  | holder (storage_ : Addr) : BlockKind
deriving DecidableEq, Repr

/-- A heap cell holding a control block together with the managed object it
destroys. `weak_this_` is `some w` exactly when the managed type derives from
`EnableSharedFromThis` (`w` is the current value of that member). The last two
fields are ghost counters. -/
structure Block extends ControlBlockBase where
  kind : BlockKind
  weak_this_ : Option WeakPtr
  deleteObjectCalls : Nat
  deleteCalls : Nat
deriving DecidableEq, Repr

/-- Heap of control blocks. -/
abbrev Heap := BlockId → Block

/-- Source `ControlBlockBase::Increment`: `++reference_count_`. The counter counts live
handles, each of which occupies storage of its own, so it stays below `SIZE_MAX`. -/
def ControlBlockBase.Increment (c : ControlBlockBase) : ControlBlockBase :=
  { c with reference_count_ := c.reference_count_ + 1 }

/-- Source `ControlBlockBase::Decrement`: `--reference_count_` on a `size_t` (wraps at 0). -/
def ControlBlockBase.Decrement (c : ControlBlockBase) : ControlBlockBase :=
  { c with reference_count_ := if c.reference_count_ = 0 then SIZE_MAX else c.reference_count_ - 1 }

/-- Source `ControlBlockBase::IncrementWeak`: `++weak_count_`. -/
def ControlBlockBase.IncrementWeak (c : ControlBlockBase) : ControlBlockBase :=
  { c with weak_count_ := c.weak_count_ + 1 }

/-- Source `ControlBlockBase::DecrementWeak`: `--weak_count_` on a `size_t` (wraps at 0). -/
def ControlBlockBase.DecrementWeak (c : ControlBlockBase) : ControlBlockBase :=
  { c with weak_count_ := if c.weak_count_ = 0 then SIZE_MAX else c.weak_count_ - 1 }

/-- Source `ControlBlockBase::GetReferenceCount`. -/
def ControlBlockBase.GetReferenceCount (c : ControlBlockBase) : Nat := c.reference_count_

/-- Source `ControlBlockBase::GetWeakCount`. -/
def ControlBlockBase.GetWeakCount (c : ControlBlockBase) : Nat := c.weak_count_

/-- Call `block_->Increment()` on the cell `b`. -/
def Heap.Increment (h : Heap) (b : BlockId) : Heap :=
  Function.update h b { h b with toControlBlockBase := (h b).toControlBlockBase.Increment }

/-- Call `block_->Decrement()` on the cell `b`. -/
def Heap.Decrement (h : Heap) (b : BlockId) : Heap :=
  Function.update h b { h b with toControlBlockBase := (h b).toControlBlockBase.Decrement }

/-- Call `block_->IncrementWeak()` on the cell `b`. -/
def Heap.IncrementWeak (h : Heap) (b : BlockId) : Heap :=
  Function.update h b { h b with toControlBlockBase := (h b).toControlBlockBase.IncrementWeak }

/-- Call `block_->DecrementWeak()` on the cell `b`. -/
def Heap.DecrementWeak (h : Heap) (b : BlockId) : Heap :=
  Function.update h b { h b with toControlBlockBase := (h b).toControlBlockBase.DecrementWeak }

/-- Statement `delete block_;` (the ghost counter records it). -/
def Heap.deleteBlock (h : Heap) (b : BlockId) : Heap :=
  Function.update h b { h b with deleteCalls := (h b).deleteCalls + 1 }

/-- Source `WeakPtr::WeakPtr()`. -/
def WeakPtr.default : WeakPtr := { block_ := none, observed_ := 0 }

/-- Source `SharedPtr::SharedPtr()` and `SharedPtr::SharedPtr(std::nullptr_t)`. -/
def SharedPtr.default : SharedPtr := { observed_ := 0, block_ := none }

/-- Source `WeakPtr::AddRef`. -/
def WeakPtr.AddRef (h : Heap) (w : WeakPtr) : Heap :=
  match w.block_ with
  | none => h
  | some b => h.IncrementWeak b

/-- Source `SharedPtr::AddRef`. -/
def SharedPtr.AddRef (h : Heap) (p : SharedPtr) : Heap :=
  match p.block_ with
  | none => h
  | some b => h.Increment b

/-- Source `WeakPtr::~WeakPtr`. -/
def WeakPtr.dtor (h : Heap) (w : WeakPtr) : Heap :=
  match w.block_ with
  | none => h
  | some b =>
    let h1 := h.DecrementWeak b
    if (h1 b).GetReferenceCount = 0 ∧ (h1 b).GetWeakCount = 0 then
      h1.deleteBlock b
    else
      h1

/-- Source `ControlBlockPointer::DeleteObject` (`delete ptr_`) and
`ControlBlockHolder::DeleteObject` (`GetPointer()->~T()`): both run the destructor
of the managed object, which destroys the `weak_this_` member when the type has one. -/
def Heap.DeleteObject (h : Heap) (b : BlockId) : Heap :=
  let h1 := Function.update h b { h b with deleteObjectCalls := (h b).deleteObjectCalls + 1 }
  match (h b).kind, (h b).weak_this_ with
  | BlockKind.pointer _, none => h1
  | BlockKind.pointer _, some w => WeakPtr.dtor h1 w
  | BlockKind.holder _, none => h1
  | BlockKind.holder _, some w => WeakPtr.dtor h1 w

/-- Source `SharedPtr::~SharedPtr`. -/
def SharedPtr.dtor (h : Heap) (p : SharedPtr) : Heap :=
  match p.block_ with
  | none => h
  | some b =>
    let h1 := h.Decrement b
    if (h1 b).GetReferenceCount = 0 ∧ (h1 b).GetWeakCount = 0 then
      (h1.DeleteObject b).deleteBlock b
    else if (h1 b).GetReferenceCount = 0 then
      h1.DeleteObject b
    else
      h1

/-- Source `SharedPtr::Get`. -/
def SharedPtr.Get (p : SharedPtr) : Addr := p.observed_

/-- Source `SharedPtr::UseCount`. -/
def SharedPtr.UseCount (h : Heap) (p : SharedPtr) : Nat :=
  match p.block_ with
  | none => 0
  | some b => (h b).GetReferenceCount

/-- Source `SharedPtr::Unique`. -/
def SharedPtr.Unique (h : Heap) (p : SharedPtr) : Bool := p.UseCount h == 1

/-- Source `SharedPtr::operator bool`. -/
def SharedPtr.toBool (p : SharedPtr) : Bool := p.block_ != none

/-- Source `SharedPtr::Swap`: `std::swap` of both members; returns the new values of
`*this` and `other`. -/
def SharedPtr.Swap (self other : SharedPtr) : SharedPtr × SharedPtr :=
  ({ observed_ := other.observed_, block_ := other.block_ },
   { observed_ := self.observed_, block_ := self.block_ })

/-- Source `WeakPtr::Swap`: returns the new values of `*this` and `other`. -/
def WeakPtr.Swap (self other : WeakPtr) : WeakPtr × WeakPtr :=
  ({ block_ := other.block_, observed_ := other.observed_ },
   { block_ := self.block_, observed_ := self.observed_ })

/-- Source `WeakPtr::UseCount`. -/
def WeakPtr.UseCount (h : Heap) (w : WeakPtr) : Nat :=
  match w.block_ with
  | none => 0
  | some b => (h b).GetReferenceCount

/-- Source `WeakPtr::Expired`. -/
def WeakPtr.Expired (h : Heap) (w : WeakPtr) : Bool :=
  match w.block_ with
  | none => true
  | some b => (h b).GetReferenceCount == 0

/-- Source `SharedPtr::SharedPtr(const WeakPtr<T>&)`: throws `BadWeakPtr` when the
observer is expired. The heap is returned in both outcomes. -/
def SharedPtr.fromWeak (h : Heap) (other : WeakPtr) : Heap × Except BadWeakPtr SharedPtr :=
  if other.Expired h then
    (h, Except.error BadWeakPtr.mk)
  else
    let self : SharedPtr := { observed_ := other.observed_, block_ := other.block_ }
    (self.AddRef h, Except.ok self)

/-- Source `WeakPtr::Lock`: `Expired() ? SharedPtr<T>() : SharedPtr<T>(*this)`. -/
def WeakPtr.Lock (h : Heap) (w : WeakPtr) : Heap × Except BadWeakPtr SharedPtr :=
  if w.Expired h then (h, Except.ok SharedPtr.default) else SharedPtr.fromWeak h w

/-- Source `SharedPtr::SharedPtr(const SharedPtr&)` (and its converting template). -/
def SharedPtr.copy (h : Heap) (other : SharedPtr) : Heap × SharedPtr :=
  let self : SharedPtr := { observed_ := other.observed_, block_ := other.block_ }
  (self.AddRef h, self)

/-- Source `SharedPtr::Reset()`: `SharedPtr().Swap(*this)`, then the temporary dies.
Returns the new value of `*this`. -/
def SharedPtr.Reset (h : Heap) (self : SharedPtr) : Heap × SharedPtr :=
  let r := SharedPtr.Swap SharedPtr.default self
  (SharedPtr.dtor h r.1, r.2)

/-- Source `SharedPtr::SharedPtr(SharedPtr&&)` (and its converting template): returns the
new handle and the new value of `other`. -/
def SharedPtr.move (h : Heap) (other : SharedPtr) : Heap × SharedPtr × SharedPtr :=
  let self : SharedPtr := { observed_ := other.observed_, block_ := other.block_ }
  let h1 := self.AddRef h
  let r := SharedPtr.Reset h1 other
  (r.1, self, r.2)

/-- Aliasing constructor `SharedPtr(const SharedPtr<Y>& other, T* ptr)`. -/
def SharedPtr.alias (h : Heap) (other : SharedPtr) (ptr : Addr) : Heap × SharedPtr :=
  let self : SharedPtr := { observed_ := ptr, block_ := other.block_ }
  (self.AddRef h, self)

/-- Aliasing constructor `SharedPtr(SharedPtr<Y>&& other, T* ptr)`: returns the new
handle and the new value of `other`. -/
def SharedPtr.aliasMove (h : Heap) (other : SharedPtr) (ptr : Addr) :
    Heap × SharedPtr × SharedPtr :=
  let self : SharedPtr := { observed_ := ptr, block_ := other.block_ }
  let h1 := self.AddRef h
  let r := SharedPtr.Reset h1 other
  (r.1, self, r.2)

/-- Source `SharedPtr::operator=(const SharedPtr&)`: `SharedPtr<T>(other).Swap(*this)`.
Returns the new value of `*this`; `other` is not written. -/
def SharedPtr.assign (h : Heap) (self other : SharedPtr) : Heap × SharedPtr :=
  let c := SharedPtr.copy h other
  let r := SharedPtr.Swap c.2 self
  (SharedPtr.dtor c.1 r.1, r.2)

/-- Source `WeakPtr::WeakPtr(const SharedPtr<T>&)` (and its converting template). -/
def WeakPtr.fromShared (h : Heap) (other : SharedPtr) : Heap × WeakPtr :=
  let self : WeakPtr := { block_ := other.block_, observed_ := other.observed_ }
  (self.AddRef h, self)

/-- Source `WeakPtr::WeakPtr(const WeakPtr&)` (and its converting template):
`observed_(other.Lock().Get()), block_(other.block_)`, then `AddRef()`. The
temporary returned by `Lock` dies at the end of the member initialiser. The
constructor is `noexcept`: an exception out of `Lock` would end the program (`none`). -/
def WeakPtr.copy (h : Heap) (other : WeakPtr) : Option (Heap × WeakPtr) :=
  match other.Lock h with
  | (_, Except.error _) => none
  | (h1, Except.ok t) =>
    let self : WeakPtr := { block_ := other.block_, observed_ := t.Get }
    let h2 := SharedPtr.dtor h1 t
    some (self.AddRef h2, self)

/-- Source `WeakPtr::Reset`: `WeakPtr().Swap(*this)`, then the temporary dies. Returns the
new value of `*this`. -/
def WeakPtr.Reset (h : Heap) (self : WeakPtr) : Heap × WeakPtr :=
  let r := WeakPtr.Swap WeakPtr.default self
  (WeakPtr.dtor h r.1, r.2)

/-- Source `WeakPtr::WeakPtr(WeakPtr&&)`, the non-template constructor, which takes a
source of the same type: returns the new observer and the new value of `other`. -/
def WeakPtr.move (h : Heap) (other : WeakPtr) : Option (Heap × WeakPtr × WeakPtr) :=
  match other.Lock h with
  | (_, Except.error _) => none
  | (h1, Except.ok t) =>
    let self : WeakPtr := { block_ := other.block_, observed_ := t.Get }
    let h2 := SharedPtr.dtor h1 t
    let h3 := self.AddRef h2
    let r := WeakPtr.Reset h3 other
    some (r.1, self, r.2)

/-- Source `WeakPtr::operator=(const WeakPtr&)`: `WeakPtr<T>(other).Swap(*this)`. Returns
the new value of `*this`; `other` is not written. -/
def WeakPtr.assign (h : Heap) (self other : WeakPtr) : Option (Heap × WeakPtr) :=
  match WeakPtr.copy h other with
  | none => none
  | some c =>
    let r := WeakPtr.Swap c.2 self
    some (WeakPtr.dtor c.1 r.1, r.2)

/-- Expression `new ControlBlockPointer<T>(ptr)` / `new ControlBlockHolder<T>(args...)`
returning the cell `b`: both counters start at 0. The managed object sits behind the
block; when its type derives from `EnableSharedFromThis` (`esft`) its `weak_this_`
member is default-constructed. -/
def Heap.newBlock (h : Heap) (b : BlockId) (kind : BlockKind) (esft : Bool) : Heap :=
  Function.update h b
    { reference_count_ := 0, weak_count_ := 0, kind := kind,
      weak_this_ := if esft then some WeakPtr.default else none,
      deleteObjectCalls := 0, deleteCalls := 0 }

/-- Statement `observed_->weak_this_ = *this;` for the object behind block `b`:
the right-hand side is converted by `WeakPtr(const SharedPtr<T>&)` into a temporary,
`WeakPtr::operator=(WeakPtr&&)` runs `WeakPtr<T>(std::move(other)).Swap(*this)`, and
both temporaries die. -/
def assignWeakThis (h : Heap) (b : BlockId) (self : SharedPtr) : Option Heap :=
  let conv := WeakPtr.fromShared h self
  match WeakPtr.move conv.1 conv.2 with
  | none => none
  | some (h2, tmp, conv2) =>
    match (h2 b).weak_this_ with
    | none => none
    | some wt =>
      let r := WeakPtr.Swap tmp wt
      let h3 := Function.update h2 b { h2 b with weak_this_ := some r.2 }
      let h4 := WeakPtr.dtor h3 r.1
      some (WeakPtr.dtor h4 conv2)

/-- Source `SharedPtr::SharedPtr(T* ptr)` (and `SharedPtr(Y* ptr)`); `b` is the cell that
`new` returned, `esft` is `std::is_convertible_v<T*, ESFTBase*>`. With `esft` and a
null `ptr` the statement `observed_->weak_this_ = ...` has no defined behaviour
(`none`). -/
def SharedPtr.fromRaw (h : Heap) (b : BlockId) (ptr : Addr) (esft : Bool) :
    Option (Heap × SharedPtr) :=
  let h0 := h.newBlock b (BlockKind.pointer ptr) esft
  let self : SharedPtr := { observed_ := ptr, block_ := some b }
  let h1 := self.AddRef h0
  if esft then
    if ptr = 0 then none
    else
      match assignWeakThis h1 b self with
      | none => none
      | some h2 => some (h2, self)
  else
    some (h1, self)

/-- Source `MakeShared<T>(args...)`; `b` is the cell that `new` returned and `storage` the
address `control_block_holder->GetPointer()` inside it. The local `shared_ptr` is
returned in place (copy elision). -/
def MakeShared (h : Heap) (b : BlockId) (storage : Addr) (esft : Bool) :
    Option (Heap × SharedPtr) :=
  let shared_ptr := SharedPtr.default
  let h0 := h.newBlock b (BlockKind.holder storage) esft
  let shared_ptr := { shared_ptr with block_ := some b }
  let shared_ptr := { shared_ptr with observed_ := storage }
  let h1 := h0.Increment b
  if esft then
    match assignWeakThis h1 b shared_ptr with
    | none => none
    | some h2 => some (h2, shared_ptr)
  else
    some (h1, shared_ptr)

/-- Source `SharedPtr::Reset(T* ptr)` (and `Reset(Y* ptr)`): `SharedPtr<T>(ptr).Swap(*this)`.
Returns the new value of `*this`. -/
def SharedPtr.ResetPtr (h : Heap) (b : BlockId) (self : SharedPtr) (ptr : Addr) (esft : Bool) :
    Option (Heap × SharedPtr) :=
  match SharedPtr.fromRaw h b ptr esft with
  | none => none
  | some c =>
    let r := SharedPtr.Swap c.2 self
    some (SharedPtr.dtor c.1 r.1, r.2)

/-- Source `SharedPtr::OwnerBefore(const SharedPtr<Y>&)`. -/
def SharedPtr.OwnerBefore (self other : SharedPtr) : Bool := self.block_ == other.block_

/-- Source `SharedPtr::OwnerBefore(const WeakPtr<Y>&)`. -/
def SharedPtr.OwnerBeforeWeak (self : SharedPtr) (other : WeakPtr) : Bool :=
  self.block_ == other.block_

/-- Source `WeakPtr::OwnerBefore(const WeakPtr<Y>&)`. -/
def WeakPtr.OwnerBefore (self other : WeakPtr) : Bool := self.block_ == other.block_

/-- Source `WeakPtr::OwnerBefore(const SharedPtr<Y>&)`. -/
def WeakPtr.OwnerBeforeShared (self : WeakPtr) (other : SharedPtr) : Bool :=
  self.block_ == other.block_

/-- Source `operator==(const SharedPtr<T>&, const SharedPtr<U>&)`. -/
def SharedPtr.eq (left right : SharedPtr) : Bool := left.Get == right.Get

/-- Base class `EnableSharedFromThis<T>`: its only member. -/
structure EnableSharedFromThis where
  weak_this_ : WeakPtr
deriving DecidableEq, Repr

/-- Implicit default constructor of `EnableSharedFromThis<T>`. -/
def EnableSharedFromThis.default : EnableSharedFromThis := { weak_this_ := WeakPtr.default }

/-- Source `EnableSharedFromThis::SharedFromThis`: `SharedPtr<T>(weak_this_)`. -/
def EnableSharedFromThis.SharedFromThis (h : Heap) (e : EnableSharedFromThis) :
    Heap × Except BadWeakPtr SharedPtr :=
  SharedPtr.fromWeak h e.weak_this_

/-- Source `EnableSharedFromThis::WeakFromThis`: returns a copy of `weak_this_`. -/
def EnableSharedFromThis.WeakFromThis (h : Heap) (e : EnableSharedFromThis) :
    Option (Heap × WeakPtr) :=
  WeakPtr.copy h e.weak_this_

/-! ## Programs: sequences of public operations on named handles -/

/-- Program state: the heap, the next cell `new` will return, and the live
`SharedPtr` and `WeakPtr` objects of the program (addressed by position). -/
structure State where
  heap : Heap
  next : BlockId
  shared : List SharedPtr
  weak : List WeakPtr

/-- Contents of a cell that was never allocated. -/
def Block.unused : Block :=
  { reference_count_ := 0, weak_count_ := 0, kind := BlockKind.pointer 0,
    weak_this_ := none, deleteObjectCalls := 0, deleteCalls := 0 }

/-- State of a program before its first operation. -/
def State.init : State :=
  { heap := fun _ => Block.unused, next := 0, shared := [], weak := [] }

/-- Public operations. Indices name live handles: `i`, `j` index `shared` for the
`shared...` operations and `weak` for the `weak...` ones, as documented per case. -/
inductive Op where
  /-- Statement `SharedPtr<T> p;` or `SharedPtr<T> p(nullptr);` -/
  | sharedDefault : Op
  /-- Statement `SharedPtr<T> p(ptr);` for a fresh object at `ptr` -/
  | sharedFromRaw (ptr : Addr) (esft : Bool) : Op
  /-- Statement `auto p = MakeShared<T>(...);` -/
  | makeShared (storage : Addr) (esft : Bool) : Op
  /-- Statement `SharedPtr<T> p(shared[i]);` -/
  | sharedCopy (i : Nat) : Op
  /-- Statement `SharedPtr<T> p(std::move(shared[i]));` -/
  | sharedMove (i : Nat) : Op
  /-- Statement `SharedPtr<T> p(shared[i], ptr);` -/
  | sharedAlias (i : Nat) (ptr : Addr) : Op
  /-- Statement `SharedPtr<T> p(std::move(shared[i]), ptr);` -/
  | sharedAliasMove (i : Nat) (ptr : Addr) : Op
  /-- Statement `SharedPtr<T> p(weak[j]);` (may throw) -/
  | sharedFromWeak (j : Nat) : Op
  /-- Statement `shared[i] = shared[j];` -/
  | sharedAssign (i j : Nat) : Op
  /-- Statement `shared[i] = std::move(shared[j]);` -/
  | sharedMoveAssign (i j : Nat) : Op
  /-- Statement `shared[i].Reset();` -/
  | sharedReset (i : Nat) : Op
  /-- Statement `shared[i].Reset(ptr);` for a fresh object at `ptr` -/
  | sharedResetPtr (i : Nat) (ptr : Addr) (esft : Bool) : Op
  /-- Statement `shared[i].Swap(shared[j]);` -/
  | sharedSwap (i j : Nat) : Op
  /-- End of the lifetime of the object `shared[i]` -/
  | sharedDestroy (i : Nat) : Op
  /-- Statement `WeakPtr<T> w;` -/
  | weakDefault : Op
  /-- Statement `WeakPtr<T> w(weak[j]);` (for `weak[j]` of a convertible type `WeakPtr<Y>` also
  `WeakPtr<T> w(std::move(weak[j]));`, see `WeakPtr.moveConverting`) -/
  | weakCopy (j : Nat) : Op
  /-- Statement `WeakPtr<T> w(std::move(weak[j]));` for `weak[j]` of the same type `WeakPtr<T>` -/
  | weakMove (j : Nat) : Op
  /-- Statement `WeakPtr<T> w(shared[i]);` -/
  | weakFromShared (i : Nat) : Op
  /-- Statement `weak[i] = weak[j];` -/
  | weakAssign (i j : Nat) : Op
  /-- Statement `weak[i] = std::move(weak[j]);` -/
  | weakMoveAssign (i j : Nat) : Op
  /-- Statement `weak[j].Reset();` -/
  | weakReset (j : Nat) : Op
  /-- Statement `weak[i].Swap(weak[j]);` -/
  | weakSwap (i j : Nat) : Op
  /-- End of the lifetime of the object `weak[j]` -/
  | weakDestroy (j : Nat) : Op
  /-- Statement `auto p = weak[j].Lock();` -/
  | weakLock (j : Nat) : Op
  /-- Statement `auto p = obj.SharedFromThis();` on the live object behind block `b` (may throw) -/
  | sharedFromThis (b : BlockId) : Op
  /-- Statement `auto w = obj.WeakFromThis();` on the live object behind block `b` -/
  | weakFromThis (b : BlockId) : Op
deriving DecidableEq, Repr

/-- One operation. `none` means the operation cannot be issued in this state (a
handle it names does not exist, the object it is called on is not alive) or has no
defined behaviour. An operation that throws leaves the state as the constructor left
it and creates no handle. -/
def step (s : State) : Op → Option State
  | Op.sharedDefault =>
    some { s with shared := s.shared ++ [SharedPtr.default] }
  | Op.sharedFromRaw ptr esft =>
    match SharedPtr.fromRaw s.heap s.next ptr esft with
    | none => none
    | some r => some { s with heap := r.1, next := s.next + 1, shared := s.shared ++ [r.2] }
  | Op.makeShared storage esft =>
    match MakeShared s.heap s.next storage esft with
    | none => none
    | some r => some { s with heap := r.1, next := s.next + 1, shared := s.shared ++ [r.2] }
  | Op.sharedCopy i =>
    match s.shared[i]? with
    | none => none
    | some other =>
      let r := SharedPtr.copy s.heap other
      some { s with heap := r.1, shared := s.shared ++ [r.2] }
  | Op.sharedMove i =>
    match s.shared[i]? with
    | none => none
    | some other =>
      let r := SharedPtr.move s.heap other
      some { s with heap := r.1, shared := s.shared.set i r.2.2 ++ [r.2.1] }
  | Op.sharedAlias i ptr =>
    match s.shared[i]? with
    | none => none
    | some other =>
      let r := SharedPtr.alias s.heap other ptr
      some { s with heap := r.1, shared := s.shared ++ [r.2] }
  | Op.sharedAliasMove i ptr =>
    match s.shared[i]? with
    | none => none
    | some other =>
      let r := SharedPtr.aliasMove s.heap other ptr
      some { s with heap := r.1, shared := s.shared.set i r.2.2 ++ [r.2.1] }
  | Op.sharedFromWeak j =>
    match s.weak[j]? with
    | none => none
    | some other =>
      match SharedPtr.fromWeak s.heap other with
      | (h1, Except.error _) => some { s with heap := h1 }
      | (h1, Except.ok p) => some { s with heap := h1, shared := s.shared ++ [p] }
  | Op.sharedAssign i j =>
    match s.shared[i]?, s.shared[j]? with
    | some self, some other =>
      let r := SharedPtr.assign s.heap self other
      some { s with heap := r.1, shared := s.shared.set i r.2 }
    | _, _ => none
  | Op.sharedMoveAssign i j =>
    -- SharedPtr<T>(std::move(other)).Swap(*this); `other` may be `*this`
    match s.shared[j]? with
    | none => none
    | some other =>
      let m := SharedPtr.move s.heap other
      let shared1 := s.shared.set j m.2.2
      match shared1[i]? with
      | none => none
      | some self =>
        let r := SharedPtr.Swap m.2.1 self
        some { s with heap := SharedPtr.dtor m.1 r.1, shared := shared1.set i r.2 }
  | Op.sharedReset i =>
    match s.shared[i]? with
    | none => none
    | some self =>
      let r := SharedPtr.Reset s.heap self
      some { s with heap := r.1, shared := s.shared.set i r.2 }
  | Op.sharedResetPtr i ptr esft =>
    match s.shared[i]? with
    | none => none
    | some self =>
      match SharedPtr.ResetPtr s.heap s.next self ptr esft with
      | none => none
      | some r => some { s with heap := r.1, next := s.next + 1, shared := s.shared.set i r.2 }
  | Op.sharedSwap i j =>
    match s.shared[i]?, s.shared[j]? with
    | some self, some other =>
      let r := SharedPtr.Swap self other
      some { s with shared := (s.shared.set i r.1).set j r.2 }
    | _, _ => none
  | Op.sharedDestroy i =>
    match s.shared[i]? with
    | none => none
    | some self =>
      some { s with heap := SharedPtr.dtor s.heap self, shared := s.shared.eraseIdx i }
  | Op.weakDefault =>
    some { s with weak := s.weak ++ [WeakPtr.default] }
  | Op.weakCopy j =>
    match s.weak[j]? with
    | none => none
    | some other =>
      match WeakPtr.copy s.heap other with
      | none => none
      | some r => some { s with heap := r.1, weak := s.weak ++ [r.2] }
  | Op.weakMove j =>
    match s.weak[j]? with
    | none => none
    | some other =>
      match WeakPtr.move s.heap other with
      | none => none
      | some r => some { s with heap := r.1, weak := s.weak.set j r.2.2 ++ [r.2.1] }
  | Op.weakFromShared i =>
    match s.shared[i]? with
    | none => none
    | some other =>
      let r := WeakPtr.fromShared s.heap other
      some { s with heap := r.1, weak := s.weak ++ [r.2] }
  | Op.weakAssign i j =>
    match s.weak[i]?, s.weak[j]? with
    | some self, some other =>
      match WeakPtr.assign s.heap self other with
      | none => none
      | some r => some { s with heap := r.1, weak := s.weak.set i r.2 }
    | _, _ => none
  | Op.weakMoveAssign i j =>
    -- WeakPtr<T>(std::move(other)).Swap(*this); `other` may be `*this`
    match s.weak[j]? with
    | none => none
    | some other =>
      match WeakPtr.move s.heap other with
      | none => none
      | some m =>
        let weak1 := s.weak.set j m.2.2
        match weak1[i]? with
        | none => none
        | some self =>
          let r := WeakPtr.Swap m.2.1 self
          some { s with heap := WeakPtr.dtor m.1 r.1, weak := weak1.set i r.2 }
  | Op.weakReset j =>
    match s.weak[j]? with
    | none => none
    | some self =>
      let r := WeakPtr.Reset s.heap self
      some { s with heap := r.1, weak := s.weak.set j r.2 }
  | Op.weakSwap i j =>
    match s.weak[i]?, s.weak[j]? with
    | some self, some other =>
      let r := WeakPtr.Swap self other
      some { s with weak := (s.weak.set i r.1).set j r.2 }
    | _, _ => none
  | Op.weakDestroy j =>
    match s.weak[j]? with
    | none => none
    | some self =>
      some { s with heap := WeakPtr.dtor s.heap self, weak := s.weak.eraseIdx j }
  | Op.weakLock j =>
    match s.weak[j]? with
    | none => none
    | some w =>
      match WeakPtr.Lock s.heap w with
      | (h1, Except.error _) => some { s with heap := h1 }
      | (h1, Except.ok p) => some { s with heap := h1, shared := s.shared ++ [p] }
  | Op.sharedFromThis b =>
    if (s.heap b).deleteObjectCalls = 0 ∧ b < s.next then
      match (s.heap b).weak_this_ with
      | none => none
      | some wt =>
        match EnableSharedFromThis.SharedFromThis s.heap { weak_this_ := wt } with
        | (h1, Except.error _) => some { s with heap := h1 }
        | (h1, Except.ok p) => some { s with heap := h1, shared := s.shared ++ [p] }
    else none
  | Op.weakFromThis b =>
    if (s.heap b).deleteObjectCalls = 0 ∧ b < s.next then
      match (s.heap b).weak_this_ with
      | none => none
      | some wt =>
        match EnableSharedFromThis.WeakFromThis s.heap { weak_this_ := wt } with
        | none => none
        | some r => some { s with heap := r.1, weak := s.weak ++ [r.2] }
    else none

/-- Run a sequence of operations from a state. -/
def run (s : State) : List Op → Option State
  | [] => some s
  | op :: ops =>
    match step s op with
    | none => none
    | some s1 => run s1 ops

/-- Number of handles in `S` whose `block_` is the cell `b`. -/
def countShared (S : List SharedPtr) (b : BlockId) : Nat :=
  (S.filter (fun p => p.block_ == some b)).length

/-- Number of observers in `W` whose `block_` is the cell `b`. -/
def countWeak (W : List WeakPtr) (b : BlockId) : Nat :=
  (W.filter (fun w => w.block_ == some b)).length

/-- Whether the managed object behind cell `c` is alive and its `weak_this_` member
has `block_ == b`. -/
def memberObserves (h : Heap) (c b : BlockId) : Bool :=
  (h c).deleteObjectCalls == 0 &&
    (match (h c).weak_this_ with
     | none => false
     | some w => w.block_ == some b)

/-- Number of live `weak_this_` members (inside managed objects that are alive)
whose `block_` is the cell `b`. -/
def countMember (s : State) (b : BlockId) : Nat :=
  ((List.range s.next).filter (fun c => memberObserves s.heap c b)).length

/-! ## Counting invariant -/

/-- Indicator of `o == some b`. -/
def ind (o : Option BlockId) (b : BlockId) : Nat := if o = some b then 1 else 0

/-- Contribution of the managed object behind `b` to the observers of `b`. -/
def selfW (h : Heap) (b : BlockId) : Nat := if memberObserves h b b then 1 else 0

/-- Counting invariant of one cell `blk = h c`. -/
structure CellInv (h : Heap) (c n s w : Nat) : Prop where
  strong : (h c).reference_count_ = s
  weak : (h c).weak_count_ = w + selfW h c
  own : ∀ x, (h c).weak_this_ = some x → x.block_ = none ∨ x.block_ = some c
  del : c < n → (h c).deleteObjectCalls = if (h c).reference_count_ = 0 then 1 else 0
  free : c < n →
    (h c).deleteCalls = if (h c).reference_count_ = 0 ∧ (h c).weak_count_ = 0 then 1 else 0
  fresh : n ≤ c → (h c).reference_count_ = 0 ∧ (h c).weak_count_ = 0

/-- Counting invariant of a heap. -/
def InvC (h : Heap) (n : Nat) (cs cw : BlockId → Nat) : Prop :=
  ∀ c, CellInv h c n (cs c) (cw c)

/-- Counting invariant of a program state: the counters of every cell agree with the
live handles of the program. -/
def Inv (s : State) : Prop :=
  InvC s.heap s.next (countShared s.shared) (countWeak s.weak)

/-- States a program can reach from its start. -/
def Reachable (s : State) : Prop := ∃ ops, run State.init ops = some s

/-- Whether an operation can be issued in a state: the handles it names exist, a
self-referential type is not adopted through a null pointer, and `SharedFromThis` /
`WeakFromThis` are called on an object that is alive and has the member. -/
def Op.enabled (s : State) : Op → Bool
  | Op.sharedDefault => true
  | Op.sharedFromRaw ptr esft => !(esft && ptr == 0)
  | Op.makeShared _ _ => true
  | Op.sharedCopy i => decide (i < s.shared.length)
  | Op.sharedMove i => decide (i < s.shared.length)
  | Op.sharedAlias i _ => decide (i < s.shared.length)
  | Op.sharedAliasMove i _ => decide (i < s.shared.length)
  | Op.sharedFromWeak j => decide (j < s.weak.length)
  | Op.sharedAssign i j => decide (i < s.shared.length) && decide (j < s.shared.length)
  | Op.sharedMoveAssign i j => decide (i < s.shared.length) && decide (j < s.shared.length)
  | Op.sharedReset i => decide (i < s.shared.length)
  | Op.sharedResetPtr i ptr esft => decide (i < s.shared.length) && !(esft && ptr == 0)
  | Op.sharedSwap i j => decide (i < s.shared.length) && decide (j < s.shared.length)
  | Op.sharedDestroy i => decide (i < s.shared.length)
  | Op.weakDefault => true
  | Op.weakCopy j => decide (j < s.weak.length)
  | Op.weakMove j => decide (j < s.weak.length)
  | Op.weakFromShared i => decide (i < s.shared.length)
  | Op.weakAssign i j => decide (i < s.weak.length) && decide (j < s.weak.length)
  | Op.weakMoveAssign i j => decide (i < s.weak.length) && decide (j < s.weak.length)
  | Op.weakReset j => decide (j < s.weak.length)
  | Op.weakSwap i j => decide (i < s.weak.length) && decide (j < s.weak.length)
  | Op.weakDestroy j => decide (j < s.weak.length)
  | Op.weakLock j => decide (j < s.weak.length)
  | Op.sharedFromThis b =>
    decide ((s.heap b).deleteObjectCalls = 0) && decide (b < s.next) &&
      (s.heap b).weak_this_.isSome
  | Op.weakFromThis b =>
    decide ((s.heap b).deleteObjectCalls = 0) && decide (b < s.next) &&
      (s.heap b).weak_this_.isSome

/-! ## Example programs (used to instantiate the theorems) -/

/-- A self-referential object is made in place, copied, observed, and one handle dies. -/
def demoOps : List Op :=
  [Op.makeShared 100 true, Op.sharedCopy 0, Op.weakFromShared 0, Op.sharedDestroy 0]

/-- State after `demoOps`. -/
def demoState : State := (run State.init demoOps).getD State.init

/-- A plain object is adopted, observed twice, and its only handle dies. -/
def demoOpsExpired : List Op :=
  [Op.sharedFromRaw 7 false, Op.weakFromShared 0, Op.weakCopy 0, Op.sharedDestroy 0]

/-- State after `demoOpsExpired`. -/
def demoStateExpired : State := (run State.init demoOpsExpired).getD State.init

/-- A self-referential object is made in place and its only handle dies. -/
def demoOpsFreed : List Op := [Op.makeShared 100 true, Op.sharedDestroy 0]

/-- State after `demoOpsFreed`. -/
def demoStateFreed : State := (run State.init demoOpsFreed).getD State.init

/-! ## Handles of either kind -/

/-- A handle of either kind, as the `OwnerBefore` overloads accept them. -/
inductive Handle where
  | shared (p : SharedPtr) : Handle
  | weak (w : WeakPtr) : Handle
deriving DecidableEq, Repr

/-- Member `block_` of a handle of either kind. -/
def Handle.block_ : Handle → Option BlockId
  | Handle.shared p => p.block_
  | Handle.weak w => w.block_

/-- Member `observed_` of a handle of either kind. -/
def Handle.observed_ : Handle → Addr
  | Handle.shared p => p.observed_
  | Handle.weak w => w.observed_

/-- Call `x.OwnerBefore(y)`: overload resolution picks one of the four member
templates of `SharedPtr` and `WeakPtr`. -/
def Handle.OwnerBefore : Handle → Handle → Bool
  | Handle.shared p, Handle.shared q => p.OwnerBefore q
  | Handle.shared p, Handle.weak w => p.OwnerBeforeWeak w
  | Handle.weak w, Handle.shared p => w.OwnerBeforeShared p
  | Handle.weak w, Handle.weak v => w.OwnerBefore v

/-- Two objects, each with one handle: a plain adopted one and a self-referential one
made in place. -/
def demoOpsTwo : List Op := [Op.sharedFromRaw 7 false, Op.makeShared 100 true]

/-- State after `demoOpsTwo`. -/
def demoStateTwo : State := (run State.init demoOpsTwo).getD State.init

/-- The ghost counters of cell `c` in `g` are at least those in `h`: between `h` and
`g` no call of `DeleteObject` or `delete block_` on `c` was undone. -/
def GhostLe (h g : Heap) (c : BlockId) : Prop :=
  (h c).deleteObjectCalls ≤ (g c).deleteObjectCalls ∧ (h c).deleteCalls ≤ (g c).deleteCalls

/-! ## Observations of a state and the simulation between the two block variants -/

/-- What the public queries show of a state: `UseCount()` of every live `SharedPtr`,
`UseCount()` and `Expired()` of every live `WeakPtr`, whether `Lock()` on it returns an
empty handle, and for every allocated block how often its managed object has been
destroyed. -/
structure Observation where
  useCounts : List Nat
  weakUseCounts : List Nat
  expired : List Bool
  lockEmpty : List Bool
  destroyed : List Nat
deriving DecidableEq, Repr

/-- Whether `w.Lock()` returns a handle for which `operator bool` is false. -/
def lockIsEmpty (h : Heap) (w : WeakPtr) : Bool :=
  match (WeakPtr.Lock h w).2 with
  | Except.ok p => !p.toBool
  | Except.error _ => true

/-- The observation of a state. -/
def observe (s : State) : Observation :=
  { useCounts := s.shared.map (fun p => p.UseCount s.heap),
    weakUseCounts := s.weak.map (fun w => w.UseCount s.heap),
    expired := s.weak.map (fun w => w.Expired s.heap),
    lockEmpty := s.weak.map (fun w => lockIsEmpty s.heap w),
    destroyed := (List.range s.next).map (fun c => (s.heap c).deleteObjectCalls) }

/-- Two cells agree in everything but the variant of the block and the address that
`weak_this_` observes. -/
def SimBlock (x y : Block) : Prop :=
  x.toControlBlockBase = y.toControlBlockBase ∧
    x.weak_this_.map (fun w => w.block_) = y.weak_this_.map (fun w => w.block_) ∧
    x.deleteObjectCalls = y.deleteObjectCalls ∧ x.deleteCalls = y.deleteCalls

/-- Two heaps agree cell by cell up to `SimBlock`. -/
def SimHeap (h g : Heap) : Prop := ∀ c, SimBlock (h c) (g c)

/-- Two states agree up to the variants of the blocks and the observed addresses. -/
def Sim (s t : State) : Prop :=
  SimHeap s.heap t.heap ∧ s.next = t.next ∧
    s.shared.map (fun p => p.block_) = t.shared.map (fun p => p.block_) ∧
    s.weak.map (fun w => w.block_) = t.weak.map (fun w => w.block_)

/-- Two outcomes of an operation agree: both undefined, or both defined and similar. -/
def SimOpt : Option State → Option State → Prop
  | some s, some t => Sim s t
  | none, none => True
  | _, _ => False

/-- Operations applied to the first handle after its construction: it is copied,
observed, both handles die, and the observer is locked. -/
def demoOpsAfter : List Op :=
  [Op.sharedCopy 0, Op.weakFromShared 0, Op.sharedDestroy 0, Op.sharedDestroy 0, Op.weakLock 0]

/-! ## intrusive.h

The intrusive pointer keeps the counter inside the object. Objects live in a heap of
their own, indexed by their address; a handle is a nullable address. -/

/-- Address of a `RefCounted` object; `none` in a handle is `nullptr`. -/
abbrev ObjId := Nat

/-- `class SimpleCounter`, one member `size_t count_ = 0`. -/
structure SimpleCounter where
  count_ : Nat
deriving DecidableEq, Repr

/-- The default member initialiser `count_ = 0`. -/
def SimpleCounter.default : SimpleCounter := { count_ := 0 }

/-- `IncRef() { ++count_; return count_; }`: the counter afterwards and the value
returned. As for the control block, the counter counts live handles and cannot reach
`2 ^ 64`, so the increment is not wrapped. -/
def SimpleCounter.IncRef (c : SimpleCounter) : SimpleCounter × Nat :=
  ({ count_ := c.count_ + 1 }, c.count_ + 1)

/-- `DecRef() { --count_; return count_; }` on a `size_t`: from 0 it wraps to
`SIZE_MAX`. -/
def SimpleCounter.DecRef (c : SimpleCounter) : SimpleCounter × Nat :=
  let n := if c.count_ = 0 then SIZE_MAX else c.count_ - 1
  ({ count_ := n }, n)

/-- `RefCount() const { return count_; }`. -/
def SimpleCounter.RefCount (c : SimpleCounter) : Nat := c.count_

/-- The `RefCounted<Derived, Counter, Deleter>` base of one object, with
`Counter = SimpleCounter`. Two ghost fields record calls: `destroyCalls` counts the
calls `Deleter::Destroy(this)`, `incRefCalls` the calls `IncRef()`. -/
structure RefCounted where
  counter_ : SimpleCounter
  destroyCalls : Nat
  incRefCalls : Nat
deriving DecidableEq, Repr

/-- `RefCounted() = default;`: the counter is default-initialised. -/
def RefCounted.default : RefCounted :=
  { counter_ := SimpleCounter.default, destroyCalls := 0, incRefCalls := 0 }

/-- The copy constructor of `RefCounted`. The class declares none (only
`operator=` is user-provided), so it is the implicitly-defined one, which
copy-constructs `counter_` from `other.counter_`. It is also what
`RefCounted(RefCounted&&)` resolves to, since no move constructor is declared. -/
def RefCounted.copyCtor (other : RefCounted) : RefCounted :=
  { counter_ := other.counter_, destroyCalls := 0, incRefCalls := 0 }

/-- `RefCounted& operator=(const RefCounted& other) { return *this; }`: nothing is
assigned. -/
def RefCounted.assign (self : RefCounted) (_other : RefCounted) : RefCounted := self

/-- `RefCount() const { return counter_.RefCount(); }`. -/
def RefCounted.RefCount (r : RefCounted) : Nat := r.counter_.RefCount

/-- The objects, by address. -/
abbrev ObjHeap := ObjId → RefCounted

/-- `Deleter::Destroy(static_cast<Derived*>(this))`, recorded in `destroyCalls`. -/
def Deleter.Destroy (h : ObjHeap) (o : ObjId) : ObjHeap :=
  Function.update h o { h o with destroyCalls := (h o).destroyCalls + 1 }

/-- `IncRef() { counter_.IncRef(); }` on the object at `o`. -/
def RefCounted.IncRef (h : ObjHeap) (o : ObjId) : ObjHeap :=
  Function.update h o
    { h o with counter_ := (h o).counter_.IncRef.1, incRefCalls := (h o).incRefCalls + 1 }

/-- `DecRef()` on the object at `o`:
`counter_.DecRef(); if (counter_.RefCount() == 0) { Deleter::Destroy(...); }`. -/
def RefCounted.DecRef (h : ObjHeap) (o : ObjId) : ObjHeap :=
  let h1 := Function.update h o { h o with counter_ := (h o).counter_.DecRef.1 }
  if (h1 o).counter_.RefCount = 0 then Deleter.Destroy h1 o else h1

/-- The expression `new T(args...)` placing an object at the fresh address `o`.
`src = none`: the constructor of `T` default-initialises its `RefCounted` base.
`src = some q`: `T` is copy-constructed from the object at `q` by its
implicitly-defined copy constructor, which copy-constructs the base. -/
def ObjHeap.newObject (h : ObjHeap) (o : ObjId) (src : Option ObjId) : ObjHeap :=
  match src with
  | none => Function.update h o RefCounted.default
  | some q => Function.update h o (RefCounted.copyCtor (h q))

/-- `IntrusivePtr<T>`: the member `T* ptr_`. -/
structure IntrusivePtr where
  ptr_ : Option ObjId
deriving DecidableEq, Repr

/-- `IntrusivePtr() : ptr_(nullptr)`, also `IntrusivePtr(std::nullptr_t)`. -/
def IntrusivePtr.default : IntrusivePtr := { ptr_ := none }

/-- `Get() const { return ptr_; }`. -/
def IntrusivePtr.Get (p : IntrusivePtr) : Option ObjId := p.ptr_

/-- `IntrusivePtr(T* ptr) : ptr_(ptr) { if (ptr_) ptr_->IncRef(); }`. -/
def IntrusivePtr.fromRaw (h : ObjHeap) (ptr : Option ObjId) : ObjHeap × IntrusivePtr :=
  match ptr with
  | none => (h, { ptr_ := none })
  | some o => (RefCounted.IncRef h o, { ptr_ := some o })

/-- `IntrusivePtr(const IntrusivePtr& other) : ptr_(other.Get())
{ if (ptr_) ptr_->IncRef(); }`, also the converting template. -/
def IntrusivePtr.copy (h : ObjHeap) (other : IntrusivePtr) : ObjHeap × IntrusivePtr :=
  match other.Get with
  | none => (h, { ptr_ := none })
  | some o => (RefCounted.IncRef h o, { ptr_ := some o })

/-- `IntrusivePtr(IntrusivePtr&& other) : ptr_(other.Get()) { other.ptr_ = nullptr; }`,
also the converting template: the new handle and what is left of `other`. -/
def IntrusivePtr.move (other : IntrusivePtr) : IntrusivePtr × IntrusivePtr :=
  ({ ptr_ := other.Get }, { other with ptr_ := none })

/-- `Swap(IntrusivePtr& other) { std::swap(ptr_, other.ptr_); }`: `self` and `other`
afterwards. -/
def IntrusivePtr.Swap (self other : IntrusivePtr) : IntrusivePtr × IntrusivePtr :=
  ({ self with ptr_ := other.ptr_ }, { other with ptr_ := self.ptr_ })

/-- `~IntrusivePtr() { if (!ptr_) return; ptr_->DecRef(); }`. -/
def IntrusivePtr.dtor (h : ObjHeap) (p : IntrusivePtr) : ObjHeap :=
  match p.ptr_ with
  | none => h
  | some o => RefCounted.DecRef h o

/-- `operator=(const IntrusivePtr& other) { IntrusivePtr(other).Swap(*this); ... }`:
the temporary is copied from `other`, swapped with `*this` and destroyed. -/
def IntrusivePtr.assign (h : ObjHeap) (self other : IntrusivePtr) :
    ObjHeap × IntrusivePtr :=
  let t := IntrusivePtr.copy h other
  let r := IntrusivePtr.Swap t.2 self
  (IntrusivePtr.dtor t.1 r.1, r.2)

/-- `Reset() { IntrusivePtr().Swap(*this); }`. -/
def IntrusivePtr.Reset (h : ObjHeap) (self : IntrusivePtr) : ObjHeap × IntrusivePtr :=
  let r := IntrusivePtr.Swap IntrusivePtr.default self
  (IntrusivePtr.dtor h r.1, r.2)

/-- `Reset(T* ptr) { IntrusivePtr(ptr).Swap(*this); }`. -/
def IntrusivePtr.ResetPtr (h : ObjHeap) (self : IntrusivePtr) (ptr : Option ObjId) :
    ObjHeap × IntrusivePtr :=
  let t := IntrusivePtr.fromRaw h ptr
  let r := IntrusivePtr.Swap t.2 self
  (IntrusivePtr.dtor t.1 r.1, r.2)

/-- `UseCount() const { if (!ptr_) return 0; return ptr_->RefCount(); }`. -/
def IntrusivePtr.UseCount (h : ObjHeap) (p : IntrusivePtr) : Nat :=
  match p.ptr_ with
  | none => 0
  | some o => (h o).RefCount

/-- `explicit operator bool() const { return ptr_ != nullptr; }`. -/
def IntrusivePtr.toBool (p : IntrusivePtr) : Bool := p.ptr_ != none

/-- `MakeIntrusive<T>(args...)`: a default handle, `T* ptr = new T(args...)` at the
fresh address `o`, `intrusive_ptr.ptr_ = ptr; ptr->IncRef();`. -/
def MakeIntrusive (h : ObjHeap) (o : ObjId) (src : Option ObjId) :
    ObjHeap × IntrusivePtr :=
  let intrusive_ptr := IntrusivePtr.default
  let h1 := h.newObject o src
  let intrusive_ptr := { intrusive_ptr with ptr_ := some o }
  (RefCounted.IncRef h1 o, intrusive_ptr)

/-- A program state of the intrusive pointer: the objects, the next fresh address and
the live handles. -/
structure IntrusiveState where
  heap : ObjHeap
  next : ObjId
  handles : List IntrusivePtr

/-- The state before any operation. -/
def IntrusiveState.init : IntrusiveState :=
  { heap := fun _ => RefCounted.default, next := 0, handles := [] }

/-- The object at `o` has been allocated and `Deleter::Destroy` has not run on it. -/
def IntrusiveState.alive (s : IntrusiveState) (o : ObjId) : Bool :=
  decide (o < s.next) && decide ((s.heap o).destroyCalls = 0)

/-- A raw pointer a program may pass: null, or the address of an object that is
alive. -/
def IntrusiveState.validRaw (s : IntrusiveState) (ptr : Option ObjId) : Bool :=
  match ptr with
  | none => true
  | some o => s.alive o

/-- The operations of a program on intrusive pointers; `i`, `j` index the live
handles. -/
inductive IntrusiveOp
  | default
  | newObject (src : Option ObjId)
  | fromRaw (ptr : Option ObjId)
  | make (src : Option ObjId)
  | copy (i : Nat)
  | move (i : Nat)
  | assign (i j : Nat)
  | moveAssign (i j : Nat)
  | reset (i : Nat)
  | resetPtr (i : Nat) (ptr : Option ObjId)
  | swap (i j : Nat)
  | destroy (i : Nat)
deriving DecidableEq, Repr

/-- One operation. The result is `none` where the program has no defined behaviour:
a handle index out of range, or a raw pointer that is neither null nor the address of
an object that is alive. -/
def intrusiveStep (s : IntrusiveState) : IntrusiveOp → Option IntrusiveState
  | IntrusiveOp.default => some { s with handles := s.handles ++ [IntrusivePtr.default] }
  | IntrusiveOp.newObject src =>
    if s.validRaw src then
      some { s with heap := s.heap.newObject s.next src, next := s.next + 1 }
    else none
  | IntrusiveOp.fromRaw ptr =>
    if s.validRaw ptr then
      let r := IntrusivePtr.fromRaw s.heap ptr
      some { s with heap := r.1, handles := s.handles ++ [r.2] }
    else none
  | IntrusiveOp.make src =>
    if s.validRaw src then
      let r := MakeIntrusive s.heap s.next src
      some { s with heap := r.1, next := s.next + 1, handles := s.handles ++ [r.2] }
    else none
  | IntrusiveOp.copy i =>
    match s.handles[i]? with
    | none => none
    | some other =>
      let r := IntrusivePtr.copy s.heap other
      some { s with heap := r.1, handles := s.handles ++ [r.2] }
  | IntrusiveOp.move i =>
    match s.handles[i]? with
    | none => none
    | some other =>
      let m := IntrusivePtr.move other
      some { s with handles := s.handles.set i m.2 ++ [m.1] }
  | IntrusiveOp.assign i j =>
    match s.handles[i]?, s.handles[j]? with
    | some self, some other =>
      let r := IntrusivePtr.assign s.heap self other
      some { s with heap := r.1, handles := s.handles.set i r.2 }
    | _, _ => none
  | IntrusiveOp.moveAssign i j =>
    match s.handles[j]? with
    | none => none
    | some other =>
      let m := IntrusivePtr.move other
      let handles1 := s.handles.set j m.2
      match handles1[i]? with
      | none => none
      | some self =>
        let r := IntrusivePtr.Swap m.1 self
        some { s with heap := IntrusivePtr.dtor s.heap r.1, handles := handles1.set i r.2 }
  | IntrusiveOp.reset i =>
    match s.handles[i]? with
    | none => none
    | some self =>
      let r := IntrusivePtr.Reset s.heap self
      some { s with heap := r.1, handles := s.handles.set i r.2 }
  | IntrusiveOp.resetPtr i ptr =>
    match s.handles[i]? with
    | none => none
    | some self =>
      if s.validRaw ptr then
        let r := IntrusivePtr.ResetPtr s.heap self ptr
        some { s with heap := r.1, handles := s.handles.set i r.2 }
      else none
  | IntrusiveOp.swap i j =>
    match s.handles[i]?, s.handles[j]? with
    | some a, some b =>
      let r := IntrusivePtr.Swap a b
      some { s with handles := (s.handles.set i r.1).set j r.2 }
    | _, _ => none
  | IntrusiveOp.destroy i =>
    match s.handles[i]? with
    | none => none
    | some p =>
      some { s with heap := IntrusivePtr.dtor s.heap p, handles := s.handles.eraseIdx i }

/-- A sequence of operations, stopping at the first undefined one. -/
def intrusiveRun (s : IntrusiveState) : List IntrusiveOp → Option IntrusiveState
  | [] => some s
  | op :: ops =>
    match intrusiveStep s op with
    | none => none
    | some s1 => intrusiveRun s1 ops

/-- Number of live handles whose `ptr_` is the object at `o`. -/
def countHandles (l : List IntrusivePtr) (o : ObjId) : Nat :=
  (l.filter (fun p => p.ptr_ == some o)).length

/-- The operation constructs no object as a copy of another one. -/
def IntrusiveOp.constructsFresh : IntrusiveOp → Bool
  | IntrusiveOp.newObject (some _) => false
  | IntrusiveOp.make (some _) => false
  | _ => true

/-- What the counting discipline promises for one object with `c` live handles:
the counter is `c`; `Destroy` has run at most once, and it has run exactly when the
object has been referenced and has no handle left; an address not yet allocated has no
handle and no call. -/
structure IntrusiveCell (r : RefCounted) (c : Nat) (allocated : Prop) : Prop where
  count : r.counter_.count_ = c
  once : r.destroyCalls = if c = 0 ∧ 0 < r.incRefCalls then 1 else 0
  referenced : 0 < c → 0 < r.incRefCalls
  fresh : ¬allocated → c = 0 ∧ r.incRefCalls = 0

/-- The cell property for every object, for the counts `cnt`. -/
def IntrusiveInvC (h : ObjHeap) (n : ObjId) (cnt : ObjId → Nat) : Prop :=
  ∀ o, IntrusiveCell (h o) (cnt o) (o < n)

/-- The invariant of a state: every counter is the number of live handles. -/
def IntrusiveInv (s : IntrusiveState) : Prop :=
  IntrusiveInvC s.heap s.next (countHandles s.handles)

/-- One object is made, then a second one is made as a copy of it. -/
def demoIntrusiveOps : List IntrusiveOp :=
  [IntrusiveOp.make none, IntrusiveOp.make (some 0)]

/-- State after `demoIntrusiveOps`. -/
def demoIntrusive : IntrusiveState :=
  (intrusiveRun IntrusiveState.init demoIntrusiveOps).getD IntrusiveState.init

/-- A fresh object is made, its handle is copied, moved and reassigned. -/
def demoIntrusiveFreshOps : List IntrusiveOp :=
  [IntrusiveOp.make none, IntrusiveOp.copy 0, IntrusiveOp.move 1, IntrusiveOp.assign 1 0,
    IntrusiveOp.reset 0]

/-- State after `demoIntrusiveFreshOps`. -/
def demoIntrusiveFresh : IntrusiveState :=
  (intrusiveRun IntrusiveState.init demoIntrusiveFreshOps).getD IntrusiveState.init

/-! ## Construction paths outside the named operations -/

/-- The copy constructor of `EnableSharedFromThis<T>`. The class declares none, so it
is the implicitly-defined one, which copy-constructs the member `weak_this_` with
`WeakPtr(const WeakPtr&)`. It runs when an object of a type deriving from
`EnableSharedFromThis` is copy-constructed (`Self x(*p);`). -/
def EnableSharedFromThis.copyCtor (h : Heap) (other : EnableSharedFromThis) :
    Option (Heap × EnableSharedFromThis) :=
  match WeakPtr.copy h other.weak_this_ with
  | none => none
  | some r => some (r.1, { weak_this_ := r.2 })

/-- The initialisation `WeakPtr<T>(std::move(other))` for `other` of another type
`WeakPtr<Y>`. The constructor `template <typename Y> WeakPtr(WeakPtr&& other)` takes a
`WeakPtr<T>&&`: `Y` occurs nowhere in its parameter, cannot be deduced, and the
template is never selected. Overload resolution binds the rvalue to
`template <typename Y> WeakPtr(const WeakPtr<Y>& other)`. Returns the new observer and
`other`, which that constructor does not write. -/
def WeakPtr.moveConverting (h : Heap) (other : WeakPtr) :
    Option (Heap × WeakPtr × WeakPtr) :=
  match WeakPtr.copy h other with
  | none => none
  | some r => some (r.1, r.2, other)

/-- The calls `~SharedPtr` makes on its block, each `DeleteObject` with the heap in
which it is called. -/
inductive DtorEvent where
  | Decrement (b : BlockId) : DtorEvent
  | DeleteObject (b : BlockId) (atCall : Heap) : DtorEvent
  | deleteBlock (b : BlockId) : DtorEvent

/-- Source `SharedPtr::~SharedPtr`, statement by statement, with the calls it makes in
the order it makes them, and the heap it leaves. -/
def SharedPtr.dtorTrace (h : Heap) (p : SharedPtr) : List DtorEvent × Heap :=
  match p.block_ with
  | none => ([], h)
  | some b =>
    let t1 := [DtorEvent.Decrement b]
    let h1 := h.Decrement b
    if (h1 b).GetReferenceCount = 0 ∧ (h1 b).GetWeakCount = 0 then
      let t2 := t1 ++ [DtorEvent.DeleteObject b h1]
      let h2 := h1.DeleteObject b
      let t3 := t2 ++ [DtorEvent.deleteBlock b]
      let h3 := h2.deleteBlock b
      (t3, h3)
    else if (h1 b).GetReferenceCount = 0 then
      let t2 := t1 ++ [DtorEvent.DeleteObject b h1]
      let h2 := h1.DeleteObject b
      (t2, h2)
    else
      (t1, h1)

/-- A self-referential object is made in place. -/
def demoOpsOwned : List Op := [Op.makeShared 100 true]

/-- State after `demoOpsOwned`. -/
def demoStateOwned : State := (run State.init demoOpsOwned).getD State.init

/-! ## Effect of the primitive operations on one cell -/

theorem WeakPtr_dtor_none (h : Heap) (o : Addr) : WeakPtr.dtor h ⟨none, o⟩ = h := rfl

theorem WeakPtr_dtor_some (h : Heap) (b : BlockId) (o : Addr) :
    WeakPtr.dtor h ⟨some b, o⟩ = Function.update h b
      { h b with
        weak_count_ := if (h b).weak_count_ = 0 then SIZE_MAX else (h b).weak_count_ - 1
        deleteCalls := (h b).deleteCalls +
          if (h b).reference_count_ = 0 ∧
            (if (h b).weak_count_ = 0 then SIZE_MAX else (h b).weak_count_ - 1) = 0 then 1 else 0 } := by
  simp only [WeakPtr.dtor, Heap.DecrementWeak, Heap.deleteBlock, ControlBlockBase.DecrementWeak,
    ControlBlockBase.GetReferenceCount, ControlBlockBase.GetWeakCount, Function.update_same]
  split_ifs <;> simp_all

theorem SharedPtr_dtor_other (h : Heap) (b c : BlockId) (o : Addr)
    (hown : ∀ x, (h b).weak_this_ = some x → x.block_ = none ∨ x.block_ = some b)
    (hc : c ≠ b) : (SharedPtr.dtor h ⟨o, some b⟩) c = h c := by
  have key : ∀ g : Heap, g c = h c → (g b).weak_this_ = (h b).weak_this_ →
      (Heap.DeleteObject g b) c = h c := by
    intro g hg hw
    unfold Heap.DeleteObject
    rw [hw]
    rcases hx : (h b).weak_this_ with _ | ⟨xb, xo⟩
    · cases (g b).kind <;> simp [Function.update_noteq hc, hg]
    · rcases hown _ hx with h1 | h1
      · simp only at h1; subst h1
        cases (g b).kind <;> simp [WeakPtr_dtor_none, Function.update_noteq hc, hg]
      · simp only at h1; subst h1
        cases (g b).kind <;> simp [WeakPtr_dtor_some, Function.update_noteq hc, hg]
  simp only [SharedPtr.dtor]
  split_ifs
  · simp only [Heap.deleteBlock, Function.update_noteq hc]
    exact key _ (by simp [Heap.Decrement, Function.update_noteq hc]) (by simp [Heap.Decrement])
  · exact key _ (by simp [Heap.Decrement, Function.update_noteq hc]) (by simp [Heap.Decrement])
  · simp [Heap.Decrement, Function.update_noteq hc]

theorem SharedPtr_dtor_same (h : Heap) (b n s w : Nat) (o : Addr)
    (hi : CellInv h b n (s + 1) w) : CellInv (SharedPtr.dtor h ⟨o, some b⟩) b n s w := by
  obtain ⟨h1, h2, h3, h4, h5, h6⟩ := hi
  have hb : b < n := by
    by_contra hn
    have := (h6 (by omega)).1
    omega
  have h4 := h4 hb
  have h5 := h5 hb
  rw [if_neg (by omega)] at h4
  rw [if_neg (by omega)] at h5
  rcases hx : (h b).weak_this_ with _ | ⟨xb, xo⟩
  · have hs : selfW h b = 0 := by simp [selfW, memberObserves, hx]
    rw [hs] at h2
    rcases hk : (h b).kind with p | p <;>
    constructor <;>
    simp [SharedPtr.dtor, Heap.Decrement, Heap.DeleteObject, Heap.deleteBlock,
      ControlBlockBase.Decrement, ControlBlockBase.GetReferenceCount,
      ControlBlockBase.GetWeakCount, hx, hk, h1, h2, h4, h5, selfW, memberObserves] <;>
    by_cases hs0 : s = 0 <;> by_cases hw0 : w = 0 <;> simp [hs0, hw0, hb]
  · rcases h3 _ hx with hx1 | hx1
    · simp only at hx1
      subst hx1
      have hs : selfW h b = 0 := by simp [selfW, memberObserves, hx]
      rw [hs] at h2
      rcases hk : (h b).kind with p | p <;>
      constructor <;>
      simp [SharedPtr.dtor, Heap.Decrement, Heap.DeleteObject, Heap.deleteBlock,
        ControlBlockBase.Decrement, ControlBlockBase.GetReferenceCount, WeakPtr_dtor_none,
        ControlBlockBase.GetWeakCount, hx, hk, h1, h2, h4, h5, selfW, memberObserves] <;>
      by_cases hs0 : s = 0 <;> by_cases hw0 : w = 0 <;> simp [hs0, hw0, hb]
    · simp only at hx1
      subst hx1
      have hs : selfW h b = 1 := by simp [selfW, memberObserves, hx, h4]
      rw [hs] at h2
      rcases hk : (h b).kind with p | p <;>
      constructor <;>
      simp [SharedPtr.dtor, Heap.Decrement, Heap.DeleteObject, Heap.deleteBlock,
        ControlBlockBase.Decrement, ControlBlockBase.GetReferenceCount, WeakPtr_dtor_some,
        ControlBlockBase.GetWeakCount, hx, hk, h1, h2, h4, h5, selfW, memberObserves] <;>
      by_cases hs0 : s = 0 <;> by_cases hw0 : w = 0 <;> simp [hs0, hw0, hb]

theorem fresh_block_closed (h : Heap) (b : BlockId) (kind : BlockKind) (ptr : Addr) :
    assignWeakThis ((h.newBlock b kind true).Increment b) b ⟨ptr, some b⟩ =
      some (Function.update h b
        { reference_count_ := 1, weak_count_ := 1, kind := kind,
          weak_this_ := some ⟨some b, ptr⟩, deleteObjectCalls := 0, deleteCalls := 0 }) := by
  simp [assignWeakThis, WeakPtr.fromShared, WeakPtr.move, WeakPtr.Lock, WeakPtr.Expired,
    SharedPtr.fromWeak, WeakPtr.AddRef, SharedPtr.AddRef, Heap.newBlock, Heap.Increment,
    Heap.IncrementWeak, ControlBlockBase.Increment, ControlBlockBase.IncrementWeak,
    ControlBlockBase.GetReferenceCount, SharedPtr.dtor, Heap.Decrement, ControlBlockBase.Decrement,
    ControlBlockBase.GetWeakCount, WeakPtr.Reset, WeakPtr.Swap, WeakPtr.default, WeakPtr.dtor,
    Heap.DecrementWeak, ControlBlockBase.DecrementWeak, SharedPtr.Get]

theorem selfW_congr (h g : Heap) (b : BlockId)
    (h1 : (g b).deleteObjectCalls = (h b).deleteObjectCalls)
    (h2 : (g b).weak_this_ = (h b).weak_this_) : selfW g b = selfW h b := by
  simp [selfW, memberObserves, h1, h2]

theorem CellInv_frame (h g : Heap) (c n s w : Nat) (heq : g c = h c)
    (hi : CellInv h c n s w) : CellInv g c n s w := by
  obtain ⟨h1, h2, h3, h4, h5, h6⟩ := hi
  have hs : selfW g c = selfW h c := selfW_congr h g c (by rw [heq]) (by rw [heq])
  constructor
  · rw [heq]; exact h1
  · rw [heq, hs]; exact h2
  · rw [heq]; exact h3
  · rw [heq]; exact h4
  · rw [heq]; exact h5
  · rw [heq]; exact h6

theorem CellInv_lt (h : Heap) (b n s w : Nat) (hi : CellInv h b n s w)
    (hs : 0 < (h b).reference_count_ ∨ 0 < (h b).weak_count_) : b < n := by
  by_contra hn
  have := hi.fresh (by omega)
  omega

theorem CellInv_Increment (h : Heap) (b n s w : Nat) (hi : CellInv h b n s w) (hs : 0 < s) :
    CellInv (h.Increment b) b n (s + 1) w := by
  have hb : b < n := CellInv_lt h b n s w hi (Or.inl (by rw [hi.strong]; exact hs))
  obtain ⟨h1, h2, h3, h4, h5, h6⟩ := hi
  have h4 := h4 hb
  have h5 := h5 hb
  rw [if_neg (by omega)] at h4
  rw [if_neg (by omega)] at h5
  have hsw : selfW (h.Increment b) b = selfW h b :=
    selfW_congr h _ b (by simp [Heap.Increment]) (by simp [Heap.Increment])
  refine ⟨?_, ?_, ?_, ?_, ?_, ?_⟩
  · simp [Heap.Increment, ControlBlockBase.Increment, h1]
  · rw [hsw, ← h2]; simp [Heap.Increment, ControlBlockBase.Increment]
  · simpa [Heap.Increment] using h3
  · simp [Heap.Increment, ControlBlockBase.Increment, h4]
  · simp [Heap.Increment, ControlBlockBase.Increment, h5]
  · intro hn; omega

theorem CellInv_IncrementWeak (h : Heap) (b n s w : Nat) (hi : CellInv h b n s w)
    (hs : 0 < (h b).reference_count_ ∨ 0 < (h b).weak_count_) :
    CellInv (h.IncrementWeak b) b n s (w + 1) := by
  have hb : b < n := CellInv_lt h b n s w hi hs
  obtain ⟨h1, h2, h3, h4, h5, h6⟩ := hi
  have h4 := h4 hb
  have h5 := h5 hb
  rw [if_neg (by omega)] at h5
  have hsw : selfW (h.IncrementWeak b) b = selfW h b :=
    selfW_congr h _ b (by simp [Heap.IncrementWeak]) (by simp [Heap.IncrementWeak])
  refine ⟨?_, ?_, ?_, ?_, ?_, ?_⟩
  · simp [Heap.IncrementWeak, ControlBlockBase.IncrementWeak, h1]
  · rw [hsw]; simp [Heap.IncrementWeak, ControlBlockBase.IncrementWeak, h2]; omega
  · simpa [Heap.IncrementWeak] using h3
  · intro _; simpa [Heap.IncrementWeak, ControlBlockBase.IncrementWeak] using h4
  · simp [Heap.IncrementWeak, ControlBlockBase.IncrementWeak, h5]
  · intro hn; omega

theorem CellInv_weak_dtor (h : Heap) (b n s w : Nat) (o : Addr)
    (hi : CellInv h b n s (w + 1)) : CellInv (WeakPtr.dtor h ⟨some b, o⟩) b n s w := by
  have hb : b < n := CellInv_lt h b n s _ hi (Or.inr (by rw [hi.weak]; omega))
  obtain ⟨h1, h2, h3, h4, h5, h6⟩ := hi
  have h4 := h4 hb
  have h5 := h5 hb
  rw [if_neg (by omega)] at h5
  have hsw : selfW (WeakPtr.dtor h ⟨some b, o⟩) b = selfW h b :=
    selfW_congr h _ b (by simp [WeakPtr_dtor_some]) (by simp [WeakPtr_dtor_some])
  have hw : (h b).weak_count_ ≠ 0 := by omega
  refine ⟨?_, ?_, ?_, ?_, ?_, ?_⟩
  · simp [WeakPtr_dtor_some, h1]
  · rw [hsw]; simp [WeakPtr_dtor_some, hw, h2]
  · simpa [WeakPtr_dtor_some] using h3
  · intro _; simpa [WeakPtr_dtor_some] using h4
  · intro _
    simp only [WeakPtr_dtor_some, Function.update_same, if_neg hw, h5, h1]
    by_cases hs0 : s = 0 <;> by_cases hw0 : (h b).weak_count_ - 1 = 0 <;> simp [hs0, hw0]
  · intro hn; omega

theorem WeakPtr_dtor_other (h : Heap) (b c : BlockId) (o : Addr) (hc : c ≠ b) :
    (WeakPtr.dtor h ⟨some b, o⟩) c = h c := by
  simp [WeakPtr_dtor_some, Function.update_noteq hc]

/-! ## Effect of the primitive operations on the heap invariant -/

theorem InvC_congr (h : Heap) (n : Nat) (cs cw cs2 cw2 : BlockId → Nat)
    (hi : InvC h n cs cw) (h1 : ∀ c, cs c = cs2 c) (h2 : ∀ c, cw c = cw2 c) :
    InvC h n cs2 cw2 := by
  intro c
  rw [← h1 c, ← h2 c]
  exact hi c

theorem ind_none (c : BlockId) : ind none c = 0 := by simp [ind]

theorem ind_some (b c : BlockId) : ind (some b) c = if b = c then 1 else 0 := by simp [ind]

theorem InvC_AddRef (h : Heap) (n : Nat) (cs cw : BlockId → Nat) (p : SharedPtr)
    (hi : InvC h n cs cw) (hp : ∀ b, p.block_ = some b → 0 < cs b) :
    InvC (SharedPtr.AddRef h p) n (fun c => cs c + ind p.block_ c) cw := by
  intro c
  rcases p with ⟨o, _ | b⟩
  · simpa [SharedPtr.AddRef, ind_none] using hi c
  · by_cases hc : c = b
    · subst hc
      simpa [SharedPtr.AddRef, ind_some] using
        CellInv_Increment h c n (cs c) (cw c) (hi c) (hp c rfl)
    · have : ind (some b) c = 0 := by simp [ind_some, Ne.symm hc]
      simp only [SharedPtr.AddRef, this, Nat.add_zero]
      exact CellInv_frame h _ c n _ _ (by simp [Heap.Increment, Function.update_noteq hc]) (hi c)

theorem InvC_dtor (h : Heap) (n : Nat) (cs cw : BlockId → Nat) (p : SharedPtr)
    (hi : InvC h n (fun c => cs c + ind p.block_ c) cw) :
    InvC (SharedPtr.dtor h p) n cs cw := by
  intro c
  rcases p with ⟨o, _ | b⟩
  · simpa [SharedPtr.dtor, ind_none] using hi c
  · by_cases hc : c = b
    · subst hc
      have := hi c
      simp only [ind_some, if_true] at this
      exact SharedPtr_dtor_same h c n (cs c) (cw c) o this
    · have h0 : ind (some b) c = 0 := by simp [ind_some, Ne.symm hc]
      have := hi c
      simp only [h0, Nat.add_zero] at this
      exact CellInv_frame h _ c n _ _ (SharedPtr_dtor_other h b c o (hi b).own hc) this

theorem InvC_weak_AddRef (h : Heap) (n : Nat) (cs cw : BlockId → Nat) (w : WeakPtr)
    (hi : InvC h n cs cw)
    (hw : ∀ b, w.block_ = some b → 0 < (h b).reference_count_ ∨ 0 < (h b).weak_count_) :
    InvC (WeakPtr.AddRef h w) n cs (fun c => cw c + ind w.block_ c) := by
  intro c
  rcases w with ⟨_ | b, o⟩
  · simpa [WeakPtr.AddRef, ind_none] using hi c
  · by_cases hc : c = b
    · subst hc
      simpa [WeakPtr.AddRef, ind_some] using
        CellInv_IncrementWeak h c n (cs c) (cw c) (hi c) (hw c rfl)
    · have : ind (some b) c = 0 := by simp [ind_some, Ne.symm hc]
      simp only [WeakPtr.AddRef, this, Nat.add_zero]
      exact CellInv_frame h _ c n _ _
        (by simp [Heap.IncrementWeak, Function.update_noteq hc]) (hi c)

theorem InvC_weak_dtor (h : Heap) (n : Nat) (cs cw : BlockId → Nat) (w : WeakPtr)
    (hi : InvC h n cs (fun c => cw c + ind w.block_ c)) :
    InvC (WeakPtr.dtor h w) n cs cw := by
  intro c
  rcases w with ⟨_ | b, o⟩
  · simpa [WeakPtr_dtor_none, ind_none] using hi c
  · by_cases hc : c = b
    · subst hc
      have := hi c
      simp only [ind_some, if_true] at this
      exact CellInv_weak_dtor h c n (cs c) (cw c) o this
    · have h0 : ind (some b) c = 0 := by simp [ind_some, Ne.symm hc]
      have := hi c
      simp only [h0, Nat.add_zero] at this
      exact CellInv_frame h _ c n _ _ (WeakPtr_dtor_other h b c o hc) this

/-! ## Counting handles in lists -/

theorem filter_length_set {α : Type} (q : α → Bool) (l : List α) (i : Nat) (a x : α)
    (hl : l[i]? = some a) :
    ((l.set i x).filter q).length + (if q a then 1 else 0) =
      (l.filter q).length + (if q x then 1 else 0) := by
  induction l generalizing i with
  | nil => simp at hl
  | cons y ys ih =>
    cases i with
    | zero =>
      simp only [List.getElem?_cons_zero, Option.some.injEq] at hl
      subst hl
      simp only [List.set_cons_zero, List.filter_cons]
      by_cases h1 : q y <;> by_cases h2 : q x <;> simp [h1, h2]
    | succ k =>
      simp only [List.getElem?_cons_succ] at hl
      have := ih k hl
      simp only [List.set_cons_succ, List.filter_cons]
      by_cases h1 : q y <;> simp [h1] <;> omega

theorem filter_length_eraseIdx {α : Type} (q : α → Bool) (l : List α) (i : Nat) (a : α)
    (hl : l[i]? = some a) :
    ((l.eraseIdx i).filter q).length + (if q a then 1 else 0) = (l.filter q).length := by
  induction l generalizing i with
  | nil => simp at hl
  | cons y ys ih =>
    cases i with
    | zero =>
      simp only [List.getElem?_cons_zero, Option.some.injEq] at hl
      subst hl
      simp only [List.eraseIdx_cons_zero, List.filter_cons]
      by_cases h1 : q y <;> simp [h1]
    | succ k =>
      simp only [List.getElem?_cons_succ] at hl
      have := ih k hl
      simp only [List.eraseIdx_cons_succ, List.filter_cons]
      by_cases h1 : q y <;> simp [h1] <;> omega

theorem filter_length_pos {α : Type} (q : α → Bool) (l : List α) (i : Nat) (a : α)
    (hl : l[i]? = some a) (ha : q a = true) : 0 < (l.filter q).length := by
  have hm : a ∈ l := List.getElem?_mem hl
  exact List.length_pos_of_mem (List.mem_filter.mpr ⟨hm, ha⟩)

theorem ind_eq (o : Option BlockId) (b : BlockId) :
    ind o b = if (o == some b) = true then 1 else 0 := by
  simp [ind]

theorem countShared_append (S : List SharedPtr) (p : SharedPtr) (b : BlockId) :
    countShared (S ++ [p]) b = countShared S b + ind p.block_ b := by
  simp only [countShared, List.filter_append, List.length_append, ind_eq, List.filter_cons]
  by_cases h1 : (p.block_ == some b) = true <;> simp [h1]

theorem countShared_set (S : List SharedPtr) (i : Nat) (a x : SharedPtr) (b : BlockId)
    (hl : S[i]? = some a) :
    countShared (S.set i x) b + ind a.block_ b = countShared S b + ind x.block_ b := by
  simp only [countShared, ind_eq]
  exact filter_length_set (fun p => p.block_ == some b) S i a x hl

theorem countShared_eraseIdx (S : List SharedPtr) (i : Nat) (a : SharedPtr) (b : BlockId)
    (hl : S[i]? = some a) :
    countShared (S.eraseIdx i) b + ind a.block_ b = countShared S b := by
  simp only [countShared, ind_eq]
  exact filter_length_eraseIdx (fun p => p.block_ == some b) S i a hl

theorem countShared_pos (S : List SharedPtr) (i : Nat) (a : SharedPtr) (b : BlockId)
    (hl : S[i]? = some a) (ha : a.block_ = some b) : 0 < countShared S b := by
  simp only [countShared]
  exact filter_length_pos (fun p => p.block_ == some b) S i a hl (by simp [ha])

theorem countWeak_append (W : List WeakPtr) (w : WeakPtr) (b : BlockId) :
    countWeak (W ++ [w]) b = countWeak W b + ind w.block_ b := by
  simp only [countWeak, List.filter_append, List.length_append, ind_eq, List.filter_cons]
  by_cases h1 : (w.block_ == some b) = true <;> simp [h1]

theorem countWeak_set (W : List WeakPtr) (i : Nat) (a x : WeakPtr) (b : BlockId)
    (hl : W[i]? = some a) :
    countWeak (W.set i x) b + ind a.block_ b = countWeak W b + ind x.block_ b := by
  simp only [countWeak, ind_eq]
  exact filter_length_set (fun p => p.block_ == some b) W i a x hl

theorem countWeak_eraseIdx (W : List WeakPtr) (i : Nat) (a : WeakPtr) (b : BlockId)
    (hl : W[i]? = some a) :
    countWeak (W.eraseIdx i) b + ind a.block_ b = countWeak W b := by
  simp only [countWeak, ind_eq]
  exact filter_length_eraseIdx (fun p => p.block_ == some b) W i a hl

theorem countWeak_pos (W : List WeakPtr) (i : Nat) (a : WeakPtr) (b : BlockId)
    (hl : W[i]? = some a) (ha : a.block_ = some b) : 0 < countWeak W b := by
  simp only [countWeak]
  exact filter_length_pos (fun p => p.block_ == some b) W i a hl (by simp [ha])

/-! ## Closed forms of the composite operations -/

theorem SharedPtr_Swap_eq (a b : SharedPtr) : SharedPtr.Swap a b = (b, a) := rfl

theorem WeakPtr_Swap_eq (a b : WeakPtr) : WeakPtr.Swap a b = (b, a) := rfl

theorem SharedPtr_dtor_default (h : Heap) : SharedPtr.dtor h SharedPtr.default = h := rfl

theorem SharedPtr_dtor_none (h : Heap) (o : Addr) : SharedPtr.dtor h ⟨o, none⟩ = h := rfl

theorem WeakPtr_dtor_default (h : Heap) : WeakPtr.dtor h WeakPtr.default = h := rfl

theorem SharedPtr_copy_eq (h : Heap) (other : SharedPtr) :
    SharedPtr.copy h other = (SharedPtr.AddRef h other, other) := rfl

theorem SharedPtr_Reset_eq (h : Heap) (self : SharedPtr) :
    SharedPtr.Reset h self = (SharedPtr.dtor h self, SharedPtr.default) := rfl

theorem SharedPtr_move_eq (h : Heap) (other : SharedPtr) :
    SharedPtr.move h other =
      (SharedPtr.dtor (SharedPtr.AddRef h other) other, other, SharedPtr.default) := rfl

theorem SharedPtr_aliasMove_eq (h : Heap) (other : SharedPtr) (ptr : Addr) :
    SharedPtr.aliasMove h other ptr =
      (SharedPtr.dtor (SharedPtr.AddRef h other) other, ⟨ptr, other.block_⟩,
        SharedPtr.default) := rfl

theorem SharedPtr_assign_eq (h : Heap) (self other : SharedPtr) :
    SharedPtr.assign h self other = (SharedPtr.dtor (SharedPtr.AddRef h other) self, other) := rfl

theorem WeakPtr_Reset_eq (h : Heap) (self : WeakPtr) :
    WeakPtr.Reset h self = (WeakPtr.dtor h self, WeakPtr.default) := rfl

theorem dtor_Increment (h : Heap) (b : BlockId) (o : Addr)
    (hpos : 0 < (h b).reference_count_) :
    SharedPtr.dtor (h.Increment b) ⟨o, some b⟩ = h := by
  have h1 : (h b).reference_count_ ≠ 0 := by omega
  simp [SharedPtr.dtor, Heap.Increment, Heap.Decrement, ControlBlockBase.Increment,
    ControlBlockBase.Decrement, ControlBlockBase.GetReferenceCount, h1]

theorem Lock_closed (h : Heap) (w : WeakPtr) :
    WeakPtr.Lock h w =
      if w.Expired h then (h, Except.ok SharedPtr.default)
      else (SharedPtr.AddRef h ⟨w.observed_, w.block_⟩, Except.ok ⟨w.observed_, w.block_⟩) := by
  unfold WeakPtr.Lock SharedPtr.fromWeak
  by_cases he : w.Expired h = true <;> simp [he]

theorem WeakPtr_copy_closed (h : Heap) (other : WeakPtr) :
    WeakPtr.copy h other =
      some (WeakPtr.AddRef h ⟨other.block_, if other.Expired h then 0 else other.observed_⟩,
        ⟨other.block_, if other.Expired h then 0 else other.observed_⟩) := by
  unfold WeakPtr.copy
  rw [Lock_closed]
  by_cases he : other.Expired h = true
  · simp [he, SharedPtr_dtor_none, SharedPtr.Get, SharedPtr.default]
  · rcases other with ⟨_ | b, o⟩
    · simp [WeakPtr.Expired] at he
    · have hpos : 0 < (h b).reference_count_ := by
        simp [WeakPtr.Expired, ControlBlockBase.GetReferenceCount] at he
        omega
      simp [he, SharedPtr.AddRef, dtor_Increment h b o hpos, SharedPtr.Get]

theorem WeakPtr_move_closed (h : Heap) (other : WeakPtr) :
    WeakPtr.move h other =
      some (WeakPtr.dtor
          (WeakPtr.AddRef h ⟨other.block_, if other.Expired h then 0 else other.observed_⟩) other,
        ⟨other.block_, if other.Expired h then 0 else other.observed_⟩, WeakPtr.default) := by
  unfold WeakPtr.move
  rw [Lock_closed]
  by_cases he : other.Expired h = true
  · simp [he, SharedPtr_dtor_none, SharedPtr.Get, SharedPtr.default, WeakPtr_Reset_eq]
  · rcases other with ⟨_ | b, o⟩
    · simp [WeakPtr.Expired] at he
    · have hpos : 0 < (h b).reference_count_ := by
        simp [WeakPtr.Expired, ControlBlockBase.GetReferenceCount] at he
        omega
      simp [he, SharedPtr.AddRef, dtor_Increment h b o hpos, SharedPtr.Get, WeakPtr_Reset_eq]

theorem WeakPtr_assign_closed (h : Heap) (self other : WeakPtr) :
    WeakPtr.assign h self other =
      some (WeakPtr.dtor
          (WeakPtr.AddRef h ⟨other.block_, if other.Expired h then 0 else other.observed_⟩) self,
        ⟨other.block_, if other.Expired h then 0 else other.observed_⟩) := by
  unfold WeakPtr.assign
  rw [WeakPtr_copy_closed]
  rfl

theorem fromRaw_plain (h : Heap) (b : BlockId) (ptr : Addr) :
    SharedPtr.fromRaw h b ptr false =
      some (Function.update h b
        { reference_count_ := 1, weak_count_ := 0, kind := BlockKind.pointer ptr,
          weak_this_ := none, deleteObjectCalls := 0, deleteCalls := 0 }, ⟨ptr, some b⟩) := by
  simp [SharedPtr.fromRaw, SharedPtr.AddRef, Heap.newBlock, Heap.Increment,
    ControlBlockBase.Increment]

theorem fromRaw_esft (h : Heap) (b : BlockId) (ptr : Addr) (hp : ptr ≠ 0) :
    SharedPtr.fromRaw h b ptr true =
      some (Function.update h b
        { reference_count_ := 1, weak_count_ := 1, kind := BlockKind.pointer ptr,
          weak_this_ := some ⟨some b, ptr⟩, deleteObjectCalls := 0, deleteCalls := 0 },
        ⟨ptr, some b⟩) := by
  simp only [SharedPtr.fromRaw, SharedPtr.AddRef, if_true, if_neg hp, fresh_block_closed]

theorem fromRaw_esft_null (h : Heap) (b : BlockId) :
    SharedPtr.fromRaw h b 0 true = none := by
  simp [SharedPtr.fromRaw]

theorem MakeShared_plain (h : Heap) (b : BlockId) (storage : Addr) :
    MakeShared h b storage false =
      some (Function.update h b
        { reference_count_ := 1, weak_count_ := 0, kind := BlockKind.holder storage,
          weak_this_ := none, deleteObjectCalls := 0, deleteCalls := 0 }, ⟨storage, some b⟩) := by
  simp [MakeShared, Heap.newBlock, Heap.Increment, ControlBlockBase.Increment, SharedPtr.default]

theorem MakeShared_esft (h : Heap) (b : BlockId) (storage : Addr) :
    MakeShared h b storage true =
      some (Function.update h b
        { reference_count_ := 1, weak_count_ := 1, kind := BlockKind.holder storage,
          weak_this_ := some ⟨some b, storage⟩, deleteObjectCalls := 0, deleteCalls := 0 },
        ⟨storage, some b⟩) := by
  simp only [MakeShared, SharedPtr.default, if_true, fresh_block_closed]

/-! ## Every operation keeps the counting invariant -/

theorem CellInv_fresh_plain (h : Heap) (n : Nat) (kind : BlockKind) :
    CellInv (Function.update h n
      { reference_count_ := 1, weak_count_ := 0, kind := kind, weak_this_ := none,
        deleteObjectCalls := 0, deleteCalls := 0 }) n (n + 1) 1 0 := by
  constructor <;> simp [selfW, memberObserves]

theorem CellInv_fresh_esft (h : Heap) (n : Nat) (kind : BlockKind) (ptr : Addr) :
    CellInv (Function.update h n
      { reference_count_ := 1, weak_count_ := 1, kind := kind,
        weak_this_ := some ⟨some n, ptr⟩, deleteObjectCalls := 0, deleteCalls := 0 })
      n (n + 1) 1 0 := by
  constructor <;> simp [selfW, memberObserves]

theorem InvC_alloc (h : Heap) (n : Nat) (cs cw : BlockId → Nat) (blk : Block)
    (hi : InvC h n cs cw) (hb : CellInv (Function.update h n blk) n (n + 1) 1 0) :
    InvC (Function.update h n blk) (n + 1) (fun c => cs c + ind (some n) c) cw := by
  intro c
  by_cases hc : c = n
  · subst hc
    have hf := (hi c).fresh (Nat.le_refl c)
    have h1 : cs c = 0 := by rw [← (hi c).strong]; exact hf.1
    have h2 : cw c = 0 := by
      have := (hi c).weak
      omega
    simpa [ind_some, h1, h2] using hb
  · have h0 : ind (some n) c = 0 := by simp [ind_some, Ne.symm hc]
    simp only [h0, Nat.add_zero]
    have hc2 := CellInv_frame h (Function.update h n blk) c n _ _
      (by simp [Function.update_noteq hc]) (hi c)
    exact ⟨hc2.strong, hc2.weak, hc2.own, fun hlt => hc2.del (by omega),
      fun hlt => hc2.free (by omega), fun hle => hc2.fresh (by omega)⟩

theorem fromRaw_InvC (h h2 : Heap) (n : Nat) (cs cw : BlockId → Nat) (ptr : Addr)
    (esft : Bool) (p : SharedPtr) (hi : InvC h n cs cw)
    (hr : SharedPtr.fromRaw h n ptr esft = some (h2, p)) :
    p = ⟨ptr, some n⟩ ∧ InvC h2 (n + 1) (fun c => cs c + ind (some n) c) cw := by
  cases esft
  · rw [fromRaw_plain] at hr
    simp only [Option.some.injEq, Prod.mk.injEq] at hr
    obtain ⟨h1, h3⟩ := hr
    subst h1
    exact ⟨h3.symm, InvC_alloc h n cs cw _ hi (CellInv_fresh_plain h n _)⟩
  · by_cases hp : ptr = 0
    · subst hp
      rw [fromRaw_esft_null] at hr
      exact absurd hr (by simp)
    · rw [fromRaw_esft h n ptr hp] at hr
      simp only [Option.some.injEq, Prod.mk.injEq] at hr
      obtain ⟨h1, h3⟩ := hr
      subst h1
      exact ⟨h3.symm, InvC_alloc h n cs cw _ hi (CellInv_fresh_esft h n _ ptr)⟩

theorem MakeShared_InvC (h h2 : Heap) (n : Nat) (cs cw : BlockId → Nat) (storage : Addr)
    (esft : Bool) (p : SharedPtr) (hi : InvC h n cs cw)
    (hr : MakeShared h n storage esft = some (h2, p)) :
    p = ⟨storage, some n⟩ ∧ InvC h2 (n + 1) (fun c => cs c + ind (some n) c) cw := by
  cases esft
  · rw [MakeShared_plain] at hr
    simp only [Option.some.injEq, Prod.mk.injEq] at hr
    obtain ⟨h1, h3⟩ := hr
    subst h1
    exact ⟨h3.symm, InvC_alloc h n cs cw _ hi (CellInv_fresh_plain h n _)⟩
  · rw [MakeShared_esft] at hr
    simp only [Option.some.injEq, Prod.mk.injEq] at hr
    obtain ⟨h1, h3⟩ := hr
    subst h1
    exact ⟨h3.symm, InvC_alloc h n cs cw _ hi (CellInv_fresh_esft h n _ storage)⟩

theorem step_Inv_sharedDefault (s t : State) (hi : Inv s)
    (hs : step s Op.sharedDefault = some t) : Inv t := by
  obtain ⟨h, n, S, W⟩ := s
  simp only [step, Option.some.injEq] at hs
  subst hs
  exact InvC_congr _ _ _ _ _ _ hi
    (fun c => by simp [countShared_append, SharedPtr.default, ind_none]) (fun _ => rfl)

theorem step_Inv_sharedFromRaw (s t : State) (ptr : Addr) (esft : Bool) (hi : Inv s)
    (hs : step s (Op.sharedFromRaw ptr esft) = some t) : Inv t := by
  obtain ⟨h, n, S, W⟩ := s
  simp only [step] at hs
  rcases hr : SharedPtr.fromRaw h n ptr esft with _ | ⟨h2, p⟩
  · simp [hr] at hs
  · simp only [hr, Option.some.injEq] at hs
    subst hs
    obtain ⟨hp, h3⟩ := fromRaw_InvC h h2 n _ _ ptr esft p hi hr
    subst hp
    exact InvC_congr _ _ _ _ _ _ h3
      (fun c => (countShared_append S ⟨ptr, some n⟩ c).symm) (fun _ => rfl)

theorem step_Inv_makeShared (s t : State) (storage : Addr) (esft : Bool) (hi : Inv s)
    (hs : step s (Op.makeShared storage esft) = some t) : Inv t := by
  obtain ⟨h, n, S, W⟩ := s
  simp only [step] at hs
  rcases hr : MakeShared h n storage esft with _ | ⟨h2, p⟩
  · simp [hr] at hs
  · simp only [hr, Option.some.injEq] at hs
    subst hs
    obtain ⟨hp, h3⟩ := MakeShared_InvC h h2 n _ _ storage esft p hi hr
    subst hp
    exact InvC_congr _ _ _ _ _ _ h3
      (fun c => (countShared_append S ⟨storage, some n⟩ c).symm) (fun _ => rfl)

theorem step_Inv_sharedCopy (s t : State) (i : Nat) (hi : Inv s)
    (hs : step s (Op.sharedCopy i) = some t) : Inv t := by
  obtain ⟨h, n, S, W⟩ := s
  simp only [step] at hs
  rcases hl : S[i]? with _ | other
  · simp [hl] at hs
  · simp only [hl, SharedPtr_copy_eq, Option.some.injEq] at hs
    subst hs
    have hp : ∀ b, other.block_ = some b → 0 < countShared S b :=
      fun b hb => countShared_pos S i other b hl hb
    exact InvC_congr _ _ _ _ _ _ (InvC_AddRef h n _ _ other hi hp)
      (fun c => (countShared_append S other c).symm) (fun _ => rfl)

theorem step_Inv_sharedAlias (s t : State) (i : Nat) (ptr : Addr) (hi : Inv s)
    (hs : step s (Op.sharedAlias i ptr) = some t) : Inv t := by
  obtain ⟨h, n, S, W⟩ := s
  simp only [step] at hs
  rcases hl : S[i]? with _ | other
  · simp [hl] at hs
  · simp only [hl, SharedPtr.alias, Option.some.injEq] at hs
    subst hs
    have hp : ∀ b, (⟨ptr, other.block_⟩ : SharedPtr).block_ = some b → 0 < countShared S b :=
      fun b hb => countShared_pos S i other b hl hb
    exact InvC_congr _ _ _ _ _ _ (InvC_AddRef h n _ _ ⟨ptr, other.block_⟩ hi hp)
      (fun c => (countShared_append S _ c).symm) (fun _ => rfl)

theorem step_Inv_sharedMove (s t : State) (i : Nat) (hi : Inv s)
    (hs : step s (Op.sharedMove i) = some t) : Inv t := by
  obtain ⟨h, n, S, W⟩ := s
  simp only [step] at hs
  rcases hl : S[i]? with _ | other
  · simp [hl] at hs
  · simp only [hl, SharedPtr_move_eq, Option.some.injEq] at hs
    subst hs
    have hp : ∀ b, other.block_ = some b → 0 < countShared S b :=
      fun b hb => countShared_pos S i other b hl hb
    refine InvC_dtor _ _ _ _ other
      (InvC_congr _ _ _ _ _ _ (InvC_AddRef h n _ _ other hi hp) (fun c => ?_) (fun _ => rfl))
    have := countShared_set S i other SharedPtr.default c hl
    simp only [countShared_append, SharedPtr.default, ind_none] at *
    omega

theorem step_Inv_sharedAliasMove (s t : State) (i : Nat) (ptr : Addr) (hi : Inv s)
    (hs : step s (Op.sharedAliasMove i ptr) = some t) : Inv t := by
  obtain ⟨h, n, S, W⟩ := s
  simp only [step] at hs
  rcases hl : S[i]? with _ | other
  · simp [hl] at hs
  · simp only [hl, SharedPtr_aliasMove_eq, Option.some.injEq] at hs
    subst hs
    have hp : ∀ b, other.block_ = some b → 0 < countShared S b :=
      fun b hb => countShared_pos S i other b hl hb
    refine InvC_dtor _ _ _ _ other
      (InvC_congr _ _ _ _ _ _ (InvC_AddRef h n _ _ other hi hp) (fun c => ?_) (fun _ => rfl))
    have := countShared_set S i other SharedPtr.default c hl
    simp only [countShared_append, SharedPtr.default, ind_none] at *
    omega

theorem step_Inv_sharedAssign (s t : State) (i j : Nat) (hi : Inv s)
    (hs : step s (Op.sharedAssign i j) = some t) : Inv t := by
  obtain ⟨h, n, S, W⟩ := s
  simp only [step] at hs
  rcases hl : S[i]? with _ | self
  · simp [hl] at hs
  · rcases hj : S[j]? with _ | other
    · simp [hl, hj] at hs
    · simp only [hl, hj, SharedPtr_assign_eq, Option.some.injEq] at hs
      subst hs
      have hp : ∀ b, other.block_ = some b → 0 < countShared S b :=
        fun b hb => countShared_pos S j other b hj hb
      refine InvC_dtor _ _ _ _ self
        (InvC_congr _ _ _ _ _ _ (InvC_AddRef h n _ _ other hi hp) (fun c => ?_) (fun _ => rfl))
      have := countShared_set S i self other c hl
      simp only at *
      omega

theorem step_Inv_sharedReset (s t : State) (i : Nat) (hi : Inv s)
    (hs : step s (Op.sharedReset i) = some t) : Inv t := by
  obtain ⟨h, n, S, W⟩ := s
  simp only [step] at hs
  rcases hl : S[i]? with _ | self
  · simp [hl] at hs
  · simp only [hl, SharedPtr_Reset_eq, Option.some.injEq] at hs
    subst hs
    refine InvC_dtor _ _ _ _ self (InvC_congr _ _ _ _ _ _ hi (fun c => ?_) (fun _ => rfl))
    have := countShared_set S i self SharedPtr.default c hl
    simp only [SharedPtr.default, ind_none] at *
    omega

theorem step_Inv_sharedDestroy (s t : State) (i : Nat) (hi : Inv s)
    (hs : step s (Op.sharedDestroy i) = some t) : Inv t := by
  obtain ⟨h, n, S, W⟩ := s
  simp only [step] at hs
  rcases hl : S[i]? with _ | self
  · simp [hl] at hs
  · simp only [hl, Option.some.injEq] at hs
    subst hs
    refine InvC_dtor _ _ _ _ self (InvC_congr _ _ _ _ _ _ hi (fun c => ?_) (fun _ => rfl))
    have := countShared_eraseIdx S i self c hl
    simp only at *
    omega

theorem getElem?_set_some {α : Type} (l : List α) (i j : Nat) (x a b : α)
    (hi : l[i]? = some a) (hj : l[j]? = some b) :
    (l.set i x)[j]? = some (if i = j then x else b) := by
  rw [List.getElem?_set]
  by_cases hij : i = j
  · subst hij
    have hlt : i < l.length := (List.getElem?_eq_some.mp hi).1
    simp [hlt]
  · simp [hij, hj]

theorem fromWeak_InvC (h h1 : Heap) (n : Nat) (cs cw : BlockId → Nat) (w : WeakPtr)
    (r : Except BadWeakPtr SharedPtr) (hi : InvC h n cs cw)
    (hr : SharedPtr.fromWeak h w = (h1, r)) :
    (r = Except.error BadWeakPtr.mk ∧ h1 = h) ∨
      (∃ p, r = Except.ok p ∧ p.block_ = w.block_ ∧
        InvC h1 n (fun c => cs c + ind p.block_ c) cw) := by
  unfold SharedPtr.fromWeak at hr
  by_cases he : w.Expired h = true
  · simp only [he, if_true, Prod.mk.injEq] at hr
    exact Or.inl ⟨hr.2.symm, hr.1.symm⟩
  · have he2 : w.Expired h = false := by simpa using he
    simp only [he2, Bool.false_eq_true, if_false, Prod.mk.injEq] at hr
    refine Or.inr ⟨⟨w.observed_, w.block_⟩, hr.2.symm, rfl, ?_⟩
    rw [← hr.1]
    refine InvC_AddRef h n cs cw ⟨w.observed_, w.block_⟩ hi ?_
    intro b hb
    simp only at hb
    simp only [WeakPtr.Expired, hb, ControlBlockBase.GetReferenceCount] at he
    have := (hi b).strong
    simp at he
    omega

theorem Lock_InvC (h h1 : Heap) (n : Nat) (cs cw : BlockId → Nat) (w : WeakPtr)
    (r : Except BadWeakPtr SharedPtr) (hi : InvC h n cs cw)
    (hr : WeakPtr.Lock h w = (h1, r)) :
    ∃ p, r = Except.ok p ∧ InvC h1 n (fun c => cs c + ind p.block_ c) cw := by
  unfold WeakPtr.Lock at hr
  by_cases he : w.Expired h = true
  · simp only [he, if_true, Prod.mk.injEq] at hr
    refine ⟨SharedPtr.default, hr.2.symm, ?_⟩
    rw [← hr.1]
    exact InvC_congr _ _ _ _ _ _ hi (fun c => by simp [SharedPtr.default, ind_none])
      (fun _ => rfl)
  · have he2 : w.Expired h = false := by simpa using he
    simp only [he2, Bool.false_eq_true, if_false] at hr
    rcases fromWeak_InvC h h1 n cs cw w r hi hr with ⟨h2, h3⟩ | ⟨p, h2, _, h4⟩
    · subst h2
      unfold SharedPtr.fromWeak at hr
      simp [he] at hr
    · exact ⟨p, h2, h4⟩

theorem step_Inv_sharedFromWeak (s t : State) (j : Nat) (hi : Inv s)
    (hs : step s (Op.sharedFromWeak j) = some t) : Inv t := by
  obtain ⟨h, n, S, W⟩ := s
  simp only [step] at hs
  rcases hl : W[j]? with _ | other
  · simp [hl] at hs
  · simp only [hl] at hs
    rcases hr : SharedPtr.fromWeak h other with ⟨h1, r⟩
    rcases fromWeak_InvC h h1 n _ _ other r hi hr with ⟨h2, h3⟩ | ⟨p, h2, _, h4⟩
    · subst h2 h3
      simp only [hr, Option.some.injEq] at hs
      subst hs
      exact hi
    · subst h2
      simp only [hr, Option.some.injEq] at hs
      subst hs
      exact InvC_congr _ _ _ _ _ _ h4 (fun c => (countShared_append S p c).symm) (fun _ => rfl)

theorem step_Inv_sharedMoveAssign (s t : State) (i j : Nat) (hi : Inv s)
    (hs : step s (Op.sharedMoveAssign i j) = some t) : Inv t := by
  obtain ⟨h, n, S, W⟩ := s
  simp only [step] at hs
  rcases hj : S[j]? with _ | other
  · simp [hj] at hs
  · simp only [hj, SharedPtr_move_eq] at hs
    rcases hl : (S.set j SharedPtr.default)[i]? with _ | self
    · simp [hl] at hs
    · simp only [hl, SharedPtr_Swap_eq, Option.some.injEq] at hs
      subst hs
      have hp : ∀ b, other.block_ = some b → 0 < countShared S b :=
        fun b hb => countShared_pos S j other b hj hb
      have h1 : InvC (SharedPtr.dtor (SharedPtr.AddRef h other) other) n (countShared S)
          (countWeak W) := InvC_dtor _ _ _ _ other (InvC_AddRef h n _ _ other hi hp)
      refine InvC_dtor _ _ _ _ self (InvC_congr _ _ _ _ _ _ h1 (fun c => ?_) (fun _ => rfl))
      have e1 := countShared_set S j other SharedPtr.default c hj
      have e2 := countShared_set (S.set j SharedPtr.default) i self other c hl
      simp only [SharedPtr.default, ind_none] at *
      omega

theorem step_Inv_sharedResetPtr (s t : State) (i : Nat) (ptr : Addr) (esft : Bool)
    (hi : Inv s) (hs : step s (Op.sharedResetPtr i ptr esft) = some t) : Inv t := by
  obtain ⟨h, n, S, W⟩ := s
  simp only [step] at hs
  rcases hl : S[i]? with _ | self
  · simp [hl] at hs
  · simp only [hl, SharedPtr.ResetPtr] at hs
    rcases hr : SharedPtr.fromRaw h n ptr esft with _ | ⟨h2, p⟩
    · simp [hr] at hs
    · simp only [hr, SharedPtr_Swap_eq, Option.some.injEq] at hs
      subst hs
      obtain ⟨hp, h3⟩ := fromRaw_InvC h h2 n _ _ ptr esft p hi hr
      subst hp
      refine InvC_dtor _ _ _ _ self (InvC_congr _ _ _ _ _ _ h3 (fun c => ?_) (fun _ => rfl))
      have e1 := countShared_set S i self ⟨ptr, some n⟩ c hl
      simp only at *
      omega

theorem step_Inv_sharedSwap (s t : State) (i j : Nat) (hi : Inv s)
    (hs : step s (Op.sharedSwap i j) = some t) : Inv t := by
  obtain ⟨h, n, S, W⟩ := s
  simp only [step] at hs
  rcases hl : S[i]? with _ | self
  · simp [hl] at hs
  · rcases hj : S[j]? with _ | other
    · simp [hl, hj] at hs
    · simp only [hl, hj, SharedPtr_Swap_eq, Option.some.injEq] at hs
      subst hs
      refine InvC_congr _ _ _ _ _ _ hi (fun c => ?_) (fun _ => rfl)
      have e0 : (S.set i other)[j]? = some other := by
        rw [getElem?_set_some S i j other self other hl hj]
        simp
      have e1 := countShared_set S i self other c hl
      have e2 := countShared_set (S.set i other) j other self c e0
      simp only at *
      omega

theorem weak_live_of_count (h : Heap) (n : Nat) (cs cw : BlockId → Nat) (b : BlockId)
    (hi : InvC h n cs cw) (hc : 0 < cw b) :
    0 < (h b).reference_count_ ∨ 0 < (h b).weak_count_ := by
  have := (hi b).weak
  exact Or.inr (by omega)

theorem step_Inv_weakDefault (s t : State) (hi : Inv s)
    (hs : step s Op.weakDefault = some t) : Inv t := by
  obtain ⟨h, n, S, W⟩ := s
  simp only [step, Option.some.injEq] at hs
  subst hs
  exact InvC_congr _ _ _ _ _ _ hi (fun _ => rfl)
    (fun c => by simp [countWeak_append, WeakPtr.default, ind_none])

theorem step_Inv_weakCopy (s t : State) (j : Nat) (hi : Inv s)
    (hs : step s (Op.weakCopy j) = some t) : Inv t := by
  obtain ⟨h, n, S, W⟩ := s
  simp only [step] at hs
  rcases hl : W[j]? with _ | other
  · simp [hl] at hs
  · simp only [hl, WeakPtr_copy_closed, Option.some.injEq] at hs
    subst hs
    have hp : ∀ b, other.block_ = some b →
        0 < (h b).reference_count_ ∨ 0 < (h b).weak_count_ :=
      fun b hb => weak_live_of_count h n _ _ b hi (countWeak_pos W j other b hl hb)
    exact InvC_congr _ _ _ _ _ _ (InvC_weak_AddRef h n _ _ ⟨other.block_, _⟩ hi hp)
      (fun _ => rfl) (fun c => (countWeak_append W ⟨other.block_, _⟩ c).symm)

theorem step_Inv_weakMove (s t : State) (j : Nat) (hi : Inv s)
    (hs : step s (Op.weakMove j) = some t) : Inv t := by
  obtain ⟨h, n, S, W⟩ := s
  simp only [step] at hs
  rcases hl : W[j]? with _ | other
  · simp [hl] at hs
  · simp only [hl, WeakPtr_move_closed, Option.some.injEq] at hs
    subst hs
    have hp : ∀ b, other.block_ = some b →
        0 < (h b).reference_count_ ∨ 0 < (h b).weak_count_ :=
      fun b hb => weak_live_of_count h n _ _ b hi (countWeak_pos W j other b hl hb)
    refine InvC_weak_dtor _ _ _ _ other
      (InvC_congr _ _ _ _ _ _ (InvC_weak_AddRef h n _ _ ⟨other.block_, _⟩ hi hp)
        (fun _ => rfl) (fun c => ?_))
    have := countWeak_set W j other WeakPtr.default c hl
    simp only [countWeak_append, WeakPtr.default, ind_none] at *
    omega

theorem step_Inv_weakFromShared (s t : State) (i : Nat) (hi : Inv s)
    (hs : step s (Op.weakFromShared i) = some t) : Inv t := by
  obtain ⟨h, n, S, W⟩ := s
  simp only [step] at hs
  rcases hl : S[i]? with _ | other
  · simp [hl] at hs
  · simp only [hl, WeakPtr.fromShared, Option.some.injEq] at hs
    subst hs
    have hp : ∀ b, (⟨other.block_, other.observed_⟩ : WeakPtr).block_ = some b →
        0 < (h b).reference_count_ ∨ 0 < (h b).weak_count_ := by
      intro b hb
      have h1 := countShared_pos S i other b hl hb
      have h2 := (hi b).strong
      simp only at h2
      exact Or.inl (by omega)
    exact InvC_congr _ _ _ _ _ _
      (InvC_weak_AddRef h n _ _ ⟨other.block_, other.observed_⟩ hi hp)
      (fun _ => rfl) (fun c => (countWeak_append W ⟨other.block_, other.observed_⟩ c).symm)

theorem step_Inv_weakAssign (s t : State) (i j : Nat) (hi : Inv s)
    (hs : step s (Op.weakAssign i j) = some t) : Inv t := by
  obtain ⟨h, n, S, W⟩ := s
  simp only [step] at hs
  rcases hl : W[i]? with _ | self
  · simp [hl] at hs
  · rcases hj : W[j]? with _ | other
    · simp [hl, hj] at hs
    · simp only [hl, hj, WeakPtr_assign_closed, Option.some.injEq] at hs
      subst hs
      have hp : ∀ b, other.block_ = some b →
          0 < (h b).reference_count_ ∨ 0 < (h b).weak_count_ :=
        fun b hb => weak_live_of_count h n _ _ b hi (countWeak_pos W j other b hj hb)
      refine InvC_weak_dtor _ _ _ _ self
        (InvC_congr _ _ _ _ _ _ (InvC_weak_AddRef h n _ _ ⟨other.block_, _⟩ hi hp)
          (fun _ => rfl) (fun c => ?_))
      have := countWeak_set W i self
        ⟨other.block_, if other.Expired h then 0 else other.observed_⟩ c hl
      simp only at *
      omega

theorem step_Inv_weakMoveAssign (s t : State) (i j : Nat) (hi : Inv s)
    (hs : step s (Op.weakMoveAssign i j) = some t) : Inv t := by
  obtain ⟨h, n, S, W⟩ := s
  simp only [step] at hs
  rcases hj : W[j]? with _ | other
  · simp [hj] at hs
  · simp only [hj, WeakPtr_move_closed] at hs
    rcases hl : (W.set j WeakPtr.default)[i]? with _ | self
    · simp [hl] at hs
    · simp only [hl, WeakPtr_Swap_eq, Option.some.injEq] at hs
      subst hs
      have hp : ∀ b, other.block_ = some b →
          0 < (h b).reference_count_ ∨ 0 < (h b).weak_count_ :=
        fun b hb => weak_live_of_count h n _ _ b hi (countWeak_pos W j other b hj hb)
      have h1 := InvC_weak_dtor _ _ _ _ other
        (InvC_weak_AddRef h n _ _ ⟨other.block_, if other.Expired h then 0 else other.observed_⟩
          hi hp)
      refine InvC_weak_dtor _ _ _ _ self (InvC_congr _ _ _ _ _ _ h1 (fun _ => rfl) (fun c => ?_))
      have e1 := countWeak_set W j other WeakPtr.default c hj
      have e2 := countWeak_set (W.set j WeakPtr.default) i self
        ⟨other.block_, if other.Expired h then 0 else other.observed_⟩ c hl
      simp only [WeakPtr.default, ind_none] at *
      omega

theorem step_Inv_weakReset (s t : State) (j : Nat) (hi : Inv s)
    (hs : step s (Op.weakReset j) = some t) : Inv t := by
  obtain ⟨h, n, S, W⟩ := s
  simp only [step] at hs
  rcases hl : W[j]? with _ | self
  · simp [hl] at hs
  · simp only [hl, WeakPtr_Reset_eq, Option.some.injEq] at hs
    subst hs
    refine InvC_weak_dtor _ _ _ _ self (InvC_congr _ _ _ _ _ _ hi (fun _ => rfl) (fun c => ?_))
    have := countWeak_set W j self WeakPtr.default c hl
    simp only [WeakPtr.default, ind_none] at *
    omega

theorem step_Inv_weakSwap (s t : State) (i j : Nat) (hi : Inv s)
    (hs : step s (Op.weakSwap i j) = some t) : Inv t := by
  obtain ⟨h, n, S, W⟩ := s
  simp only [step] at hs
  rcases hl : W[i]? with _ | self
  · simp [hl] at hs
  · rcases hj : W[j]? with _ | other
    · simp [hl, hj] at hs
    · simp only [hl, hj, WeakPtr_Swap_eq, Option.some.injEq] at hs
      subst hs
      refine InvC_congr _ _ _ _ _ _ hi (fun _ => rfl) (fun c => ?_)
      have e0 : (W.set i other)[j]? = some other := by
        rw [getElem?_set_some W i j other self other hl hj]
        simp
      have e1 := countWeak_set W i self other c hl
      have e2 := countWeak_set (W.set i other) j other self c e0
      simp only at *
      omega

theorem step_Inv_weakDestroy (s t : State) (j : Nat) (hi : Inv s)
    (hs : step s (Op.weakDestroy j) = some t) : Inv t := by
  obtain ⟨h, n, S, W⟩ := s
  simp only [step] at hs
  rcases hl : W[j]? with _ | self
  · simp [hl] at hs
  · simp only [hl, Option.some.injEq] at hs
    subst hs
    refine InvC_weak_dtor _ _ _ _ self (InvC_congr _ _ _ _ _ _ hi (fun _ => rfl) (fun c => ?_))
    have := countWeak_eraseIdx W j self c hl
    simp only at *
    omega

theorem step_Inv_weakLock (s t : State) (j : Nat) (hi : Inv s)
    (hs : step s (Op.weakLock j) = some t) : Inv t := by
  obtain ⟨h, n, S, W⟩ := s
  simp only [step] at hs
  rcases hl : W[j]? with _ | other
  · simp [hl] at hs
  · simp only [hl] at hs
    rcases hr : WeakPtr.Lock h other with ⟨h1, r⟩
    obtain ⟨p, h2, h4⟩ := Lock_InvC h h1 n _ _ other r hi hr
    subst h2
    simp only [hr, Option.some.injEq] at hs
    subst hs
    exact InvC_congr _ _ _ _ _ _ h4 (fun c => (countShared_append S p c).symm) (fun _ => rfl)

theorem step_Inv_sharedFromThis (s t : State) (b : BlockId) (hi : Inv s)
    (hs : step s (Op.sharedFromThis b) = some t) : Inv t := by
  obtain ⟨h, n, S, W⟩ := s
  simp only [step] at hs
  split at hs
  · rcases hw : (h b).weak_this_ with _ | wt
    · simp [hw] at hs
    · simp only [hw, EnableSharedFromThis.SharedFromThis] at hs
      rcases hr : SharedPtr.fromWeak h wt with ⟨h1, r⟩
      rcases fromWeak_InvC h h1 n _ _ wt r hi hr with ⟨h2, h3⟩ | ⟨p, h2, _, h4⟩
      · subst h2 h3
        simp only [hr, Option.some.injEq] at hs
        subst hs
        exact hi
      · subst h2
        simp only [hr, Option.some.injEq] at hs
        subst hs
        exact InvC_congr _ _ _ _ _ _ h4 (fun c => (countShared_append S p c).symm)
          (fun _ => rfl)
  · exact absurd hs (by simp)

theorem step_Inv_weakFromThis (s t : State) (b : BlockId) (hi : Inv s)
    (hs : step s (Op.weakFromThis b) = some t) : Inv t := by
  obtain ⟨h, n, S, W⟩ := s
  simp only [step] at hs
  split at hs
  · rename_i hg
    rcases hw : (h b).weak_this_ with _ | wt
    · simp [hw] at hs
    · simp only [hw, EnableSharedFromThis.WeakFromThis, WeakPtr_copy_closed,
        Option.some.injEq] at hs
      subst hs
      have hp : ∀ c, wt.block_ = some c →
          0 < (h c).reference_count_ ∨ 0 < (h c).weak_count_ := by
        intro c hc
        rcases (hi b).own wt hw with h1 | h1
        · rw [h1] at hc
          exact absurd hc (by simp)
        · rw [h1] at hc
          simp only [Option.some.injEq] at hc
          subst hc
          have h2 : (h b).weak_count_ = countWeak W b + selfW h b := (hi b).weak
          have h3 : selfW h b = 1 := by simp [selfW, memberObserves, hg.1, hw, h1]
          exact Or.inr (by omega)
      exact InvC_congr _ _ _ _ _ _ (InvC_weak_AddRef h n _ _ ⟨wt.block_, _⟩ hi hp)
        (fun _ => rfl) (fun c => (countWeak_append W ⟨wt.block_, _⟩ c).symm)
  · exact absurd hs (by simp)

theorem step_Inv (s t : State) (op : Op) (hi : Inv s) (hs : step s op = some t) : Inv t := by
  cases op with
  | sharedDefault => exact step_Inv_sharedDefault s t hi hs
  | sharedFromRaw ptr esft => exact step_Inv_sharedFromRaw s t ptr esft hi hs
  | makeShared storage esft => exact step_Inv_makeShared s t storage esft hi hs
  | sharedCopy i => exact step_Inv_sharedCopy s t i hi hs
  | sharedMove i => exact step_Inv_sharedMove s t i hi hs
  | sharedAlias i ptr => exact step_Inv_sharedAlias s t i ptr hi hs
  | sharedAliasMove i ptr => exact step_Inv_sharedAliasMove s t i ptr hi hs
  | sharedFromWeak j => exact step_Inv_sharedFromWeak s t j hi hs
  | sharedAssign i j => exact step_Inv_sharedAssign s t i j hi hs
  | sharedMoveAssign i j => exact step_Inv_sharedMoveAssign s t i j hi hs
  | sharedReset i => exact step_Inv_sharedReset s t i hi hs
  | sharedResetPtr i ptr esft => exact step_Inv_sharedResetPtr s t i ptr esft hi hs
  | sharedSwap i j => exact step_Inv_sharedSwap s t i j hi hs
  | sharedDestroy i => exact step_Inv_sharedDestroy s t i hi hs
  | weakDefault => exact step_Inv_weakDefault s t hi hs
  | weakCopy j => exact step_Inv_weakCopy s t j hi hs
  | weakMove j => exact step_Inv_weakMove s t j hi hs
  | weakFromShared i => exact step_Inv_weakFromShared s t i hi hs
  | weakAssign i j => exact step_Inv_weakAssign s t i j hi hs
  | weakMoveAssign i j => exact step_Inv_weakMoveAssign s t i j hi hs
  | weakReset j => exact step_Inv_weakReset s t j hi hs
  | weakSwap i j => exact step_Inv_weakSwap s t i j hi hs
  | weakDestroy j => exact step_Inv_weakDestroy s t j hi hs
  | weakLock j => exact step_Inv_weakLock s t j hi hs
  | sharedFromThis b => exact step_Inv_sharedFromThis s t b hi hs
  | weakFromThis b => exact step_Inv_weakFromThis s t b hi hs

theorem Inv_init : Inv State.init := by
  intro c
  constructor <;> simp [State.init, Block.unused, countShared, countWeak, selfW, memberObserves]

theorem run_Inv (ops : List Op) (s t : State) (hi : Inv s) (hr : run s ops = some t) :
    Inv t := by
  induction ops generalizing s with
  | nil =>
    simp only [run, Option.some.injEq] at hr
    subst hr
    exact hi
  | cons op ops ih =>
    simp only [run] at hr
    rcases hs : step s op with _ | s1
    · simp [hs] at hr
    · simp only [hs] at hr
      exact ih s1 (step_Inv s s1 op hi hs) hr

theorem Reachable_Inv (s : State) (hr : Reachable s) : Inv s := by
  obtain ⟨ops, h⟩ := hr
  exact run_Inv ops State.init s Inv_init h

/-! ## Progress -/

theorem getElem?_cases {α : Type} (l : List α) (i : Nat) :
    (i < l.length ∧ ∃ a, l[i]? = some a) ∨ (¬ i < l.length ∧ l[i]? = none) := by
  by_cases h : i < l.length
  · exact Or.inl ⟨h, l[i], List.getElem?_eq_getElem h⟩
  · exact Or.inr ⟨h, List.getElem?_eq_none (by omega)⟩

theorem fromRaw_isSome (h : Heap) (n : BlockId) (ptr : Addr) (esft : Bool) :
    (SharedPtr.fromRaw h n ptr esft).isSome = !(esft && ptr == 0) := by
  cases esft
  · simp [fromRaw_plain]
  · by_cases hp : ptr = 0
    · subst hp
      simp [fromRaw_esft_null]
    · simp [fromRaw_esft h n ptr hp, hp]

theorem MakeShared_isSome (h : Heap) (n : BlockId) (storage : Addr) (esft : Bool) :
    (MakeShared h n storage esft).isSome = true := by
  cases esft
  · simp [MakeShared_plain]
  · simp [MakeShared_esft]

theorem Lock_ok (h : Heap) (w : WeakPtr) : ∃ h1 p, WeakPtr.Lock h w = (h1, Except.ok p) := by
  rw [Lock_closed]
  by_cases he : w.Expired h = true
  · exact ⟨h, SharedPtr.default, by simp [he]⟩
  · exact ⟨SharedPtr.AddRef h ⟨w.observed_, w.block_⟩, ⟨w.observed_, w.block_⟩, by simp [he]⟩

/-- An operation fails to produce a next state only when it is not enabled. -/
theorem step_isSome (s : State) (op : Op) : (step s op).isSome = op.enabled s := by
  cases op with
  | sharedDefault => rfl
  | sharedFromRaw ptr esft =>
    have := fromRaw_isSome s.heap s.next ptr esft
    simp only [step, Op.enabled]
    rcases hr : SharedPtr.fromRaw s.heap s.next ptr esft with _ | r <;> simp_all
  | makeShared storage esft =>
    have := MakeShared_isSome s.heap s.next storage esft
    simp only [step, Op.enabled]
    rcases hr : MakeShared s.heap s.next storage esft with _ | r <;> simp_all
  | sharedCopy i =>
    rcases getElem?_cases s.shared i with ⟨h1, a, h2⟩ | ⟨h1, h2⟩ <;>
      simp [step, Op.enabled, h1, h2]
  | sharedMove i =>
    rcases getElem?_cases s.shared i with ⟨h1, a, h2⟩ | ⟨h1, h2⟩ <;>
      simp [step, Op.enabled, h1, h2]
  | sharedAlias i ptr =>
    rcases getElem?_cases s.shared i with ⟨h1, a, h2⟩ | ⟨h1, h2⟩ <;>
      simp [step, Op.enabled, h1, h2]
  | sharedAliasMove i ptr =>
    rcases getElem?_cases s.shared i with ⟨h1, a, h2⟩ | ⟨h1, h2⟩ <;>
      simp [step, Op.enabled, h1, h2]
  | sharedFromWeak j =>
    rcases getElem?_cases s.weak j with ⟨h1, a, h2⟩ | ⟨h1, h2⟩
    · simp only [step, Op.enabled, h1, h2]
      rcases SharedPtr.fromWeak s.heap a with ⟨g, _ | p⟩ <;> simp
    · simp [step, Op.enabled, h1, h2]
  | sharedAssign i j =>
    rcases getElem?_cases s.shared i with ⟨h1, a, h2⟩ | ⟨h1, h2⟩ <;>
    rcases getElem?_cases s.shared j with ⟨h3, c, h4⟩ | ⟨h3, h4⟩ <;>
      simp [step, Op.enabled, h1, h2, h3, h4]
  | sharedMoveAssign i j =>
    rcases getElem?_cases s.shared j with ⟨h3, c, h4⟩ | ⟨h3, h4⟩
    · rcases getElem?_cases (s.shared.set j (SharedPtr.move s.heap c).2.2) i with
        ⟨h1, a, h2⟩ | ⟨h1, h2⟩
      · have h5 : i < s.shared.length := by simpa using h1
        simp [step, Op.enabled, h2, h3, h4, h5]
      · have h5 : ¬ i < s.shared.length := by simpa using h1
        simp [step, Op.enabled, h2, h3, h4, h5]
    · simp [step, Op.enabled, h3, h4]
  | sharedReset i =>
    rcases getElem?_cases s.shared i with ⟨h1, a, h2⟩ | ⟨h1, h2⟩ <;>
      simp [step, Op.enabled, h1, h2]
  | sharedResetPtr i ptr esft =>
    rcases getElem?_cases s.shared i with ⟨h1, a, h2⟩ | ⟨h1, h2⟩
    · have := fromRaw_isSome s.heap s.next ptr esft
      simp only [step, Op.enabled, h2, SharedPtr.ResetPtr]
      rcases hr : SharedPtr.fromRaw s.heap s.next ptr esft with _ | r <;> simp_all
    · simp [step, Op.enabled, h1, h2]
  | sharedSwap i j =>
    rcases getElem?_cases s.shared i with ⟨h1, a, h2⟩ | ⟨h1, h2⟩ <;>
    rcases getElem?_cases s.shared j with ⟨h3, c, h4⟩ | ⟨h3, h4⟩ <;>
      simp [step, Op.enabled, h1, h2, h3, h4]
  | sharedDestroy i =>
    rcases getElem?_cases s.shared i with ⟨h1, a, h2⟩ | ⟨h1, h2⟩ <;>
      simp [step, Op.enabled, h1, h2]
  | weakDefault => rfl
  | weakCopy j =>
    rcases getElem?_cases s.weak j with ⟨h1, a, h2⟩ | ⟨h1, h2⟩ <;>
      simp [step, Op.enabled, h1, h2, WeakPtr_copy_closed]
  | weakMove j =>
    rcases getElem?_cases s.weak j with ⟨h1, a, h2⟩ | ⟨h1, h2⟩ <;>
      simp [step, Op.enabled, h1, h2, WeakPtr_move_closed]
  | weakFromShared i =>
    rcases getElem?_cases s.shared i with ⟨h1, a, h2⟩ | ⟨h1, h2⟩ <;>
      simp [step, Op.enabled, h1, h2]
  | weakAssign i j =>
    rcases getElem?_cases s.weak i with ⟨h1, a, h2⟩ | ⟨h1, h2⟩ <;>
    rcases getElem?_cases s.weak j with ⟨h3, c, h4⟩ | ⟨h3, h4⟩ <;>
      simp [step, Op.enabled, h1, h2, h3, h4, WeakPtr_assign_closed]
  | weakMoveAssign i j =>
    rcases getElem?_cases s.weak j with ⟨h3, c, h4⟩ | ⟨h3, h4⟩
    · rcases getElem?_cases (s.weak.set j WeakPtr.default) i with ⟨h1, a, h2⟩ | ⟨h1, h2⟩
      · have h5 : i < s.weak.length := by simpa using h1
        simp [step, Op.enabled, h2, h3, h4, h5, WeakPtr_move_closed]
      · have h5 : ¬ i < s.weak.length := by simpa using h1
        simp [step, Op.enabled, h2, h3, h4, h5, WeakPtr_move_closed]
    · simp [step, Op.enabled, h3, h4]
  | weakReset j =>
    rcases getElem?_cases s.weak j with ⟨h1, a, h2⟩ | ⟨h1, h2⟩ <;>
      simp [step, Op.enabled, h1, h2]
  | weakSwap i j =>
    rcases getElem?_cases s.weak i with ⟨h1, a, h2⟩ | ⟨h1, h2⟩ <;>
    rcases getElem?_cases s.weak j with ⟨h3, c, h4⟩ | ⟨h3, h4⟩ <;>
      simp [step, Op.enabled, h1, h2, h3, h4]
  | weakDestroy j =>
    rcases getElem?_cases s.weak j with ⟨h1, a, h2⟩ | ⟨h1, h2⟩ <;>
      simp [step, Op.enabled, h1, h2]
  | weakLock j =>
    rcases getElem?_cases s.weak j with ⟨h1, a, h2⟩ | ⟨h1, h2⟩
    · obtain ⟨g, p, hg⟩ := Lock_ok s.heap a
      simp [step, Op.enabled, h1, h2, hg]
    · simp [step, Op.enabled, h1, h2]
  | sharedFromThis b =>
    simp only [step, Op.enabled]
    by_cases hg : (s.heap b).deleteObjectCalls = 0 ∧ b < s.next
    · rcases hw : (s.heap b).weak_this_ with _ | wt
      · simp [hg, hw]
      · simp only [hg, and_self, if_true, hw, EnableSharedFromThis.SharedFromThis]
        rcases SharedPtr.fromWeak s.heap wt with ⟨g, _ | p⟩ <;> simp [hg]
    · rw [if_neg hg]
      rcases not_and_or.mp hg with h1 | h1 <;> simp [h1]
  | weakFromThis b =>
    simp only [step, Op.enabled]
    by_cases hg : (s.heap b).deleteObjectCalls = 0 ∧ b < s.next
    · rcases hw : (s.heap b).weak_this_ with _ | wt
      · simp [hg, hw]
      · simp [hg, hw, EnableSharedFromThis.WeakFromThis, WeakPtr_copy_closed]
    · rw [if_neg hg]
      rcases not_and_or.mp hg with h1 | h1 <;> simp [h1]

/-! ## The claims -/

theorem filter_range_unique (q : Nat → Bool) (b n : Nat) (hq : ∀ c, q c = true → c = b) :
    ((List.range n).filter q).length = if b < n ∧ q b = true then 1 else 0 := by
  induction n with
  | zero => simp
  | succ k ih =>
    rw [List.range_succ, List.filter_append, List.length_append, ih]
    by_cases hk : q k = true
    · have := hq k hk
      subst this
      simp [hk]
    · by_cases hb : b = k
      · subst hb
        simp [hk]
      · have h1 : (b < k + 1) = (b < k) := by
          apply propext
          omega
        simp [hk, h1]

theorem countMember_eq (s : State) (hi : Inv s) (b : BlockId) :
    countMember s b = selfW s.heap b := by
  have hq : ∀ c, memberObserves s.heap c b = true → c = b := by
    intro c hc
    simp only [memberObserves, Bool.and_eq_true, beq_iff_eq] at hc
    rcases hw : (s.heap c).weak_this_ with _ | w
    · simp [hw] at hc
    · simp only [hw, beq_iff_eq] at hc
      rcases (hi c).own w hw with h1 | h1
      · rw [h1] at hc
        exact absurd hc.2 (by simp)
      · rw [h1] at hc
        simpa using hc.2
  unfold countMember
  rw [filter_range_unique _ b s.next hq]
  unfold selfW
  by_cases hm : memberObserves s.heap b b = true
  · have hlt : b < s.next := by
      by_contra hn
      have hle : s.next ≤ b := Nat.le_of_not_lt hn
      have h1 : (s.heap b).reference_count_ = 0 ∧ (s.heap b).weak_count_ = 0 :=
        (hi b).fresh hle
      have h2 : (s.heap b).weak_count_ = countWeak s.weak b + selfW s.heap b := (hi b).weak
      simp only [selfW, hm, if_true] at h2
      omega
    simp [hm, hlt]
  · simp [hm]

/-- C1: after every completed operation of every program, the `strong_count` of every
control block equals the number of live `SharedPtr` objects whose `block_` is that
block. -/
theorem C1_strong_count_eq_live_handles (ops : List Op) (s : State)
    (hr : run State.init ops = some s) (b : BlockId) :
    (s.heap b).GetReferenceCount = countShared s.shared b :=
  (run_Inv ops State.init s Inv_init hr b).strong

theorem C1_witness :
    run State.init demoOps = some demoState ∧
      (demoState.heap 0).GetReferenceCount = countShared demoState.shared 0 ∧
      countShared demoState.shared 0 = 1 :=
  ⟨rfl, C1_strong_count_eq_live_handles demoOps demoState rfl 0, by decide⟩

theorem WeakPtr_dtor_calls (h : Heap) (w : WeakPtr) (c : BlockId) :
    ((WeakPtr.dtor h w) c).deleteObjectCalls = (h c).deleteObjectCalls := by
  rcases w with ⟨_ | b, o⟩
  · rfl
  · rw [WeakPtr_dtor_some]
    by_cases hc : c = b
    · subst hc
      simp
    · simp [Function.update_noteq hc]

theorem DeleteObject_calls (h : Heap) (b c : BlockId) :
    ((h.DeleteObject b) c).deleteObjectCalls =
      (h c).deleteObjectCalls + if c = b then 1 else 0 := by
  have key : ((Function.update h b
      { h b with deleteObjectCalls := (h b).deleteObjectCalls + 1 }) c).deleteObjectCalls =
      (h c).deleteObjectCalls + if c = b then 1 else 0 := by
    by_cases hc : c = b
    · subst hc
      simp
    · simp [Function.update_noteq hc, hc]
  unfold Heap.DeleteObject
  rcases (h b).kind with p | p <;> rcases (h b).weak_this_ with _ | w <;>
    simp only [WeakPtr_dtor_calls, key]

theorem SharedPtr_dtor_calls (h : Heap) (o : Addr) (b c : BlockId)
    (hpos : 0 < (h b).reference_count_) :
    ((SharedPtr.dtor h ⟨o, some b⟩) c).deleteObjectCalls =
      (h c).deleteObjectCalls + if c = b ∧ (h b).reference_count_ = 1 then 1 else 0 := by
  have hd : ∀ x, ((h.Decrement b) x).deleteObjectCalls = (h x).deleteObjectCalls := by
    intro x
    by_cases hx : x = b
    · subst hx
      simp [Heap.Decrement]
    · simp [Heap.Decrement, Function.update_noteq hx]
  have hr : ((h.Decrement b) b).reference_count_ = (h b).reference_count_ - 1 := by
    have : (h b).reference_count_ ≠ 0 := by omega
    simp [Heap.Decrement, ControlBlockBase.Decrement, this]
  have hb : ∀ (g : Heap) x, ((g.deleteBlock b) x).deleteObjectCalls = (g x).deleteObjectCalls := by
    intro g x
    by_cases hx : x = b
    · subst hx
      simp [Heap.deleteBlock]
    · simp [Heap.deleteBlock, Function.update_noteq hx]
  simp only [SharedPtr.dtor, ControlBlockBase.GetReferenceCount, hr]
  by_cases h1 : (h b).reference_count_ = 1
  · have h0 : (h b).reference_count_ - 1 = 0 := by omega
    simp only [h0, true_and, if_true, h1, and_true]
    split_ifs <;> simp_all [DeleteObject_calls]
  · have h0 : ¬ (h b).reference_count_ - 1 = 0 := by omega
    simp [h0, h1, hd]

/-- C2: `DeleteObject` runs on a block exactly once, at the `SharedPtr` destructor
that takes `strong_count` from 1 to 0, with or without live observers; never in a
`WeakPtr` destructor and never while `strong_count > 0`. After every completed
operation of every program, the number of `DeleteObject` calls on an allocated block
is 1 if its `strong_count` is 0 and 0 otherwise; `~WeakPtr` leaves that number
unchanged on every block; `~SharedPtr` of a live handle adds one call on its own
block exactly when the `strong_count` was 1, whatever the `weak_count`, and none
elsewhere. -/
theorem C2_DeleteObject_exactly_once (ops : List Op) (s : State)
    (hr : run State.init ops = some s) :
    (∀ b, b < s.next →
      (s.heap b).deleteObjectCalls = if (s.heap b).GetReferenceCount = 0 then 1 else 0) ∧
    (∀ w c, ((WeakPtr.dtor s.heap w) c).deleteObjectCalls = (s.heap c).deleteObjectCalls) ∧
    (∀ (i : Nat) (o : Addr) (b : BlockId), s.shared[i]? = some (SharedPtr.mk o (some b)) → ∀ c,
      ((SharedPtr.dtor s.heap (SharedPtr.mk o (some b))) c).deleteObjectCalls =
        (s.heap c).deleteObjectCalls +
          if c = b ∧ (s.heap b).GetReferenceCount = 1 then 1 else 0) := by
  have hi := run_Inv ops State.init s Inv_init hr
  refine ⟨fun b hb => (hi b).del hb, fun w c => WeakPtr_dtor_calls s.heap w c, ?_⟩
  intro i o b hl c
  have hpos : 0 < (s.heap b).reference_count_ := by
    have h1 : (s.heap b).reference_count_ = countShared s.shared b := (hi b).strong
    have h2 := countShared_pos s.shared i ⟨o, some b⟩ b hl rfl
    omega
  exact SharedPtr_dtor_calls s.heap o b c hpos

theorem C2_witness :
    run State.init demoOpsExpired = some demoStateExpired ∧
      (demoStateExpired.heap 0).GetReferenceCount = 0 ∧
      (demoStateExpired.heap 0).GetWeakCount = 2 ∧
      (demoStateExpired.heap 0).deleteObjectCalls = 1 ∧
      (∀ b, b < demoStateExpired.next →
        (demoStateExpired.heap b).deleteObjectCalls =
          if (demoStateExpired.heap b).GetReferenceCount = 0 then 1 else 0) :=
  ⟨rfl, by decide, by decide, by decide,
    (C2_DeleteObject_exactly_once demoOpsExpired demoStateExpired rfl).1⟩

/-- C3: a block is deallocated exactly once, exactly when `strong_count == 0` and
`weak_count == 0` hold together, and never while either count is positive, also
when the managed object holds a `weak_this_` to its own block that dies inside
`DeleteObject`. After every completed operation of every program, the number of
`delete block_` executions on an allocated block is 1 if both counters are 0 and
0 otherwise. -/
theorem C3_block_freed_exactly_once (ops : List Op) (s : State)
    (hr : run State.init ops = some s) (b : BlockId) (hb : b < s.next) :
    (s.heap b).deleteCalls =
      if (s.heap b).GetReferenceCount = 0 ∧ (s.heap b).GetWeakCount = 0 then 1 else 0 :=
  (run_Inv ops State.init s Inv_init hr b).free hb

theorem C3_witness :
    run State.init demoOpsFreed = some demoStateFreed ∧
      (0 < demoStateFreed.next ∧ (demoStateFreed.heap 0).deleteCalls = 1 ∧
        (demoStateFreed.heap 0).weak_this_ = some ⟨some 0, 100⟩) ∧
      (demoStateFreed.heap 0).deleteCalls =
        if (demoStateFreed.heap 0).GetReferenceCount = 0 ∧
          (demoStateFreed.heap 0).GetWeakCount = 0 then 1 else 0 :=
  ⟨rfl, by decide, C3_block_freed_exactly_once demoOpsFreed demoStateFreed rfl 0 (by decide)⟩

/-- C9: after every completed operation of every program, the `weak_count` of every
control block equals the number of live `WeakPtr` objects whose `block_` is that
block: the observers of the program plus the `weak_this_` members of managed objects
that are alive; no assumption on `strong_count`. -/
theorem C9_weak_count_eq_live_observers (ops : List Op) (s : State)
    (hr : run State.init ops = some s) (b : BlockId) :
    (s.heap b).GetWeakCount = countWeak s.weak b + countMember s b := by
  have hi := run_Inv ops State.init s Inv_init hr
  rw [countMember_eq s hi b]
  exact (hi b).weak

theorem C9_witness :
    run State.init demoOpsExpired = some demoStateExpired ∧
      (demoStateExpired.heap 0).GetReferenceCount = 0 ∧
      countWeak demoStateExpired.weak 0 = 2 ∧
      (demoStateExpired.heap 0).GetWeakCount =
        countWeak demoStateExpired.weak 0 + countMember demoStateExpired 0 ∧
      (demoState.heap 0).GetWeakCount = 2 ∧ countWeak demoState.weak 0 = 1 ∧
      countMember demoState 0 = 1 :=
  ⟨rfl, by decide, by decide,
    C9_weak_count_eq_live_observers demoOpsExpired demoStateExpired rfl 0,
    by decide, by decide, by decide⟩

theorem Increment_at (h : Heap) (b : BlockId) :
    ((h.Increment b) b).GetReferenceCount = (h b).GetReferenceCount + 1 ∧
      ((h.Increment b) b).GetWeakCount = (h b).GetWeakCount ∧
      ((h.Increment b) b).deleteObjectCalls = (h b).deleteObjectCalls ∧
      ((h.Increment b) b).deleteCalls = (h b).deleteCalls ∧
      ∀ c, c ≠ b → (h.Increment b) c = h c := by
  refine ⟨?_, ?_, ?_, ?_, ?_⟩
  · simp [Heap.Increment, ControlBlockBase.Increment, ControlBlockBase.GetReferenceCount]
  · simp [Heap.Increment, ControlBlockBase.Increment, ControlBlockBase.GetWeakCount]
  · simp [Heap.Increment]
  · simp [Heap.Increment]
  · intro c hc
    simp [Heap.Increment, Function.update_noteq hc]

theorem Expired_iff (h : Heap) (w : WeakPtr) :
    w.Expired h = true ↔
      (w.block_ = none ∨ ∃ b, w.block_ = some b ∧ (h b).GetReferenceCount = 0) := by
  rcases w with ⟨_ | b, o⟩
  · simp [WeakPtr.Expired]
  · simp [WeakPtr.Expired]

theorem fromWeak_live (h : Heap) (w : WeakPtr) (he : w.Expired h = false) :
    ∃ b, w.block_ = some b ∧ 0 < (h b).GetReferenceCount ∧
      SharedPtr.fromWeak h w = (h.Increment b, Except.ok ⟨w.observed_, some b⟩) := by
  rcases w with ⟨_ | b, o⟩
  · simp [WeakPtr.Expired] at he
  · refine ⟨b, rfl, ?_, ?_⟩
    · simp [WeakPtr.Expired] at he
      omega
    · simp [SharedPtr.fromWeak, he, SharedPtr.AddRef]

/-- C4: `Lock` on an expired observer returns an empty handle (`Get() == nullptr`,
`UseCount() == 0`) and leaves the heap as it was; on a live observer it returns a
handle with the observer's block and observed address, the block's `strong_count`
is one more than before, its `weak_count` is unchanged, and no other block changes. -/
theorem C4_Lock (h : Heap) (w : WeakPtr) :
    (w.Expired h = true →
      ∃ p, WeakPtr.Lock h w = (h, Except.ok p) ∧ p.block_ = none ∧ p.Get = 0 ∧
        p.UseCount h = 0) ∧
    (w.Expired h = false →
      ∃ b h1 p, w.block_ = some b ∧ WeakPtr.Lock h w = (h1, Except.ok p) ∧
        p.block_ = w.block_ ∧ p.Get = w.observed_ ∧
        (h1 b).GetReferenceCount = (h b).GetReferenceCount + 1 ∧
        (h1 b).GetWeakCount = (h b).GetWeakCount ∧
        (∀ c, c ≠ b → h1 c = h c)) := by
  constructor
  · intro he
    exact ⟨SharedPtr.default, by simp [WeakPtr.Lock, he], rfl, rfl, rfl⟩
  · intro he
    obtain ⟨b, hb, _, hf⟩ := fromWeak_live h w he
    have hi := Increment_at h b
    refine ⟨b, h.Increment b, ⟨w.observed_, some b⟩, hb, ?_, hb.symm, rfl, hi.1, hi.2.1,
      hi.2.2.2.2⟩
    simp [WeakPtr.Lock, he, hf]

theorem C4_witness :
    WeakPtr.Expired demoState.heap ⟨some 0, 100⟩ = false ∧
      (WeakPtr.Lock demoState.heap ⟨some 0, 100⟩).2 = Except.ok ⟨100, some 0⟩ ∧
      ((WeakPtr.Lock demoState.heap ⟨some 0, 100⟩).1 0).GetReferenceCount = 2 ∧
      (demoState.heap 0).GetReferenceCount = 1 ∧
      WeakPtr.Expired demoStateExpired.heap ⟨some 0, 7⟩ = true ∧
      (WeakPtr.Lock demoStateExpired.heap ⟨some 0, 7⟩).2 = Except.ok ⟨0, none⟩ ∧
      (∃ p, WeakPtr.Lock demoStateExpired.heap ⟨some 0, 7⟩ =
          (demoStateExpired.heap, Except.ok p) ∧ p.block_ = none ∧ p.Get = 0 ∧
        p.UseCount demoStateExpired.heap = 0) :=
  ⟨by decide, rfl, by decide, by decide, by decide, rfl,
    (C4_Lock demoStateExpired.heap ⟨some 0, 7⟩).1 (by decide)⟩

/-- C5: `SharedPtr(const WeakPtr&)` throws `BadWeakPtr` if and only if the observer
is expired (it has no block, or its block's `strong_count` is 0). When it throws the
heap is unchanged; when it does not, the new handle has the observer's block and
observed address, the block's `strong_count` is one more than before, its
`weak_count` is unchanged, and no other block changes. -/
theorem C5_fromWeak (h : Heap) (w : WeakPtr) :
    (w.Expired h = true ↔
      (w.block_ = none ∨ ∃ b, w.block_ = some b ∧ (h b).GetReferenceCount = 0)) ∧
    ((SharedPtr.fromWeak h w).2 = Except.error BadWeakPtr.mk ↔ w.Expired h = true) ∧
    (w.Expired h = true → (SharedPtr.fromWeak h w).1 = h) ∧
    (w.Expired h = false →
      ∃ b h1 p, w.block_ = some b ∧ SharedPtr.fromWeak h w = (h1, Except.ok p) ∧
        p.block_ = w.block_ ∧ p.Get = w.observed_ ∧
        (h1 b).GetReferenceCount = (h b).GetReferenceCount + 1 ∧
        (h1 b).GetWeakCount = (h b).GetWeakCount ∧
        (∀ c, c ≠ b → h1 c = h c)) := by
  refine ⟨Expired_iff h w, ?_, ?_, ?_⟩
  · constructor
    · intro hx
      by_contra he
      have he2 : w.Expired h = false := by simpa using he
      obtain ⟨b, _, _, hf⟩ := fromWeak_live h w he2
      rw [hf] at hx
      exact absurd hx (by simp)
    · intro he
      simp [SharedPtr.fromWeak, he]
  · intro he
    simp [SharedPtr.fromWeak, he]
  · intro he
    obtain ⟨b, hb, _, hf⟩ := fromWeak_live h w he
    have hi := Increment_at h b
    exact ⟨b, h.Increment b, ⟨w.observed_, some b⟩, hb, hf, hb.symm, rfl, hi.1, hi.2.1,
      hi.2.2.2.2⟩

theorem C5_witness :
    WeakPtr.Expired demoStateExpired.heap ⟨some 0, 7⟩ = true ∧
      SharedPtr.fromWeak demoStateExpired.heap ⟨some 0, 7⟩ =
        (demoStateExpired.heap, Except.error BadWeakPtr.mk) ∧
      (SharedPtr.fromWeak demoStateExpired.heap ⟨some 0, 7⟩).1 = demoStateExpired.heap ∧
      (SharedPtr.fromWeak demoState.heap ⟨some 0, 100⟩).2 = Except.ok ⟨100, some 0⟩ :=
  ⟨by decide, rfl,
    (C5_fromWeak demoStateExpired.heap ⟨some 0, 7⟩).2.2.1 (by decide), rfl⟩

/-- On an object whose `weak_this_` is default-constructed `SharedFromThis()` throws
`BadWeakPtr` and changes nothing, and `WeakFromThis()` returns an observer with
`Expired() == true`. -/
theorem SharedFromThis_default_throws (h : Heap) :
    EnableSharedFromThis.SharedFromThis h EnableSharedFromThis.default =
      (h, Except.error BadWeakPtr.mk) ∧
    ∃ w, EnableSharedFromThis.WeakFromThis h EnableSharedFromThis.default = some (h, w) ∧
      w.Expired h = true := by
  refine ⟨rfl, ⟨none, 0⟩, ?_, rfl⟩
  simp [EnableSharedFromThis.WeakFromThis, EnableSharedFromThis.default, WeakPtr_copy_closed,
    WeakPtr.default, WeakPtr.Expired, WeakPtr.AddRef]

theorem SharedFromThis_fresh (g : Heap) (b : BlockId) (addr : Addr)
    (h1 : (g b).reference_count_ = 1) :
    EnableSharedFromThis.SharedFromThis g ⟨⟨some b, addr⟩⟩ =
        (g.Increment b, Except.ok ⟨addr, some b⟩) ∧
      SharedPtr.UseCount (g.Increment b) ⟨addr, some b⟩ = 2 := by
  constructor
  · simp [EnableSharedFromThis.SharedFromThis, SharedPtr.fromWeak, WeakPtr.Expired,
      ControlBlockBase.GetReferenceCount, h1, SharedPtr.AddRef]
  · simp [SharedPtr.UseCount, Heap.Increment, ControlBlockBase.Increment,
      ControlBlockBase.GetReferenceCount, h1]

/-- C6: for a type that derives from `EnableSharedFromThis`, after
`p = MakeShared<T>(...)` (or `p` built from an owned, non-null raw pointer) the call
`q = p->SharedFromThis()` on the managed object succeeds with `q.Get() == p.Get()`,
`q` on `p`'s block, and `q.UseCount() == p.UseCount() == 2`. -/
theorem C6_SharedFromThis (h : Heap) (b : BlockId) (addr : Addr) :
    (∃ h1 p wt h2 q, MakeShared h b addr true = some (h1, p) ∧
      p.block_ = some b ∧ (h1 b).weak_this_ = some wt ∧ (h1 b).deleteObjectCalls = 0 ∧
      EnableSharedFromThis.SharedFromThis h1 ⟨wt⟩ = (h2, Except.ok q) ∧
      q.Get = p.Get ∧ q.block_ = p.block_ ∧ q.UseCount h2 = 2 ∧ p.UseCount h2 = 2) ∧
    (addr ≠ 0 →
      ∃ h1 p wt h2 q, SharedPtr.fromRaw h b addr true = some (h1, p) ∧
        p.block_ = some b ∧ (h1 b).weak_this_ = some wt ∧ (h1 b).deleteObjectCalls = 0 ∧
        EnableSharedFromThis.SharedFromThis h1 ⟨wt⟩ = (h2, Except.ok q) ∧
        q.Get = p.Get ∧ q.block_ = p.block_ ∧ q.UseCount h2 = 2 ∧ p.UseCount h2 = 2) := by
  constructor
  · obtain ⟨e1, e2⟩ := SharedFromThis_fresh (Function.update h b
        { reference_count_ := 1, weak_count_ := 1, kind := BlockKind.holder addr,
          weak_this_ := some ⟨some b, addr⟩, deleteObjectCalls := 0, deleteCalls := 0 })
        b addr (by simp)
    exact ⟨_, ⟨addr, some b⟩, ⟨some b, addr⟩, _, ⟨addr, some b⟩, MakeShared_esft h b addr, rfl,
      by simp, by simp, e1, rfl, rfl, e2, e2⟩
  · intro hp
    obtain ⟨e1, e2⟩ := SharedFromThis_fresh (Function.update h b
        { reference_count_ := 1, weak_count_ := 1, kind := BlockKind.pointer addr,
          weak_this_ := some ⟨some b, addr⟩, deleteObjectCalls := 0, deleteCalls := 0 })
        b addr (by simp)
    exact ⟨_, ⟨addr, some b⟩, ⟨some b, addr⟩, _, ⟨addr, some b⟩, fromRaw_esft h b addr hp, rfl,
      by simp, by simp, e1, rfl, rfl, e2, e2⟩

theorem C6_witness :
    (∃ s, run State.init [Op.makeShared 100 true, Op.sharedFromThis 0] = some s ∧
      s.shared = [⟨100, some 0⟩, ⟨100, some 0⟩] ∧ (s.heap 0).GetReferenceCount = 2) ∧
    (∃ h1 p wt h2 q, SharedPtr.fromRaw State.init.heap 0 7 true = some (h1, p) ∧
      p.block_ = some 0 ∧ (h1 0).weak_this_ = some wt ∧ (h1 0).deleteObjectCalls = 0 ∧
      EnableSharedFromThis.SharedFromThis h1 ⟨wt⟩ = (h2, Except.ok q) ∧
      q.Get = p.Get ∧ q.block_ = p.block_ ∧ q.UseCount h2 = 2 ∧ p.UseCount h2 = 2) :=
  ⟨⟨_, rfl, by decide, by decide⟩, (C6_SharedFromThis State.init.heap 0 7).2 (by decide)⟩

theorem live_handle_pos (s : State) (hr : Reachable s) (i : Nat) (o : Addr) (b : BlockId)
    (hl : s.shared[i]? = some (SharedPtr.mk o (some b))) :
    0 < (s.heap b).reference_count_ := by
  have hi := Reachable_Inv s hr
  have h1 : (s.heap b).reference_count_ = countShared s.shared b := (hi b).strong
  have h2 := countShared_pos s.shared i ⟨o, some b⟩ b hl rfl
  omega

/-- C8: for a live non-empty handle `owner` and any address `a`, the aliasing
constructor `field = SharedPtr(owner, a)` gives `field.Get() == a` on `owner`'s block
with `field.UseCount() == owner.UseCount()`; destroying `owner` while `field` lives
leaves `strong_count >= 1` and runs `DeleteObject` on no block (the heap is the one
before `field` was made). -/
theorem C8_aliasing (s : State) (hr : Reachable s) (i : Nat) (o a : Addr) (b : BlockId)
    (hl : s.shared[i]? = some (SharedPtr.mk o (some b))) :
    ∃ s1 s2 field, step s (Op.sharedAlias i a) = some s1 ∧
      s1.shared = s.shared ++ [field] ∧ s1.shared[i]? = some (SharedPtr.mk o (some b)) ∧
      field.Get = a ∧ field.block_ = some b ∧
      field.UseCount s1.heap = SharedPtr.UseCount s1.heap (SharedPtr.mk o (some b)) ∧
      step s1 (Op.sharedDestroy i) = some s2 ∧
      s2.shared = s.shared.eraseIdx i ++ [field] ∧
      1 ≤ (s2.heap b).GetReferenceCount ∧
      (∀ c, (s2.heap c).deleteObjectCalls = (s.heap c).deleteObjectCalls) ∧
      (s2.heap b).deleteObjectCalls = 0 ∧ s2.heap = s.heap := by
  have hpos := live_handle_pos s hr i o b hl
  have hi := Reachable_Inv s hr
  have hlt : i < s.shared.length := (List.getElem?_eq_some.mp hl).1
  have hl1 : (s.shared ++ [SharedPtr.mk a (some b)])[i]? = some (SharedPtr.mk o (some b)) := by
    rw [List.getElem?_append_left hlt]
    exact hl
  have hb : b < s.next := CellInv_lt s.heap b s.next _ _ (hi b) (Or.inl hpos)
  have hdel : (s.heap b).deleteObjectCalls = 0 := by
    have := (hi b).del hb
    rw [if_neg (by omega)] at this
    exact this
  refine ⟨{ s with heap := s.heap.Increment b, shared := s.shared ++ [⟨a, some b⟩] },
    { s with heap := s.heap, shared := s.shared.eraseIdx i ++ [⟨a, some b⟩] },
    ⟨a, some b⟩, ?_, rfl, hl1, rfl, rfl, rfl, ?_, rfl, ?_, fun _ => rfl, hdel, rfl⟩
  · simp [step, hl, SharedPtr.alias, SharedPtr.AddRef]
  · simp only [step, hl1, dtor_Increment s.heap b o hpos]
    rw [List.eraseIdx_append_of_lt_length hlt]
  · exact hpos

theorem C8_witness :
    Reachable demoState ∧ demoState.shared[0]? = some (SharedPtr.mk 100 (some 0)) ∧
    ∃ s1 s2 field, step demoState (Op.sharedAlias 0 104) = some s1 ∧
      s1.shared = demoState.shared ++ [field] ∧
      s1.shared[0]? = some (SharedPtr.mk 100 (some 0)) ∧
      field.Get = 104 ∧ field.block_ = some 0 ∧
      field.UseCount s1.heap = SharedPtr.UseCount s1.heap (SharedPtr.mk 100 (some 0)) ∧
      step s1 (Op.sharedDestroy 0) = some s2 ∧
      s2.shared = demoState.shared.eraseIdx 0 ++ [field] ∧
      1 ≤ (s2.heap 0).GetReferenceCount ∧
      (∀ c, (s2.heap c).deleteObjectCalls = (demoState.heap c).deleteObjectCalls) ∧
      (s2.heap 0).deleteObjectCalls = 0 ∧ s2.heap = demoState.heap :=
  ⟨⟨demoOps, rfl⟩, rfl, C8_aliasing demoState ⟨demoOps, rfl⟩ 0 100 104 0 rfl⟩

/-- C10: move construction from a live non-empty source with `strong_count == n`
yields a handle holding the source's former `(observed_, block_)` pair, leaves the
source empty (`Get() == nullptr`, `UseCount() == 0`) and `strong_count == n`; the
counters of `DeleteObject` and `delete block_` calls are the same after `AddRef()`
and after the whole operation as before it, on every block. -/
theorem C10_move_construction (s : State) (hr : Reachable s) (i : Nat) (o : Addr)
    (b : BlockId) (hl : s.shared[i]? = some (SharedPtr.mk o (some b))) :
    ∃ t src, step s (Op.sharedMove i) = some t ∧
      t.shared = s.shared.set i src ++ [SharedPtr.mk o (some b)] ∧
      src.Get = 0 ∧ src.UseCount t.heap = 0 ∧ src.block_ = none ∧
      (t.heap b).GetReferenceCount = (s.heap b).GetReferenceCount ∧
      (∀ c, ((SharedPtr.AddRef s.heap (SharedPtr.mk o (some b))) c).deleteObjectCalls =
          (s.heap c).deleteObjectCalls ∧
        ((SharedPtr.AddRef s.heap (SharedPtr.mk o (some b))) c).deleteCalls =
          (s.heap c).deleteCalls) ∧
      (∀ c, (t.heap c).deleteObjectCalls = (s.heap c).deleteObjectCalls ∧
        (t.heap c).deleteCalls = (s.heap c).deleteCalls) ∧
      t.heap = s.heap := by
  have hpos := live_handle_pos s hr i o b hl
  refine ⟨{ s with shared := s.shared.set i SharedPtr.default ++ [⟨o, some b⟩] },
    SharedPtr.default, ?_, rfl, rfl, rfl, rfl, rfl, ?_, fun _ => ⟨rfl, rfl⟩, rfl⟩
  · simp only [step, hl, SharedPtr_move_eq, SharedPtr.AddRef, dtor_Increment s.heap b o hpos]
  · intro c
    by_cases hc : c = b
    · subst hc
      simp [SharedPtr.AddRef, Heap.Increment]
    · simp [SharedPtr.AddRef, Heap.Increment, Function.update_noteq hc]

theorem C10_witness :
    Reachable demoState ∧ demoState.shared[0]? = some (SharedPtr.mk 100 (some 0)) ∧
    (demoState.heap 0).GetReferenceCount = 1 ∧
    ∃ t src, step demoState (Op.sharedMove 0) = some t ∧
      t.shared = demoState.shared.set 0 src ++ [SharedPtr.mk 100 (some 0)] ∧
      src.Get = 0 ∧ src.UseCount t.heap = 0 ∧ src.block_ = none ∧
      (t.heap 0).GetReferenceCount = (demoState.heap 0).GetReferenceCount ∧
      (∀ c, ((SharedPtr.AddRef demoState.heap (SharedPtr.mk 100 (some 0))) c).deleteObjectCalls =
          (demoState.heap c).deleteObjectCalls ∧
        ((SharedPtr.AddRef demoState.heap (SharedPtr.mk 100 (some 0))) c).deleteCalls =
          (demoState.heap c).deleteCalls) ∧
      (∀ c, (t.heap c).deleteObjectCalls = (demoState.heap c).deleteObjectCalls ∧
        (t.heap c).deleteCalls = (demoState.heap c).deleteCalls) ∧
      t.heap = demoState.heap :=
  ⟨⟨demoOps, rfl⟩, rfl, by decide,
    C10_move_construction demoState ⟨demoOps, rfl⟩ 0 100 0 rfl⟩

/-- C11: `a == b` holds exactly when `a.Get() == b.Get()`, whatever the blocks: two
aliasing handles made from one owner with different addresses are not equal although
`OwnerBefore` puts them in one ownership group, and two handles with equal observed
addresses are equal whatever their blocks. -/
theorem C11_eq_iff_Get (a b : SharedPtr) :
    (SharedPtr.eq a b = true ↔ a.Get = b.Get) ∧
    (∀ (h : Heap) (owner : SharedPtr) (a1 a2 : Addr), a1 ≠ a2 →
      SharedPtr.eq (SharedPtr.alias h owner a1).2 (SharedPtr.alias h owner a2).2 = false ∧
      SharedPtr.OwnerBefore (SharedPtr.alias h owner a1).2 (SharedPtr.alias h owner a2).2 =
        true ∧
      (SharedPtr.alias h owner a1).2.block_ = owner.block_ ∧
      (SharedPtr.alias h owner a2).2.block_ = owner.block_) ∧
    (∀ (o : Addr) (b1 b2 : Option BlockId),
      SharedPtr.eq (SharedPtr.mk o b1) (SharedPtr.mk o b2) = true) := by
  refine ⟨?_, ?_, ?_⟩
  · simp [SharedPtr.eq]
  · intro h owner a1 a2 hne
    simp [SharedPtr.eq, SharedPtr.alias, SharedPtr.Get, SharedPtr.OwnerBefore, hne]
  · intro o b1 b2
    simp [SharedPtr.eq, SharedPtr.Get]

theorem C11_witness :
    SharedPtr.eq (SharedPtr.alias demoState.heap ⟨100, some 0⟩ 104).2
        (SharedPtr.alias demoState.heap ⟨100, some 0⟩ 108).2 = false ∧
      SharedPtr.OwnerBefore (SharedPtr.alias demoState.heap ⟨100, some 0⟩ 104).2
        (SharedPtr.alias demoState.heap ⟨100, some 0⟩ 108).2 = true ∧
      SharedPtr.eq ⟨7, some 0⟩ ⟨7, some 1⟩ = true ∧
      (SharedPtr.eq ⟨7, some 0⟩ ⟨7, some 1⟩ = true ↔
        SharedPtr.Get ⟨7, some 0⟩ = SharedPtr.Get ⟨7, some 1⟩) :=
  ⟨by decide, by decide, by decide, (C11_eq_iff_Get ⟨7, some 0⟩ ⟨7, some 1⟩).1⟩

/-- C12 as stated fails: the aliasing constructor applied to an empty owner and the
address 5 gives a handle without a block that is not equal to a default-constructed
handle. -/
theorem C12_counterexample :
    (SharedPtr.alias State.init.heap SharedPtr.default 5).2.block_ = none ∧
      SharedPtr.default.block_ = none ∧
      SharedPtr.eq (SharedPtr.alias State.init.heap SharedPtr.default 5).2 SharedPtr.default =
        false := by
  decide

/-- C12 (amended): handles produced by default or `nullptr` construction, by `Reset()`
or by being moved from (also through the aliasing move constructor) have no block and
observe `nullptr`, so any two of them compare equal; a handle built by the aliasing
constructor from an empty owner has no block and observes the supplied address, and it
compares equal to another handle exactly when that address is the other's observed
address. -/
theorem C12_empty_handles (h : Heap) (p q : SharedPtr) (a : Addr) :
    (SharedPtr.default.block_ = none ∧ SharedPtr.default.Get = 0) ∧
    ((SharedPtr.Reset h p).2 = SharedPtr.default) ∧
    ((SharedPtr.move h p).2.2 = SharedPtr.default) ∧
    ((SharedPtr.aliasMove h p a).2.2 = SharedPtr.default) ∧
    SharedPtr.eq SharedPtr.default SharedPtr.default = true ∧
    (p.block_ = none →
      (SharedPtr.alias h p a).2.block_ = none ∧ (SharedPtr.alias h p a).2.Get = a ∧
      (SharedPtr.alias h p a).1 = h ∧
      (SharedPtr.eq (SharedPtr.alias h p a).2 q = true ↔ a = q.Get) ∧
      (SharedPtr.eq (SharedPtr.alias h p a).2 SharedPtr.default = true ↔ a = 0)) := by
  refine ⟨⟨rfl, rfl⟩, rfl, rfl, rfl, rfl, ?_⟩
  intro hp
  refine ⟨hp, rfl, ?_, ?_, ?_⟩
  · simp [SharedPtr.alias, SharedPtr.AddRef, hp]
  · simp [SharedPtr.eq, SharedPtr.alias, SharedPtr.Get]
  · simp [SharedPtr.eq, SharedPtr.alias, SharedPtr.Get, SharedPtr.default]

theorem C12_witness :
    SharedPtr.default.block_ = none ∧
      (SharedPtr.eq (SharedPtr.alias State.init.heap SharedPtr.default 0).2
        SharedPtr.default = true ↔ (0 : Addr) = 0) ∧
      (SharedPtr.Reset demoState.heap ⟨100, some 0⟩).2 = SharedPtr.default :=
  ⟨rfl,
    ((C12_empty_handles State.init.heap SharedPtr.default SharedPtr.default 0).2.2.2.2.2
      rfl).2.2.2.2,
    rfl⟩

/-- C19: `OwnerBefore` compares block identity and is an equivalence relation on
handles of both kinds: it is true exactly when both handles have the same `block_`,
it is symmetric, reflexive and transitive, and it does not depend on the observed
addresses. -/
theorem C19_OwnerBefore_equivalence (x y z : Handle) :
    (x.OwnerBefore y = true ↔ x.block_ = y.block_) ∧
    x.OwnerBefore y = y.OwnerBefore x ∧
    x.OwnerBefore x = true ∧
    (x.OwnerBefore y = true → y.OwnerBefore z = true → x.OwnerBefore z = true) ∧
    (∀ u v : Handle, u.block_ = x.block_ → v.block_ = y.block_ →
      u.OwnerBefore v = x.OwnerBefore y) := by
  have key : ∀ u v : Handle, u.OwnerBefore v = (u.block_ == v.block_) := by
    intro u v
    cases u <;> cases v <;> rfl
  refine ⟨?_, ?_, ?_, ?_, ?_⟩
  · simp [key]
  · rw [key, key]
    cases hx : x.block_ <;> cases hy : y.block_ <;> simp [eq_comm]
  · simp [key]
  · simp only [key, beq_iff_eq]
    intro h1 h2
    exact h1.trans h2
  · intro u v hu hv
    rw [key, key, hu, hv]

theorem C19_witness :
    Handle.OwnerBefore (Handle.shared ⟨100, some 0⟩) (Handle.weak ⟨some 0, 104⟩) = true ∧
      Handle.OwnerBefore (Handle.weak ⟨some 0, 104⟩) (Handle.shared ⟨100, some 1⟩) = false ∧
      (Handle.OwnerBefore (Handle.shared ⟨100, some 0⟩) (Handle.weak ⟨some 0, 104⟩) = true ↔
        Handle.block_ (Handle.shared ⟨100, some 0⟩) = Handle.block_ (Handle.weak ⟨some 0, 104⟩)) :=
  ⟨by decide, by decide,
    (C19_OwnerBefore_equivalence (Handle.shared ⟨100, some 0⟩) (Handle.weak ⟨some 0, 104⟩)
      (Handle.weak ⟨some 0, 104⟩)).1⟩

/-- C16 as stated fails: right after `MakeShared<T>` for a type that derives from
`EnableSharedFromThis`, the block has `strong_count == 1` and `weak_count == 1`. -/
theorem C16_counterexample :
    ∃ h p, MakeShared State.init.heap 0 100 true = some (h, p) ∧
      (h 0).GetReferenceCount = 1 ∧ (h 0).GetWeakCount = 1 ∧ ¬ (h 0).GetWeakCount = 0 :=
  ⟨_, _, MakeShared_esft State.init.heap 0 100, by decide, by decide, by decide⟩

/-- C16 (amended): right after a `SharedPtr` is created by `MakeShared` or from an
owned raw address, its block has `strong_count == 1`; `weak_count` is 0 when the
managed type does not derive from `EnableSharedFromThis`, and 1 when it does (the
object's `weak_this_` observes the block); neither `DeleteObject` nor `delete block_`
has run on it. -/
theorem C16_created_state (h : Heap) (b : BlockId) (addr : Addr) (esft : Bool) :
    (∃ h1 p, MakeShared h b addr esft = some (h1, p) ∧ p = ⟨addr, some b⟩ ∧
      (h1 b).GetReferenceCount = 1 ∧
      (h1 b).GetWeakCount = (if esft then 1 else 0) ∧
      (h1 b).weak_this_ = (if esft then some ⟨some b, addr⟩ else none) ∧
      (h1 b).deleteObjectCalls = 0 ∧ (h1 b).deleteCalls = 0) ∧
    ((esft = true → addr ≠ 0) →
      ∃ h1 p, SharedPtr.fromRaw h b addr esft = some (h1, p) ∧ p = ⟨addr, some b⟩ ∧
        (h1 b).GetReferenceCount = 1 ∧
        (h1 b).GetWeakCount = (if esft then 1 else 0) ∧
        (h1 b).weak_this_ = (if esft then some ⟨some b, addr⟩ else none) ∧
        (h1 b).deleteObjectCalls = 0 ∧ (h1 b).deleteCalls = 0) := by
  cases esft
  · refine ⟨⟨_, _, MakeShared_plain h b addr, rfl, ?_⟩, fun _ => ⟨_, _, fromRaw_plain h b addr, rfl, ?_⟩⟩ <;>
      simp [ControlBlockBase.GetReferenceCount, ControlBlockBase.GetWeakCount]
  · refine ⟨⟨_, _, MakeShared_esft h b addr, rfl, ?_⟩,
      fun hp => ⟨_, _, fromRaw_esft h b addr (hp rfl), rfl, ?_⟩⟩ <;>
      simp [ControlBlockBase.GetReferenceCount, ControlBlockBase.GetWeakCount]

theorem C16_witness :
    ∃ h1 p, SharedPtr.fromRaw State.init.heap 0 7 true = some (h1, p) ∧ p = ⟨7, some 0⟩ ∧
      (h1 0).GetReferenceCount = 1 ∧
      (h1 0).GetWeakCount = (if true = true then 1 else 0) ∧
      (h1 0).weak_this_ = (if true = true then some ⟨some 0, 7⟩ else none) ∧
      (h1 0).deleteObjectCalls = 0 ∧ (h1 0).deleteCalls = 0 :=
  (C16_created_state State.init.heap 0 7 true).2 (fun _ => by decide)

theorem getElem?_set_set {α : Type} (l : List α) (i j k : Nat) (a b : α)
    (hi : l[i]? = some a) (hj : l[j]? = some b) :
    ((l.set i b).set j a)[k]? =
      if k = j then some a else if k = i then some b else l[k]? := by
  have hli : i < l.length := (List.getElem?_eq_some.mp hi).1
  have hlj : j < l.length := (List.getElem?_eq_some.mp hj).1
  rw [List.getElem?_set, List.getElem?_set]
  by_cases h1 : k = j
  · subst h1
    simp [hlj]
  · have h2 : ¬ j = k := fun e => h1 e.symm
    by_cases h3 : k = i
    · subst h3
      simp [h1, h2, hli]
    · have h4 : ¬ i = k := fun e => h3 e.symm
      simp [h1, h2, h3, h4]

theorem swap_swap {α : Type} (l : List α) (i j : Nat) (a b : α)
    (hi : l[i]? = some a) (hj : l[j]? = some b) :
    ((((l.set i b).set j a).set i a).set j (if i = j then a else b)) = l := by
  have hab : i = j → a = b := by
    intro e
    subst e
    rw [hi] at hj
    exact Option.some.inj hj
  have e1 : ((l.set i b).set j a)[i]? = some (if i = j then a else b) := by
    rw [getElem?_set_set l i j i a b hi hj]
    by_cases e : i = j <;> simp [e]
  have e2 : ((l.set i b).set j a)[j]? = some a := by
    rw [getElem?_set_set l i j j a b hi hj]
    simp
  apply List.ext_getElem?
  intro k
  rw [getElem?_set_set _ i j k (if i = j then a else b) a e1 e2,
    getElem?_set_set l i j k a b hi hj]
  by_cases h1 : k = j
  · subst h1
    by_cases e : i = k
    · simp [e, hj, hab e]
    · simp [e, hj]
  · by_cases h3 : k = i
    · subst h3
      simp [h1, hi]
    · simp [h1, h3]

theorem set_self_of_getElem? {α : Type} (l : List α) (i : Nat) (a : α)
    (hi : l[i]? = some a) : l.set i a = l := by
  apply List.ext_getElem?
  intro k
  rw [List.getElem?_set]
  have hli : i < l.length := (List.getElem?_eq_some.mp hi).1
  by_cases e : i = k
  · subst e
    simp [hli, hi]
  · simp [e]

/-- C17: `SharedPtr::Swap` exchanges the `(observed_, block_)` pairs of two handles and
leaves the heap (every counter of every block) and all other handles as they were;
swapping the same two handles again restores the state, and swapping a handle with
itself leaves the state unchanged. The same holds for `WeakPtr::Swap`. -/
theorem C17_Swap (s : State) (i j : Nat) :
    (∀ a b : SharedPtr, SharedPtr.Swap a b = (b, a)) ∧
    (∀ a b : WeakPtr, WeakPtr.Swap a b = (b, a)) ∧
    (∀ a b : SharedPtr, s.shared[i]? = some a → s.shared[j]? = some b →
      ∃ t, step s (Op.sharedSwap i j) = some t ∧
        t.heap = s.heap ∧ t.next = s.next ∧ t.weak = s.weak ∧
        t.shared[j]? = some a ∧ t.shared[i]? = some (if i = j then a else b) ∧
        (∀ k, k ≠ i → k ≠ j → t.shared[k]? = s.shared[k]?) ∧
        step t (Op.sharedSwap i j) = some s ∧ (i = j → t = s)) ∧
    (∀ a b : WeakPtr, s.weak[i]? = some a → s.weak[j]? = some b →
      ∃ t, step s (Op.weakSwap i j) = some t ∧
        t.heap = s.heap ∧ t.next = s.next ∧ t.shared = s.shared ∧
        t.weak[j]? = some a ∧ t.weak[i]? = some (if i = j then a else b) ∧
        (∀ k, k ≠ i → k ≠ j → t.weak[k]? = s.weak[k]?) ∧
        step t (Op.weakSwap i j) = some s ∧ (i = j → t = s)) := by
  obtain ⟨h, n, S, W⟩ := s
  refine ⟨fun _ _ => rfl, fun _ _ => rfl, ?_, ?_⟩
  · intro a b hi hj
    simp only at hi hj
    have e1 : ((S.set i b).set j a)[i]? = some (if i = j then a else b) := by
      rw [getElem?_set_set S i j i a b hi hj]
      by_cases e : i = j <;> simp [e]
    have e2 : ((S.set i b).set j a)[j]? = some a := by
      rw [getElem?_set_set S i j j a b hi hj]
      simp
    refine ⟨⟨h, n, (S.set i b).set j a, W⟩, ?_, rfl, rfl, rfl, e2, e1, ?_, ?_, ?_⟩
    · simp [step, hi, hj, SharedPtr_Swap_eq]
    · intro k hk1 hk2
      simp only
      rw [getElem?_set_set S i j k a b hi hj]
      simp [hk1, hk2]
    · simp only [step, e1, e2, SharedPtr_Swap_eq, swap_swap S i j a b hi hj]
    · intro e
      subst e
      have hab : a = b := by
        rw [hi] at hj
        exact Option.some.inj hj
      subst hab
      simp [List.set_set, set_self_of_getElem? S i a hi]
  · intro a b hi hj
    simp only at hi hj
    have e1 : ((W.set i b).set j a)[i]? = some (if i = j then a else b) := by
      rw [getElem?_set_set W i j i a b hi hj]
      by_cases e : i = j <;> simp [e]
    have e2 : ((W.set i b).set j a)[j]? = some a := by
      rw [getElem?_set_set W i j j a b hi hj]
      simp
    refine ⟨⟨h, n, S, (W.set i b).set j a⟩, ?_, rfl, rfl, rfl, e2, e1, ?_, ?_, ?_⟩
    · simp [step, hi, hj, WeakPtr_Swap_eq]
    · intro k hk1 hk2
      simp only
      rw [getElem?_set_set W i j k a b hi hj]
      simp [hk1, hk2]
    · simp only [step, e1, e2, WeakPtr_Swap_eq, swap_swap W i j a b hi hj]
    · intro e
      subst e
      have hab : a = b := by
        rw [hi] at hj
        exact Option.some.inj hj
      subst hab
      simp [List.set_set, set_self_of_getElem? W i a hi]

theorem C17_witness :
    demoStateTwo.shared = [SharedPtr.mk 7 (some 0), SharedPtr.mk 100 (some 1)] ∧
    ∃ t, step demoStateTwo (Op.sharedSwap 0 1) = some t ∧
      t.heap = demoStateTwo.heap ∧ t.next = demoStateTwo.next ∧ t.weak = demoStateTwo.weak ∧
      t.shared[1]? = some (SharedPtr.mk 7 (some 0)) ∧
      t.shared[0]? =
        some (if 0 = 1 then SharedPtr.mk 7 (some 0) else SharedPtr.mk 100 (some 1)) ∧
      (∀ k, k ≠ 0 → k ≠ 1 → t.shared[k]? = demoStateTwo.shared[k]?) ∧
      step t (Op.sharedSwap 0 1) = some demoStateTwo ∧ (0 = 1 → t = demoStateTwo) :=
  ⟨by decide, (C17_Swap demoStateTwo 0 1).2.2.1 ⟨7, some 0⟩ ⟨100, some 1⟩ rfl rfl⟩

/-! ## The ghost counters never decrease -/

theorem GhostLe_refl (h : Heap) (c : BlockId) : GhostLe h h c := ⟨Nat.le_refl _, Nat.le_refl _⟩

theorem GhostLe_trans (h g k : Heap) (c : BlockId) (h1 : GhostLe h g c) (h2 : GhostLe g k c) :
    GhostLe h k c := ⟨Nat.le_trans h1.1 h2.1, Nat.le_trans h1.2 h2.2⟩

theorem GhostLe_of_eq (h g : Heap) (c : BlockId) (e1 : (g c).deleteObjectCalls = (h c).deleteObjectCalls)
    (e2 : (g c).deleteCalls = (h c).deleteCalls) : GhostLe h g c := by
  unfold GhostLe
  omega

theorem ghost_update (h : Heap) (b c : BlockId) (blk : Block)
    (e1 : (h b).deleteObjectCalls ≤ blk.deleteObjectCalls)
    (e2 : (h b).deleteCalls ≤ blk.deleteCalls) : GhostLe h (Function.update h b blk) c := by
  by_cases hc : c = b
  · subst hc
    simpa [GhostLe] using ⟨e1, e2⟩
  · simp [GhostLe, Function.update_noteq hc]

theorem ghost_AddRef (h : Heap) (p : SharedPtr) (c : BlockId) :
    GhostLe h (SharedPtr.AddRef h p) c := by
  rcases p with ⟨o, _ | b⟩
  · exact GhostLe_refl h c
  · exact ghost_update h b c _ (Nat.le_refl _) (Nat.le_refl _)

theorem ghost_weak_AddRef (h : Heap) (w : WeakPtr) (c : BlockId) :
    GhostLe h (WeakPtr.AddRef h w) c := by
  rcases w with ⟨_ | b, o⟩
  · exact GhostLe_refl h c
  · exact ghost_update h b c _ (Nat.le_refl _) (Nat.le_refl _)

theorem ghost_weak_dtor (h : Heap) (w : WeakPtr) (c : BlockId) :
    GhostLe h (WeakPtr.dtor h w) c := by
  rcases w with ⟨_ | b, o⟩
  · exact GhostLe_refl h c
  · rw [WeakPtr_dtor_some]
    exact ghost_update h b c _ (Nat.le_refl _) (Nat.le_add_right _ _)

theorem ghost_DeleteObject (h : Heap) (b c : BlockId) : GhostLe h (h.DeleteObject b) c := by
  have key : GhostLe h (Function.update h b
      { h b with deleteObjectCalls := (h b).deleteObjectCalls + 1 }) c :=
    ghost_update h b c _ (Nat.le_add_right _ _) (Nat.le_refl _)
  unfold Heap.DeleteObject
  rcases (h b).kind with p | p <;> rcases (h b).weak_this_ with _ | w
  · exact key
  · exact GhostLe_trans _ _ _ c key (ghost_weak_dtor _ w c)
  · exact key
  · exact GhostLe_trans _ _ _ c key (ghost_weak_dtor _ w c)

theorem ghost_dtor (h : Heap) (p : SharedPtr) (c : BlockId) :
    GhostLe h (SharedPtr.dtor h p) c := by
  rcases p with ⟨o, _ | b⟩
  · exact GhostLe_refl h c
  · have k1 : GhostLe h (h.Decrement b) c :=
      ghost_update h b c _ (Nat.le_refl _) (Nat.le_refl _)
    have k2 := ghost_DeleteObject (h.Decrement b) b c
    have k3 : GhostLe ((h.Decrement b).DeleteObject b)
        (((h.Decrement b).DeleteObject b).deleteBlock b) c :=
      ghost_update _ b c _ (Nat.le_refl _) (Nat.le_add_right _ _)
    simp only [SharedPtr.dtor]
    split_ifs
    · exact GhostLe_trans _ _ _ c k1 (GhostLe_trans _ _ _ c k2 k3)
    · exact GhostLe_trans _ _ _ c k1 k2
    · exact k1

theorem ghost_fromRaw (h h1 : Heap) (n : BlockId) (ptr : Addr) (esft : Bool) (p : SharedPtr)
    (hr : SharedPtr.fromRaw h n ptr esft = some (h1, p)) (c : BlockId) (hc : c ≠ n) :
    h1 c = h c := by
  cases esft
  · rw [fromRaw_plain] at hr
    simp only [Option.some.injEq, Prod.mk.injEq] at hr
    rw [← hr.1, Function.update_noteq hc]
  · by_cases hp : ptr = 0
    · subst hp
      rw [fromRaw_esft_null] at hr
      exact absurd hr (by simp)
    · rw [fromRaw_esft h n ptr hp] at hr
      simp only [Option.some.injEq, Prod.mk.injEq] at hr
      rw [← hr.1, Function.update_noteq hc]

theorem ghost_MakeShared (h h1 : Heap) (n : BlockId) (storage : Addr) (esft : Bool)
    (p : SharedPtr) (hr : MakeShared h n storage esft = some (h1, p)) (c : BlockId)
    (hc : c ≠ n) : h1 c = h c := by
  cases esft
  · rw [MakeShared_plain] at hr
    simp only [Option.some.injEq, Prod.mk.injEq] at hr
    rw [← hr.1, Function.update_noteq hc]
  · rw [MakeShared_esft] at hr
    simp only [Option.some.injEq, Prod.mk.injEq] at hr
    rw [← hr.1, Function.update_noteq hc]

theorem ghost_fromWeak (h : Heap) (w : WeakPtr) (c : BlockId) :
    GhostLe h (SharedPtr.fromWeak h w).1 c := by
  unfold SharedPtr.fromWeak
  by_cases he : w.Expired h = true
  · simp only [he, if_true]
    exact GhostLe_refl h c
  · have he2 : w.Expired h = false := by simpa using he
    simp only [he2, Bool.false_eq_true, if_false]
    exact ghost_AddRef h _ c

theorem ghost_Lock (h : Heap) (w : WeakPtr) (c : BlockId) :
    GhostLe h (WeakPtr.Lock h w).1 c := by
  rw [Lock_closed]
  by_cases he : w.Expired h = true
  · simp only [he, if_true]
    exact GhostLe_refl h c
  · have he2 : w.Expired h = false := by simpa using he
    simp only [he2, Bool.false_eq_true, if_false]
    exact ghost_AddRef h _ c

/-- One operation never lowers a ghost counter of an allocated cell, and never hands
an allocated cell out again. -/
theorem step_ghost (s t : State) (op : Op) (hs : step s op = some t) :
    s.next ≤ t.next ∧ ∀ c, c < s.next → GhostLe s.heap t.heap c := by
  obtain ⟨h, n, S, W⟩ := s
  cases op with
  | sharedDefault =>
    simp only [step, Option.some.injEq] at hs
    subst hs
    exact ⟨Nat.le_refl _, fun c _ => GhostLe_refl h c⟩
  | sharedFromRaw ptr esft =>
    simp only [step] at hs
    rcases hr : SharedPtr.fromRaw h n ptr esft with _ | ⟨h2, p⟩
    · simp [hr] at hs
    · simp only [hr, Option.some.injEq] at hs
      subst hs
      refine ⟨Nat.le_succ _, fun c hc => ?_⟩
      have := ghost_fromRaw h h2 n ptr esft p hr c (Nat.ne_of_lt hc)
      exact GhostLe_of_eq _ _ c (by simp only; rw [this]) (by simp only; rw [this])
  | makeShared storage esft =>
    simp only [step] at hs
    rcases hr : MakeShared h n storage esft with _ | ⟨h2, p⟩
    · simp [hr] at hs
    · simp only [hr, Option.some.injEq] at hs
      subst hs
      refine ⟨Nat.le_succ _, fun c hc => ?_⟩
      have := ghost_MakeShared h h2 n storage esft p hr c (Nat.ne_of_lt hc)
      exact GhostLe_of_eq _ _ c (by simp only; rw [this]) (by simp only; rw [this])
  | sharedCopy i =>
    simp only [step] at hs
    rcases hl : S[i]? with _ | other
    · simp [hl] at hs
    · simp only [hl, SharedPtr_copy_eq, Option.some.injEq] at hs
      subst hs
      exact ⟨Nat.le_refl _, fun c _ => ghost_AddRef h other c⟩
  | sharedMove i =>
    simp only [step] at hs
    rcases hl : S[i]? with _ | other
    · simp [hl] at hs
    · simp only [hl, SharedPtr_move_eq, Option.some.injEq] at hs
      subst hs
      exact ⟨Nat.le_refl _, fun c _ =>
        GhostLe_trans _ _ _ c (ghost_AddRef h other c) (ghost_dtor _ other c)⟩
  | sharedAlias i ptr =>
    simp only [step] at hs
    rcases hl : S[i]? with _ | other
    · simp [hl] at hs
    · simp only [hl, SharedPtr.alias, Option.some.injEq] at hs
      subst hs
      exact ⟨Nat.le_refl _, fun c _ => ghost_AddRef h _ c⟩
  | sharedAliasMove i ptr =>
    simp only [step] at hs
    rcases hl : S[i]? with _ | other
    · simp [hl] at hs
    · simp only [hl, SharedPtr_aliasMove_eq, Option.some.injEq] at hs
      subst hs
      exact ⟨Nat.le_refl _, fun c _ =>
        GhostLe_trans _ _ _ c (ghost_AddRef h other c) (ghost_dtor _ other c)⟩
  | sharedFromWeak j =>
    simp only [step] at hs
    rcases hl : W[j]? with _ | other
    · simp [hl] at hs
    · simp only [hl] at hs
      have hg := ghost_fromWeak h other
      rcases hr : SharedPtr.fromWeak h other with ⟨h1, _ | p⟩ <;>
        simp only [hr, Option.some.injEq] at hs hg <;> subst hs <;>
        exact ⟨Nat.le_refl _, fun c _ => hg c⟩
  | sharedAssign i j =>
    simp only [step] at hs
    rcases hl : S[i]? with _ | self
    · simp [hl] at hs
    · rcases hj : S[j]? with _ | other
      · simp [hl, hj] at hs
      · simp only [hl, hj, SharedPtr_assign_eq, Option.some.injEq] at hs
        subst hs
        exact ⟨Nat.le_refl _, fun c _ =>
          GhostLe_trans _ _ _ c (ghost_AddRef h other c) (ghost_dtor _ self c)⟩
  | sharedMoveAssign i j =>
    simp only [step] at hs
    rcases hj : S[j]? with _ | other
    · simp [hj] at hs
    · simp only [hj, SharedPtr_move_eq] at hs
      rcases hl : (S.set j SharedPtr.default)[i]? with _ | self
      · simp [hl] at hs
      · simp only [hl, SharedPtr_Swap_eq, Option.some.injEq] at hs
        subst hs
        exact ⟨Nat.le_refl _, fun c _ =>
          GhostLe_trans _ _ _ c
            (GhostLe_trans _ _ _ c (ghost_AddRef h other c) (ghost_dtor _ other c))
            (ghost_dtor _ self c)⟩
  | sharedReset i =>
    simp only [step] at hs
    rcases hl : S[i]? with _ | self
    · simp [hl] at hs
    · simp only [hl, SharedPtr_Reset_eq, Option.some.injEq] at hs
      subst hs
      exact ⟨Nat.le_refl _, fun c _ => ghost_dtor h self c⟩
  | sharedResetPtr i ptr esft =>
    simp only [step] at hs
    rcases hl : S[i]? with _ | self
    · simp [hl] at hs
    · simp only [hl, SharedPtr.ResetPtr] at hs
      rcases hr : SharedPtr.fromRaw h n ptr esft with _ | ⟨h2, p⟩
      · simp [hr] at hs
      · simp only [hr, SharedPtr_Swap_eq, Option.some.injEq] at hs
        subst hs
        refine ⟨Nat.le_succ _, fun c hc => ?_⟩
        have := ghost_fromRaw h h2 n ptr esft p hr c (Nat.ne_of_lt hc)
        exact GhostLe_trans _ _ _ c
          (GhostLe_of_eq h h2 c (by rw [this]) (by rw [this])) (ghost_dtor h2 self c)
  | sharedSwap i j =>
    simp only [step] at hs
    rcases hl : S[i]? with _ | self
    · simp [hl] at hs
    · rcases hj : S[j]? with _ | other
      · simp [hl, hj] at hs
      · simp only [hl, hj, Option.some.injEq] at hs
        subst hs
        exact ⟨Nat.le_refl _, fun c _ => GhostLe_refl h c⟩
  | sharedDestroy i =>
    simp only [step] at hs
    rcases hl : S[i]? with _ | self
    · simp [hl] at hs
    · simp only [hl, Option.some.injEq] at hs
      subst hs
      exact ⟨Nat.le_refl _, fun c _ => ghost_dtor h self c⟩
  | weakDefault =>
    simp only [step, Option.some.injEq] at hs
    subst hs
    exact ⟨Nat.le_refl _, fun c _ => GhostLe_refl h c⟩
  | weakCopy j =>
    simp only [step] at hs
    rcases hl : W[j]? with _ | other
    · simp [hl] at hs
    · simp only [hl, WeakPtr_copy_closed, Option.some.injEq] at hs
      subst hs
      exact ⟨Nat.le_refl _, fun c _ => ghost_weak_AddRef h _ c⟩
  | weakMove j =>
    simp only [step] at hs
    rcases hl : W[j]? with _ | other
    · simp [hl] at hs
    · simp only [hl, WeakPtr_move_closed, Option.some.injEq] at hs
      subst hs
      exact ⟨Nat.le_refl _, fun c _ =>
        GhostLe_trans _ _ _ c (ghost_weak_AddRef h _ c) (ghost_weak_dtor _ other c)⟩
  | weakFromShared i =>
    simp only [step] at hs
    rcases hl : S[i]? with _ | other
    · simp [hl] at hs
    · simp only [hl, WeakPtr.fromShared, Option.some.injEq] at hs
      subst hs
      exact ⟨Nat.le_refl _, fun c _ => ghost_weak_AddRef h _ c⟩
  | weakAssign i j =>
    simp only [step] at hs
    rcases hl : W[i]? with _ | self
    · simp [hl] at hs
    · rcases hj : W[j]? with _ | other
      · simp [hl, hj] at hs
      · simp only [hl, hj, WeakPtr_assign_closed, Option.some.injEq] at hs
        subst hs
        exact ⟨Nat.le_refl _, fun c _ =>
          GhostLe_trans _ _ _ c (ghost_weak_AddRef h _ c) (ghost_weak_dtor _ self c)⟩
  | weakMoveAssign i j =>
    simp only [step] at hs
    rcases hj : W[j]? with _ | other
    · simp [hj] at hs
    · simp only [hj, WeakPtr_move_closed] at hs
      rcases hl : (W.set j WeakPtr.default)[i]? with _ | self
      · simp [hl] at hs
      · simp only [hl, WeakPtr_Swap_eq, Option.some.injEq] at hs
        subst hs
        exact ⟨Nat.le_refl _, fun c _ =>
          GhostLe_trans _ _ _ c
            (GhostLe_trans _ _ _ c (ghost_weak_AddRef h _ c) (ghost_weak_dtor _ other c))
            (ghost_weak_dtor _ self c)⟩
  | weakReset j =>
    simp only [step] at hs
    rcases hl : W[j]? with _ | self
    · simp [hl] at hs
    · simp only [hl, WeakPtr_Reset_eq, Option.some.injEq] at hs
      subst hs
      exact ⟨Nat.le_refl _, fun c _ => ghost_weak_dtor h self c⟩
  | weakSwap i j =>
    simp only [step] at hs
    rcases hl : W[i]? with _ | self
    · simp [hl] at hs
    · rcases hj : W[j]? with _ | other
      · simp [hl, hj] at hs
      · simp only [hl, hj, Option.some.injEq] at hs
        subst hs
        exact ⟨Nat.le_refl _, fun c _ => GhostLe_refl h c⟩
  | weakDestroy j =>
    simp only [step] at hs
    rcases hl : W[j]? with _ | self
    · simp [hl] at hs
    · simp only [hl, Option.some.injEq] at hs
      subst hs
      exact ⟨Nat.le_refl _, fun c _ => ghost_weak_dtor h self c⟩
  | weakLock j =>
    simp only [step] at hs
    rcases hl : W[j]? with _ | other
    · simp [hl] at hs
    · simp only [hl] at hs
      have hg := ghost_Lock h other
      rcases hr : WeakPtr.Lock h other with ⟨h1, _ | p⟩ <;>
        simp only [hr, Option.some.injEq] at hs hg <;> subst hs <;>
        exact ⟨Nat.le_refl _, fun c _ => hg c⟩
  | sharedFromThis b =>
    simp only [step] at hs
    split at hs
    · rcases hw : (h b).weak_this_ with _ | wt
      · simp [hw] at hs
      · simp only [hw, EnableSharedFromThis.SharedFromThis] at hs
        have hg := ghost_fromWeak h wt
        rcases hr : SharedPtr.fromWeak h wt with ⟨h1, _ | p⟩ <;>
          simp only [hr, Option.some.injEq] at hs hg <;> subst hs <;>
          exact ⟨Nat.le_refl _, fun c _ => hg c⟩
    · exact absurd hs (by simp)
  | weakFromThis b =>
    simp only [step] at hs
    split at hs
    · rcases hw : (h b).weak_this_ with _ | wt
      · simp [hw] at hs
      · simp only [hw, EnableSharedFromThis.WeakFromThis, WeakPtr_copy_closed,
          Option.some.injEq] at hs
        subst hs
        exact ⟨Nat.le_refl _, fun c _ => ghost_weak_AddRef h _ c⟩
    · exact absurd hs (by simp)

theorem run_ghost (ops : List Op) (s t : State) (hr : run s ops = some t) :
    s.next ≤ t.next ∧ ∀ c, c < s.next → GhostLe s.heap t.heap c := by
  induction ops generalizing s with
  | nil =>
    simp only [run, Option.some.injEq] at hr
    subst hr
    exact ⟨Nat.le_refl _, fun c _ => GhostLe_refl _ c⟩
  | cons op ops ih =>
    simp only [run] at hr
    rcases hs : step s op with _ | s1
    · simp [hs] at hr
    · simp only [hs] at hr
      obtain ⟨h1, h2⟩ := step_ghost s s1 op hs
      obtain ⟨h3, h4⟩ := ih s1 hr
      exact ⟨Nat.le_trans h1 h3, fun c hc =>
        GhostLe_trans _ _ _ c (h2 c hc) (h4 c (Nat.lt_of_lt_of_le hc h1))⟩

theorem expired_of_zero (g : Heap) (b : BlockId) (w : WeakPtr)
    (hz : (g b).GetReferenceCount = 0) (hw : w.block_ = some b) :
    w.Expired g = true ∧ w.UseCount g = 0 ∧
      WeakPtr.Lock g w = (g, Except.ok SharedPtr.default) := by
  have he : w.Expired g = true := by simp [WeakPtr.Expired, hw, hz]
  refine ⟨he, ?_, ?_⟩
  · simp [WeakPtr.UseCount, hw, hz]
  · simp [WeakPtr.Lock, he]

/-- C13: in a reachable state where a block has `strong_count == 0` and
`weak_count > 0`, the managed object has been destroyed once and the block is not
freed; every observer of that block reports `Expired() == true`, `UseCount() == 0`
and `Lock()` returns the empty handle without touching the heap; and after any further
sequence of operations `strong_count` is still 0, no `SharedPtr` refers to the block,
and the observers still report the same. -/
theorem C13_expired_forever (s : State) (hr : Reachable s) (b : BlockId)
    (hs : (s.heap b).GetReferenceCount = 0) (hw : 0 < (s.heap b).GetWeakCount) :
    (s.heap b).deleteObjectCalls = 1 ∧ (s.heap b).deleteCalls = 0 ∧
    ∀ ops t, run s ops = some t →
      (t.heap b).GetReferenceCount = 0 ∧ countShared t.shared b = 0 ∧
      ∀ w : WeakPtr, w.block_ = some b →
        w.Expired t.heap = true ∧ w.UseCount t.heap = 0 ∧
        WeakPtr.Lock t.heap w = (t.heap, Except.ok SharedPtr.default) := by
  have hi := Reachable_Inv s hr
  have hs2 : (s.heap b).reference_count_ = 0 := hs
  have hw2 : 0 < (s.heap b).weak_count_ := hw
  have hb : b < s.next := CellInv_lt s.heap b s.next _ _ (hi b) (Or.inr hw2)
  have hdel : (s.heap b).deleteObjectCalls = 1 := by
    have := (hi b).del hb
    rw [if_pos hs2] at this
    exact this
  have hfree : (s.heap b).deleteCalls = 0 := by
    have := (hi b).free hb
    rw [if_neg (by omega)] at this
    exact this
  refine ⟨hdel, hfree, ?_⟩
  intro ops t hrun
  have hit := run_Inv ops s t hi hrun
  obtain ⟨hn, hg⟩ := run_ghost ops s t hrun
  have hbt : b < t.next := Nat.lt_of_lt_of_le hb hn
  have hz : (t.heap b).reference_count_ = 0 := by
    have h1 := (hit b).del hbt
    have h2 := (hg b hb).1
    by_contra hne
    rw [if_neg hne] at h1
    omega
  refine ⟨hz, ?_, fun w hwb => expired_of_zero t.heap b w hz hwb⟩
  have h3 : (t.heap b).reference_count_ = countShared t.shared b := (hit b).strong
  omega

theorem C13_witness :
    Reachable demoStateExpired ∧
      (demoStateExpired.heap 0).GetReferenceCount = 0 ∧
      (demoStateExpired.heap 0).GetWeakCount = 2 ∧
      demoStateExpired.weak = [WeakPtr.mk (some 0) 7, WeakPtr.mk (some 0) 7] ∧
      (demoStateExpired.heap 0).deleteObjectCalls = 1 ∧
      (demoStateExpired.heap 0).deleteCalls = 0 ∧
      ∀ ops t, run demoStateExpired ops = some t →
        (t.heap 0).GetReferenceCount = 0 ∧ countShared t.shared 0 = 0 ∧
        ∀ w : WeakPtr, w.block_ = some 0 →
          w.Expired t.heap = true ∧ w.UseCount t.heap = 0 ∧
          WeakPtr.Lock t.heap w = (t.heap, Except.ok SharedPtr.default) :=
  ⟨⟨demoOpsExpired, rfl⟩, by decide, by decide, by decide,
    C13_expired_forever demoStateExpired ⟨demoOpsExpired, rfl⟩ 0 (by decide) (by decide)⟩

/-- The heap that `~SharedPtr` leaves is the decremented heap, followed by
`DeleteObject` (and possibly `delete block_`) if the decremented count is 0. In the
decremented heap, and in the heap in which the managed object's destructor runs before
its `weak_this_` member dies, every observer of the block reports `Expired() == true`
and `Lock()` returns the empty handle. -/
theorem dtor_after_Decrement (h : Heap) (o : Addr) (b : BlockId) :
    ((h.Decrement b) b).GetReferenceCount =
      (if (h b).GetReferenceCount = 0 then SIZE_MAX else (h b).GetReferenceCount - 1) ∧
    (¬ ((h.Decrement b) b).GetReferenceCount = 0 →
      SharedPtr.dtor h ⟨o, some b⟩ = h.Decrement b) ∧
    (((h.Decrement b) b).GetReferenceCount = 0 →
      (SharedPtr.dtor h ⟨o, some b⟩ = (h.Decrement b).DeleteObject b ∨
        SharedPtr.dtor h ⟨o, some b⟩ = ((h.Decrement b).DeleteObject b).deleteBlock b) ∧
      (h.Decrement b).DeleteObject b =
        (match ((h.Decrement b) b).weak_this_ with
         | none =>
           Function.update (h.Decrement b) b
             { (h.Decrement b) b with
               deleteObjectCalls := ((h.Decrement b) b).deleteObjectCalls + 1 }
         | some wt =>
           WeakPtr.dtor (Function.update (h.Decrement b) b
             { (h.Decrement b) b with
               deleteObjectCalls := ((h.Decrement b) b).deleteObjectCalls + 1 }) wt) ∧
      ∀ w : WeakPtr, w.block_ = some b →
        (w.Expired (h.Decrement b) = true ∧
          WeakPtr.Lock (h.Decrement b) w = (h.Decrement b, Except.ok SharedPtr.default)) ∧
        (w.Expired (Function.update (h.Decrement b) b
            { (h.Decrement b) b with
              deleteObjectCalls := ((h.Decrement b) b).deleteObjectCalls + 1 }) = true ∧
          WeakPtr.Lock (Function.update (h.Decrement b) b
            { (h.Decrement b) b with
              deleteObjectCalls := ((h.Decrement b) b).deleteObjectCalls + 1 }) w =
            (Function.update (h.Decrement b) b
              { (h.Decrement b) b with
                deleteObjectCalls := ((h.Decrement b) b).deleteObjectCalls + 1 },
              Except.ok SharedPtr.default))) := by
  refine ⟨?_, ?_, ?_⟩
  · simp [Heap.Decrement, ControlBlockBase.Decrement, ControlBlockBase.GetReferenceCount]
  · intro hne
    simp [SharedPtr.dtor, hne]
  · intro hz
    refine ⟨?_, ?_, ?_⟩
    · simp only [SharedPtr.dtor, hz, true_and, if_true]
      split_ifs
      · exact Or.inr rfl
      · exact Or.inl rfl
    · unfold Heap.DeleteObject
      rcases ((h.Decrement b) b).kind with p | p <;>
        rcases ((h.Decrement b) b).weak_this_ with _ | wt <;> rfl
    · intro w hw
      have h1 := expired_of_zero (h.Decrement b) b w hz hw
      have hz2 : ((Function.update (h.Decrement b) b
          { (h.Decrement b) b with
            deleteObjectCalls := ((h.Decrement b) b).deleteObjectCalls + 1 }) b).GetReferenceCount
          = 0 := by
        simpa [ControlBlockBase.GetReferenceCount] using hz
      have h2 := expired_of_zero _ b w hz2 hw
      exact ⟨⟨h1.1, h1.2.2⟩, ⟨h2.1, h2.2.2⟩⟩

theorem dtor_after_Decrement_example :
    demoStateTwo.shared[1]? = some (SharedPtr.mk 100 (some 1)) ∧
      (demoStateTwo.heap 1).GetReferenceCount = 1 ∧
      (demoStateTwo.heap 1).weak_this_ = some ⟨some 1, 100⟩ ∧
      ((demoStateTwo.heap.Decrement 1) 1).GetReferenceCount = 0 ∧
      (SharedPtr.dtor demoStateTwo.heap ⟨100, some 1⟩ =
          (demoStateTwo.heap.Decrement 1).DeleteObject 1 ∨
        SharedPtr.dtor demoStateTwo.heap ⟨100, some 1⟩ =
          ((demoStateTwo.heap.Decrement 1).DeleteObject 1).deleteBlock 1) ∧
      WeakPtr.Expired (demoStateTwo.heap.Decrement 1) ⟨some 1, 100⟩ = true :=
  ⟨rfl, by decide, by decide, by decide,
    ((dtor_after_Decrement demoStateTwo.heap 100 1).2.2 (by decide)).1,
    by decide⟩

theorem fromRaw_some (h : Heap) (n : BlockId) (ptr : Addr) (esft : Bool)
    (hp : esft = true → ptr ≠ 0) :
    ∃ h2, SharedPtr.fromRaw h n ptr esft = some (h2, ⟨ptr, some n⟩) := by
  cases esft
  · exact ⟨_, fromRaw_plain h n ptr⟩
  · exact ⟨_, fromRaw_esft h n ptr (hp rfl)⟩

theorem Inv_calls (s : State) (hi : Inv s) (b : BlockId) (hb : b < s.next) :
    (s.heap b).deleteObjectCalls = if (s.heap b).GetReferenceCount = 0 then 1 else 0 :=
  (hi b).del hb

/-- C18: for a live handle `p`: after `p.Reset()` the handle is empty (`Get() ==
nullptr`, `UseCount() == 0`, `Unique() == false`), the `strong_count` of its former
block is one less than before, and the managed object has been destroyed exactly if
that count is now 0. After `p.Reset(ptr)` (with `ptr` non-null when the type derives
from `EnableSharedFromThis`) `p.Get() == ptr`, `p` has a fresh block different from
the former one, `UseCount() == 1`, `Unique() == true`, and the former block is
released in the same way. -/
theorem C18_Reset (s : State) (hr : Reachable s) (i : Nat) (p : SharedPtr)
    (hl : s.shared[i]? = some p) :
    (∃ t q, step s (Op.sharedReset i) = some t ∧ t.shared = s.shared.set i q ∧
      q.Get = 0 ∧ q.block_ = none ∧ q.UseCount t.heap = 0 ∧ q.Unique t.heap = false ∧
      (p.block_ = none → t.heap = s.heap) ∧
      ∀ b, p.block_ = some b →
        (t.heap b).GetReferenceCount + 1 = (s.heap b).GetReferenceCount ∧
        (s.heap b).deleteObjectCalls = 0 ∧
        (t.heap b).deleteObjectCalls =
          (if (t.heap b).GetReferenceCount = 0 then 1 else 0)) ∧
    (∀ (ptr : Addr) (esft : Bool), (esft = true → ptr ≠ 0) →
      ∃ t q, step s (Op.sharedResetPtr i ptr esft) = some t ∧
        t.shared = s.shared.set i q ∧
        q.Get = ptr ∧ q.block_ = some s.next ∧ p.block_ ≠ some s.next ∧
        q.UseCount t.heap = 1 ∧ q.Unique t.heap = true ∧
        (t.heap s.next).deleteObjectCalls = 0 ∧
        ∀ b, p.block_ = some b →
          (t.heap b).GetReferenceCount + 1 = (s.heap b).GetReferenceCount ∧
          (s.heap b).deleteObjectCalls = 0 ∧
          (t.heap b).deleteObjectCalls =
            (if (t.heap b).GetReferenceCount = 0 then 1 else 0)) := by
  have hi := Reachable_Inv s hr
  have hlive : ∀ b, p.block_ = some b → 0 < (s.heap b).reference_count_ ∧ b < s.next ∧
      (s.heap b).deleteObjectCalls = 0 := by
    intro b hb
    have h1 : (s.heap b).reference_count_ = countShared s.shared b := (hi b).strong
    have h2 := countShared_pos s.shared i p b hl hb
    have h3 : 0 < (s.heap b).reference_count_ := by omega
    have h4 := CellInv_lt s.heap b s.next _ _ (hi b) (Or.inl h3)
    have h5 := (hi b).del h4
    rw [if_neg (by omega)] at h5
    exact ⟨h3, h4, h5⟩
  constructor
  · have hstep : step s (Op.sharedReset i) =
        some { s with heap := SharedPtr.dtor s.heap p, shared := s.shared.set i SharedPtr.default } := by
      simp [step, hl, SharedPtr_Reset_eq]
    have hit := step_Inv s _ _ hi hstep
    refine ⟨_, SharedPtr.default, hstep, rfl, rfl, rfl, rfl, rfl, ?_, ?_⟩
    · intro hn
      rcases p with ⟨o, blk⟩
      simp only at hn
      subst hn
      rfl
    · intro b hb
      obtain ⟨h3, h4, h5⟩ := hlive b hb
      have e1 : (s.heap b).reference_count_ = countShared s.shared b := (hi b).strong
      have e2 : (SharedPtr.dtor s.heap p b).reference_count_ =
          countShared (s.shared.set i SharedPtr.default) b := (hit b).strong
      have e3 := countShared_set s.shared i p SharedPtr.default b hl
      have e4 : ind p.block_ b = 1 := by simp [ind, hb]
      have e5 : ind SharedPtr.default.block_ b = 0 := by simp [ind, SharedPtr.default]
      refine ⟨?_, h5, (hit b).del h4⟩
      simp only [ControlBlockBase.GetReferenceCount]
      omega
  · intro ptr esft hp
    obtain ⟨h2, hf⟩ := fromRaw_some s.heap s.next ptr esft hp
    have hstep : step s (Op.sharedResetPtr i ptr esft) =
        some { s with heap := SharedPtr.dtor h2 p, next := s.next + 1,
                      shared := s.shared.set i ⟨ptr, some s.next⟩ } := by
      simp [step, hl, SharedPtr.ResetPtr, hf, SharedPtr_Swap_eq]
    have hit := step_Inv s _ _ hi hstep
    have hfresh := (hi s.next).fresh (Nat.le_refl _)
    have hne : p.block_ ≠ some s.next := by
      intro hb
      exact absurd (hlive s.next hb).2.1 (Nat.lt_irrefl _)
    have e0 : (s.heap s.next).reference_count_ = countShared s.shared s.next :=
      (hi s.next).strong
    have e2 : (SharedPtr.dtor h2 p s.next).reference_count_ =
        countShared (s.shared.set i ⟨ptr, some s.next⟩) s.next := (hit s.next).strong
    have e3 := countShared_set s.shared i p ⟨ptr, some s.next⟩ s.next hl
    have e4 : ind p.block_ s.next = 0 := by simp [ind, hne]
    have e5 : ind (SharedPtr.mk ptr (some s.next)).block_ s.next = 1 := by simp [ind]
    have hone : (SharedPtr.dtor h2 p s.next).reference_count_ = 1 := by omega
    have hcalls := (hit s.next).del (Nat.lt_succ_self _)
    refine ⟨_, ⟨ptr, some s.next⟩, hstep, rfl, rfl, rfl, hne, ?_, ?_, ?_, ?_⟩
    · simpa [SharedPtr.UseCount, ControlBlockBase.GetReferenceCount] using hone
    · simp [SharedPtr.Unique, SharedPtr.UseCount, ControlBlockBase.GetReferenceCount, hone]
    · simp only at hcalls
      rw [hcalls, hone]
      rfl
    · intro b hb
      obtain ⟨h3, h4, h5⟩ := hlive b hb
      have hbn : b ≠ s.next := Nat.ne_of_lt h4
      have f1 : (s.heap b).reference_count_ = countShared s.shared b := (hi b).strong
      have f2 : (SharedPtr.dtor h2 p b).reference_count_ =
          countShared (s.shared.set i ⟨ptr, some s.next⟩) b := (hit b).strong
      have f3 := countShared_set s.shared i p ⟨ptr, some s.next⟩ b hl
      have f4 : ind p.block_ b = 1 := by simp [ind, hb]
      have f5 : ind (SharedPtr.mk ptr (some s.next)).block_ b = 0 := by
        simp [ind, Ne.symm hbn]
      refine ⟨?_, h5, (hit b).del (Nat.lt_succ_of_lt h4)⟩
      simp only [ControlBlockBase.GetReferenceCount]
      omega

theorem C18_witness :
    Reachable demoStateTwo ∧ demoStateTwo.shared[0]? = some (SharedPtr.mk 7 (some 0)) ∧
    (∃ t q, step demoStateTwo (Op.sharedReset 0) = some t ∧
      t.shared = demoStateTwo.shared.set 0 q ∧
      q.Get = 0 ∧ q.block_ = none ∧ q.UseCount t.heap = 0 ∧ q.Unique t.heap = false ∧
      ((SharedPtr.mk 7 (some 0)).block_ = none → t.heap = demoStateTwo.heap) ∧
      ∀ b, (SharedPtr.mk 7 (some 0)).block_ = some b →
        (t.heap b).GetReferenceCount + 1 = (demoStateTwo.heap b).GetReferenceCount ∧
        (demoStateTwo.heap b).deleteObjectCalls = 0 ∧
        (t.heap b).deleteObjectCalls =
          (if (t.heap b).GetReferenceCount = 0 then 1 else 0)) :=
  ⟨⟨demoOpsTwo, rfl⟩, rfl,
    (C18_Reset demoStateTwo ⟨demoOpsTwo, rfl⟩ 0 ⟨7, some 0⟩ rfl).1⟩

theorem IncrementWeak_at (h : Heap) (b : BlockId) :
    ((h.IncrementWeak b) b).GetWeakCount = (h b).GetWeakCount + 1 ∧
      ((h.IncrementWeak b) b).GetReferenceCount = (h b).GetReferenceCount ∧
      (∀ c, ((h.IncrementWeak b) c).deleteObjectCalls = (h c).deleteObjectCalls ∧
        ((h.IncrementWeak b) c).deleteCalls = (h c).deleteCalls) ∧
      ∀ c, c ≠ b → (h.IncrementWeak b) c = h c := by
  refine ⟨?_, ?_, ?_, ?_⟩
  · simp [Heap.IncrementWeak, ControlBlockBase.IncrementWeak, ControlBlockBase.GetWeakCount]
  · simp [Heap.IncrementWeak, ControlBlockBase.IncrementWeak,
      ControlBlockBase.GetReferenceCount]
  · intro c
    by_cases hc : c = b
    · subst hc
      simp [Heap.IncrementWeak]
    · simp [Heap.IncrementWeak, Function.update_noteq hc]
  · intro c hc
    simp [Heap.IncrementWeak, Function.update_noteq hc]

theorem weak_dtor_IncrementWeak (h : Heap) (b : BlockId) (o : Addr)
    (hpos : 0 < (h b).weak_count_) :
    WeakPtr.dtor (h.IncrementWeak b) ⟨some b, o⟩ = h := by
  have h1 : (h b).weak_count_ ≠ 0 := by omega
  simp [WeakPtr.dtor, Heap.IncrementWeak, Heap.DecrementWeak, ControlBlockBase.IncrementWeak,
    ControlBlockBase.DecrementWeak, ControlBlockBase.GetWeakCount, h1]

theorem Lock_temp_restores (h : Heap) (w : WeakPtr) :
    ∃ h1 t, WeakPtr.Lock h w = (h1, Except.ok t) ∧
      (∀ c, (h1 c).deleteObjectCalls = (h c).deleteObjectCalls ∧
        (h1 c).deleteCalls = (h c).deleteCalls) ∧
      SharedPtr.dtor h1 t = h := by
  rw [Lock_closed]
  by_cases he : w.Expired h = true
  · exact ⟨h, SharedPtr.default, by simp [he], fun _ => ⟨rfl, rfl⟩, rfl⟩
  · rcases w with ⟨_ | b, o⟩
    · simp [WeakPtr.Expired] at he
    · have hpos : 0 < (h b).reference_count_ := by
        simp [WeakPtr.Expired, ControlBlockBase.GetReferenceCount] at he
        omega
      have hx := Increment_at h b
      refine ⟨h.Increment b, ⟨o, some b⟩, by simp [he, SharedPtr.AddRef], ?_,
        dtor_Increment h b o hpos⟩
      intro c
      by_cases hc : c = b
      · subst hc
        exact ⟨hx.2.2.1, hx.2.2.2.1⟩
      · rw [hx.2.2.2.2 c hc]
        exact ⟨rfl, rfl⟩

/-- Copy-constructing a `WeakPtr` from a live observer `w` that has a block,
expired or not, yields an observer on `w`'s block, adds exactly 1 to `weak_count`,
leaves `strong_count`, every other block and the counters of `DeleteObject` and
`delete block_` calls as they were (the temporary that `Lock()` returns inside the
constructor changes neither counter of calls, and its destructor restores the heap);
move-constructing from a source of the same type leaves the whole heap as it was and
the source without a block. Constructing a `WeakPtr` from a live `SharedPtr`
copies its block and observed address and adds exactly 1 to `weak_count` without
changing `strong_count`. -/
theorem WeakPtr_construction_effects (s : State) (hr : Reachable s) :
    (∀ (j : Nat) (w : WeakPtr) (b : BlockId), s.weak[j]? = some w → w.block_ = some b →
      (∃ t v, step s (Op.weakCopy j) = some t ∧ t.weak = s.weak ++ [v] ∧
        t.shared = s.shared ∧ v.block_ = some b ∧
        (t.heap b).GetWeakCount = (s.heap b).GetWeakCount + 1 ∧
        (t.heap b).GetReferenceCount = (s.heap b).GetReferenceCount ∧
        (∀ c, (t.heap c).deleteObjectCalls = (s.heap c).deleteObjectCalls ∧
          (t.heap c).deleteCalls = (s.heap c).deleteCalls) ∧
        (∀ c, c ≠ b → t.heap c = s.heap c)) ∧
      (∃ t v src, step s (Op.weakMove j) = some t ∧ t.weak = s.weak.set j src ++ [v] ∧
        t.shared = s.shared ∧ v.block_ = some b ∧ src.block_ = none ∧ t.heap = s.heap)) ∧
    (∀ (i : Nat) (p : SharedPtr), s.shared[i]? = some p →
      ∃ t v, step s (Op.weakFromShared i) = some t ∧ t.weak = s.weak ++ [v] ∧
        t.shared = s.shared ∧ v.block_ = p.block_ ∧ v.observed_ = p.observed_ ∧
        ∀ b, p.block_ = some b →
          (t.heap b).GetWeakCount = (s.heap b).GetWeakCount + 1 ∧
          (t.heap b).GetReferenceCount = (s.heap b).GetReferenceCount ∧
          (∀ c, (t.heap c).deleteObjectCalls = (s.heap c).deleteObjectCalls ∧
            (t.heap c).deleteCalls = (s.heap c).deleteCalls) ∧
          (∀ c, c ≠ b → t.heap c = s.heap c)) ∧
    (∀ w : WeakPtr, ∃ h1 t, WeakPtr.Lock s.heap w = (h1, Except.ok t) ∧
      (∀ c, (h1 c).deleteObjectCalls = (s.heap c).deleteObjectCalls ∧
        (h1 c).deleteCalls = (s.heap c).deleteCalls) ∧
      SharedPtr.dtor h1 t = s.heap) := by
  have hi := Reachable_Inv s hr
  refine ⟨?_, ?_, fun w => Lock_temp_restores s.heap w⟩
  · intro j w b hl hb
    have hpos : 0 < (s.heap b).weak_count_ := by
      have h1 : (s.heap b).weak_count_ = countWeak s.weak b + selfW s.heap b := (hi b).weak
      have h2 := countWeak_pos s.weak j w b hl hb
      omega
    have hx := IncrementWeak_at s.heap b
    constructor
    · refine ⟨{ s with heap := s.heap.IncrementWeak b,
                       weak := s.weak ++ [⟨some b, if w.Expired s.heap then 0 else w.observed_⟩] },
        ⟨some b, if w.Expired s.heap then 0 else w.observed_⟩, ?_, rfl, rfl, rfl,
        hx.1, hx.2.1, hx.2.2.1, hx.2.2.2⟩
      simp [step, hl, WeakPtr_copy_closed, hb, WeakPtr.AddRef]
    · refine ⟨{ s with weak := s.weak.set j WeakPtr.default ++
                         [⟨some b, if w.Expired s.heap then 0 else w.observed_⟩] },
        ⟨some b, if w.Expired s.heap then 0 else w.observed_⟩, WeakPtr.default, ?_, rfl, rfl,
        rfl, rfl, rfl⟩
      rcases w with ⟨wb, wo⟩
      simp only at hb
      subst hb
      simp [step, hl, WeakPtr_move_closed, WeakPtr.AddRef,
        weak_dtor_IncrementWeak s.heap b wo hpos]
  · intro i p hl
    refine ⟨{ s with heap := WeakPtr.AddRef s.heap ⟨p.block_, p.observed_⟩,
                     weak := s.weak ++ [⟨p.block_, p.observed_⟩] },
      ⟨p.block_, p.observed_⟩, ?_, rfl, rfl, rfl, rfl, ?_⟩
    · simp [step, hl, WeakPtr.fromShared]
    · intro b hb
      have hx := IncrementWeak_at s.heap b
      simp only [WeakPtr.AddRef, hb]
      exact ⟨hx.1, hx.2.1, hx.2.2.1, hx.2.2.2⟩

theorem WeakPtr_construction_effects_example :
    Reachable demoStateExpired ∧
      demoStateExpired.weak[0]? = some (WeakPtr.mk (some 0) 7) ∧
      WeakPtr.Expired demoStateExpired.heap (WeakPtr.mk (some 0) 7) = true ∧
      (∃ t v, step demoStateExpired (Op.weakCopy 0) = some t ∧
        t.weak = demoStateExpired.weak ++ [v] ∧
        t.shared = demoStateExpired.shared ∧ v.block_ = some 0 ∧
        (t.heap 0).GetWeakCount = (demoStateExpired.heap 0).GetWeakCount + 1 ∧
        (t.heap 0).GetReferenceCount = (demoStateExpired.heap 0).GetReferenceCount ∧
        (∀ c, (t.heap c).deleteObjectCalls = (demoStateExpired.heap c).deleteObjectCalls ∧
          (t.heap c).deleteCalls = (demoStateExpired.heap c).deleteCalls) ∧
        (∀ c, c ≠ 0 → t.heap c = demoStateExpired.heap c)) :=
  ⟨⟨demoOpsExpired, rfl⟩, rfl, by decide,
    ((WeakPtr_construction_effects demoStateExpired ⟨demoOpsExpired, rfl⟩).1 0
      (WeakPtr.mk (some 0) 7) 0 rfl rfl).1⟩

/-! ## In-place and raw-address construction simulate each other -/

theorem SimBlock_refl (x : Block) : SimBlock x x := ⟨rfl, rfl, rfl, rfl⟩

theorem SimHeap_refl (h : Heap) : SimHeap h h := fun c => SimBlock_refl (h c)

theorem Sim_refl (s : State) : Sim s s := ⟨SimHeap_refl s.heap, rfl, rfl, rfl⟩

theorem sim_update (h g : Heap) (b : BlockId) (x y : Block) (hs : SimHeap h g)
    (hb : SimBlock x y) : SimHeap (Function.update h b x) (Function.update g b y) := by
  intro c
  by_cases hc : c = b
  · subst hc
    simpa using hb
  · simpa [Function.update_noteq hc] using hs c

theorem sim_Increment (h g : Heap) (b : BlockId) (hs : SimHeap h g) :
    SimHeap (h.Increment b) (g.Increment b) := by
  obtain ⟨h1, h2, h3, h4⟩ := hs b
  exact sim_update h g b _ _ hs ⟨by simp [h1], h2, h3, h4⟩

theorem sim_Decrement (h g : Heap) (b : BlockId) (hs : SimHeap h g) :
    SimHeap (h.Decrement b) (g.Decrement b) := by
  obtain ⟨h1, h2, h3, h4⟩ := hs b
  exact sim_update h g b _ _ hs ⟨by simp [h1], h2, h3, h4⟩

theorem sim_IncrementWeak (h g : Heap) (b : BlockId) (hs : SimHeap h g) :
    SimHeap (h.IncrementWeak b) (g.IncrementWeak b) := by
  obtain ⟨h1, h2, h3, h4⟩ := hs b
  exact sim_update h g b _ _ hs ⟨by simp [h1], h2, h3, h4⟩

theorem sim_DecrementWeak (h g : Heap) (b : BlockId) (hs : SimHeap h g) :
    SimHeap (h.DecrementWeak b) (g.DecrementWeak b) := by
  obtain ⟨h1, h2, h3, h4⟩ := hs b
  exact sim_update h g b _ _ hs ⟨by simp [h1], h2, h3, h4⟩

theorem sim_deleteBlock (h g : Heap) (b : BlockId) (hs : SimHeap h g) :
    SimHeap (h.deleteBlock b) (g.deleteBlock b) := by
  obtain ⟨h1, h2, h3, h4⟩ := hs b
  exact sim_update h g b _ _ hs ⟨h1, h2, h3, by simp [h4]⟩

theorem sim_counts (h g : Heap) (b : BlockId) (hs : SimHeap h g) :
    (h b).GetReferenceCount = (g b).GetReferenceCount ∧
      (h b).GetWeakCount = (g b).GetWeakCount := by
  obtain ⟨h1, _, _, _⟩ := hs b
  simp [ControlBlockBase.GetReferenceCount, ControlBlockBase.GetWeakCount, h1]

theorem sim_AddRef (h g : Heap) (p q : SharedPtr) (hs : SimHeap h g)
    (hb : p.block_ = q.block_) : SimHeap (SharedPtr.AddRef h p) (SharedPtr.AddRef g q) := by
  rcases p with ⟨po, pb⟩
  rcases q with ⟨qo, qb⟩
  simp only at hb
  subst hb
  cases pb with
  | none => exact hs
  | some b => exact sim_Increment h g b hs

theorem sim_weak_AddRef (h g : Heap) (w v : WeakPtr) (hs : SimHeap h g)
    (hb : w.block_ = v.block_) : SimHeap (WeakPtr.AddRef h w) (WeakPtr.AddRef g v) := by
  rcases w with ⟨wb, wo⟩
  rcases v with ⟨vb, vo⟩
  simp only at hb
  subst hb
  cases wb with
  | none => exact hs
  | some b => exact sim_IncrementWeak h g b hs

theorem sim_weak_dtor (h g : Heap) (w v : WeakPtr) (hs : SimHeap h g)
    (hb : w.block_ = v.block_) : SimHeap (WeakPtr.dtor h w) (WeakPtr.dtor g v) := by
  rcases w with ⟨wb, wo⟩
  rcases v with ⟨vb, vo⟩
  simp only at hb
  subst hb
  cases wb with
  | none => exact hs
  | some b =>
    have h1 := sim_DecrementWeak h g b hs
    have h2 := sim_counts _ _ b h1
    simp only [WeakPtr.dtor, h2.1, h2.2]
    split_ifs
    · exact sim_deleteBlock _ _ b h1
    · exact h1

theorem sim_DeleteObject (h g : Heap) (b : BlockId) (hs : SimHeap h g) :
    SimHeap (h.DeleteObject b) (g.DeleteObject b) := by
  obtain ⟨h1, h2, h3, h4⟩ := hs b
  have key : SimHeap
      (Function.update h b { h b with deleteObjectCalls := (h b).deleteObjectCalls + 1 })
      (Function.update g b { g b with deleteObjectCalls := (g b).deleteObjectCalls + 1 }) :=
    sim_update h g b _ _ hs ⟨h1, h2, by simp [h3], h4⟩
  unfold Heap.DeleteObject
  rcases hw : (h b).weak_this_ with _ | w <;> rcases hv : (g b).weak_this_ with _ | v
  · rcases (h b).kind with p | p <;> rcases (g b).kind with q | q <;> exact key
  · simp [hw, hv] at h2
  · simp [hw, hv] at h2
  · have hwv : w.block_ = v.block_ := by simpa [hw, hv] using h2
    rcases (h b).kind with p | p <;> rcases (g b).kind with q | q <;>
      exact sim_weak_dtor _ _ w v key hwv

theorem sim_dtor (h g : Heap) (p q : SharedPtr) (hs : SimHeap h g)
    (hb : p.block_ = q.block_) : SimHeap (SharedPtr.dtor h p) (SharedPtr.dtor g q) := by
  rcases p with ⟨po, pb⟩
  rcases q with ⟨qo, qb⟩
  simp only at hb
  subst hb
  cases pb with
  | none => exact hs
  | some b =>
    have h1 := sim_Decrement h g b hs
    have h2 := sim_counts _ _ b h1
    simp only [SharedPtr.dtor, h2.1, h2.2]
    split_ifs
    · exact sim_deleteBlock _ _ b (sim_DeleteObject _ _ b h1)
    · exact sim_DeleteObject _ _ b h1
    · exact h1

theorem sim_Expired (h g : Heap) (w v : WeakPtr) (hs : SimHeap h g)
    (hb : w.block_ = v.block_) : w.Expired h = v.Expired g := by
  rcases w with ⟨wb, wo⟩
  rcases v with ⟨vb, vo⟩
  simp only at hb
  subst hb
  cases wb with
  | none => rfl
  | some b => simp [WeakPtr.Expired, (sim_counts h g b hs).1]

theorem sim_lookup {α β : Type} (f : α → β) (S T : List α) (i : Nat)
    (hm : S.map f = T.map f) :
    (S[i]? = none ∧ T[i]? = none) ∨
      ∃ p q, S[i]? = some p ∧ T[i]? = some q ∧ f p = f q := by
  have h1 : (S.map f)[i]? = (T.map f)[i]? := by rw [hm]
  rw [List.getElem?_map, List.getElem?_map] at h1
  rcases hs : S[i]? with _ | p <;> rcases ht : T[i]? with _ | q
  · exact Or.inl ⟨rfl, rfl⟩
  · simp [hs, ht] at h1
  · simp [hs, ht] at h1
  · refine Or.inr ⟨p, q, rfl, rfl, ?_⟩
    simpa [hs, ht] using h1

theorem map_eraseIdx {α β : Type} (f : α → β) (l : List α) (i : Nat) :
    (l.eraseIdx i).map f = (l.map f).eraseIdx i := by
  induction l generalizing i with
  | nil => simp
  | cons x xs ih =>
    cases i with
    | zero => simp
    | succ k => simp [ih]

theorem sim_push {α β : Type} (f : α → β) (S T : List α) (p q : α)
    (hm : S.map f = T.map f) (hp : f p = f q) : (S ++ [p]).map f = (T ++ [q]).map f := by
  rw [List.map_append, List.map_append, hm]
  simp [hp]

theorem sim_set {α β : Type} (f : α → β) (S T : List α) (i : Nat) (p q : α)
    (hm : S.map f = T.map f) (hp : f p = f q) : (S.set i p).map f = (T.set i q).map f := by
  rw [List.map_set, List.map_set, hm, hp]

theorem sim_erase {α β : Type} (f : α → β) (S T : List α) (i : Nat)
    (hm : S.map f = T.map f) : (S.eraseIdx i).map f = (T.eraseIdx i).map f := by
  rw [map_eraseIdx, map_eraseIdx, hm]

theorem sim_fromRaw (h g : Heap) (n : BlockId) (ptr : Addr) (esft : Bool)
    (hs : SimHeap h g) :
    (SharedPtr.fromRaw h n ptr esft = none ∧ SharedPtr.fromRaw g n ptr esft = none) ∨
      ∃ h2 g2, SharedPtr.fromRaw h n ptr esft = some (h2, ⟨ptr, some n⟩) ∧
        SharedPtr.fromRaw g n ptr esft = some (g2, ⟨ptr, some n⟩) ∧ SimHeap h2 g2 := by
  cases esft
  · exact Or.inr ⟨_, _, fromRaw_plain h n ptr, fromRaw_plain g n ptr,
      sim_update h g n _ _ hs (SimBlock_refl _)⟩
  · by_cases hp : ptr = 0
    · subst hp
      exact Or.inl ⟨fromRaw_esft_null h n, fromRaw_esft_null g n⟩
    · exact Or.inr ⟨_, _, fromRaw_esft h n ptr hp, fromRaw_esft g n ptr hp,
        sim_update h g n _ _ hs (SimBlock_refl _)⟩

theorem sim_MakeShared (h g : Heap) (n : BlockId) (storage : Addr) (esft : Bool)
    (hs : SimHeap h g) :
    ∃ h2 g2, MakeShared h n storage esft = some (h2, ⟨storage, some n⟩) ∧
      MakeShared g n storage esft = some (g2, ⟨storage, some n⟩) ∧ SimHeap h2 g2 := by
  cases esft
  · exact ⟨_, _, MakeShared_plain h n storage, MakeShared_plain g n storage,
      sim_update h g n _ _ hs (SimBlock_refl _)⟩
  · exact ⟨_, _, MakeShared_esft h n storage, MakeShared_esft g n storage,
      sim_update h g n _ _ hs (SimBlock_refl _)⟩

theorem sim_MakeShared_fromRaw (h g : Heap) (n : BlockId) (storage ptr : Addr) (esft : Bool)
    (hs : SimHeap h g) (hp : esft = true → ptr ≠ 0) :
    ∃ h2 g2, MakeShared h n storage esft = some (h2, ⟨storage, some n⟩) ∧
      SharedPtr.fromRaw g n ptr esft = some (g2, ⟨ptr, some n⟩) ∧ SimHeap h2 g2 := by
  cases esft
  · exact ⟨_, _, MakeShared_plain h n storage, fromRaw_plain g n ptr,
      sim_update h g n _ _ hs ⟨rfl, rfl, rfl, rfl⟩⟩
  · exact ⟨_, _, MakeShared_esft h n storage, fromRaw_esft g n ptr (hp rfl),
      sim_update h g n _ _ hs ⟨rfl, rfl, rfl, rfl⟩⟩

theorem sim_fromWeak (h g : Heap) (w v : WeakPtr) (hs : SimHeap h g)
    (hb : w.block_ = v.block_) :
    (SharedPtr.fromWeak h w = (h, Except.error BadWeakPtr.mk) ∧
        SharedPtr.fromWeak g v = (g, Except.error BadWeakPtr.mk)) ∨
      ∃ h1 g1 p q, SharedPtr.fromWeak h w = (h1, Except.ok p) ∧
        SharedPtr.fromWeak g v = (g1, Except.ok q) ∧ SimHeap h1 g1 ∧ p.block_ = q.block_ := by
  have he := sim_Expired h g w v hs hb
  unfold SharedPtr.fromWeak
  rw [← he]
  by_cases hx : w.Expired h = true
  · exact Or.inl ⟨by simp [hx], by simp [hx]⟩
  · have hx2 : w.Expired h = false := by simpa using hx
    exact Or.inr ⟨SharedPtr.AddRef h ⟨w.observed_, w.block_⟩,
      SharedPtr.AddRef g ⟨v.observed_, v.block_⟩, ⟨w.observed_, w.block_⟩,
      ⟨v.observed_, v.block_⟩, by simp [hx2], by simp [hx2],
      sim_AddRef h g ⟨w.observed_, w.block_⟩ ⟨v.observed_, v.block_⟩ hs hb, hb⟩

theorem sim_Lock (h g : Heap) (w v : WeakPtr) (hs : SimHeap h g)
    (hb : w.block_ = v.block_) :
    ∃ h1 g1 p q, WeakPtr.Lock h w = (h1, Except.ok p) ∧
      WeakPtr.Lock g v = (g1, Except.ok q) ∧ SimHeap h1 g1 ∧ p.block_ = q.block_ := by
  have he := sim_Expired h g w v hs hb
  rw [Lock_closed, Lock_closed, ← he]
  by_cases hx : w.Expired h = true
  · exact ⟨h, g, SharedPtr.default, SharedPtr.default, by simp [hx], by simp [hx], hs, rfl⟩
  · have hx2 : w.Expired h = false := by simpa using hx
    exact ⟨SharedPtr.AddRef h ⟨w.observed_, w.block_⟩,
      SharedPtr.AddRef g ⟨v.observed_, v.block_⟩, ⟨w.observed_, w.block_⟩,
      ⟨v.observed_, v.block_⟩, by simp [hx2], by simp [hx2],
      sim_AddRef h g ⟨w.observed_, w.block_⟩ ⟨v.observed_, v.block_⟩ hs hb, hb⟩

/-- One operation takes similar states to similar outcomes. -/
theorem step_sim (s t : State) (op : Op) (hsim : Sim s t) :
    SimOpt (step s op) (step t op) := by
  obtain ⟨h, n, S, W⟩ := s
  obtain ⟨g, m, T, V⟩ := t
  obtain ⟨hs, hn, hS, hW⟩ := hsim
  simp only at hs hn hS hW
  subst hn
  cases op with
  | sharedDefault =>
    simp only [step, SimOpt]
    exact ⟨hs, rfl, sim_push _ S T _ _ hS rfl, hW⟩
  | sharedFromRaw ptr esft =>
    rcases sim_fromRaw h g n ptr esft hs with ⟨e1, e2⟩ | ⟨h2, g2, e1, e2, e3⟩
    · simp [step, e1, e2, SimOpt]
    · simp only [step, e1, e2, SimOpt]
      exact ⟨e3, rfl, sim_push _ S T _ _ hS rfl, hW⟩
  | makeShared storage esft =>
    obtain ⟨h2, g2, e1, e2, e3⟩ := sim_MakeShared h g n storage esft hs
    simp only [step, e1, e2, SimOpt]
    exact ⟨e3, rfl, sim_push _ S T _ _ hS rfl, hW⟩
  | sharedCopy i =>
    rcases sim_lookup _ S T i hS with ⟨e1, e2⟩ | ⟨p, q, e1, e2, e3⟩
    · simp [step, e1, e2, SimOpt]
    · simp only [step, e1, e2, SharedPtr_copy_eq, SimOpt]
      exact ⟨sim_AddRef h g p q hs e3, rfl, sim_push _ S T p q hS e3, hW⟩
  | sharedMove i =>
    rcases sim_lookup _ S T i hS with ⟨e1, e2⟩ | ⟨p, q, e1, e2, e3⟩
    · simp [step, e1, e2, SimOpt]
    · simp only [step, e1, e2, SharedPtr_move_eq, SimOpt]
      exact ⟨sim_dtor _ _ p q (sim_AddRef h g p q hs e3) e3, rfl,
        sim_push _ _ _ p q (sim_set _ S T i _ _ hS rfl) e3, hW⟩
  | sharedAlias i ptr =>
    rcases sim_lookup _ S T i hS with ⟨e1, e2⟩ | ⟨p, q, e1, e2, e3⟩
    · simp [step, e1, e2, SimOpt]
    · simp only [step, e1, e2, SharedPtr.alias, SimOpt]
      exact ⟨sim_AddRef h g ⟨ptr, p.block_⟩ ⟨ptr, q.block_⟩ hs e3, rfl,
        sim_push _ S T ⟨ptr, p.block_⟩ ⟨ptr, q.block_⟩ hS e3, hW⟩
  | sharedAliasMove i ptr =>
    rcases sim_lookup _ S T i hS with ⟨e1, e2⟩ | ⟨p, q, e1, e2, e3⟩
    · simp [step, e1, e2, SimOpt]
    · simp only [step, e1, e2, SharedPtr_aliasMove_eq, SimOpt]
      exact ⟨sim_dtor _ _ p q (sim_AddRef h g p q hs e3) e3, rfl,
        sim_push _ _ _ ⟨ptr, p.block_⟩ ⟨ptr, q.block_⟩ (sim_set _ S T i _ _ hS rfl) e3, hW⟩
  | sharedFromWeak j =>
    rcases sim_lookup _ W V j hW with ⟨e1, e2⟩ | ⟨w, v, e1, e2, e3⟩
    · simp [step, e1, e2, SimOpt]
    · rcases sim_fromWeak h g w v hs e3 with ⟨f1, f2⟩ | ⟨h1, g1, p, q, f1, f2, f3, f4⟩
      · simp only [step, e1, e2, f1, f2, SimOpt]
        exact ⟨hs, rfl, hS, hW⟩
      · simp only [step, e1, e2, f1, f2, SimOpt]
        exact ⟨f3, rfl, sim_push _ S T p q hS f4, hW⟩
  | sharedAssign i j =>
    rcases sim_lookup _ S T i hS with ⟨e1, e2⟩ | ⟨p, q, e1, e2, e3⟩
    · simp [step, e1, e2, SimOpt]
    · rcases sim_lookup _ S T j hS with ⟨d1, d2⟩ | ⟨p2, q2, d1, d2, d3⟩
      · simp [step, e1, e2, d1, d2, SimOpt]
      · simp only [step, e1, e2, d1, d2, SharedPtr_assign_eq, SimOpt]
        exact ⟨sim_dtor _ _ p q (sim_AddRef h g p2 q2 hs d3) e3, rfl,
          sim_set _ S T i p2 q2 hS d3, hW⟩
  | sharedMoveAssign i j =>
    rcases sim_lookup _ S T j hS with ⟨d1, d2⟩ | ⟨p2, q2, d1, d2, d3⟩
    · simp [step, d1, d2, SimOpt]
    · have hS1 := sim_set _ S T j SharedPtr.default SharedPtr.default hS rfl
      have hh1 := sim_dtor _ _ p2 q2 (sim_AddRef h g p2 q2 hs d3) d3
      rcases sim_lookup _ _ _ i hS1 with ⟨e1, e2⟩ | ⟨p, q, e1, e2, e3⟩
      · simp [step, d1, d2, SharedPtr_move_eq, e1, e2, SimOpt]
      · simp only [step, d1, d2, SharedPtr_move_eq, e1, e2, SharedPtr_Swap_eq, SimOpt]
        exact ⟨sim_dtor _ _ p q hh1 e3, rfl, sim_set _ _ _ i p2 q2 hS1 d3, hW⟩
  | sharedReset i =>
    rcases sim_lookup _ S T i hS with ⟨e1, e2⟩ | ⟨p, q, e1, e2, e3⟩
    · simp [step, e1, e2, SimOpt]
    · simp only [step, e1, e2, SharedPtr_Reset_eq, SimOpt]
      exact ⟨sim_dtor h g p q hs e3, rfl, sim_set _ S T i _ _ hS rfl, hW⟩
  | sharedResetPtr i ptr esft =>
    rcases sim_lookup _ S T i hS with ⟨e1, e2⟩ | ⟨p, q, e1, e2, e3⟩
    · simp [step, e1, e2, SimOpt]
    · rcases sim_fromRaw h g n ptr esft hs with ⟨f1, f2⟩ | ⟨h2, g2, f1, f2, f3⟩
      · simp [step, e1, e2, SharedPtr.ResetPtr, f1, f2, SimOpt]
      · simp only [step, e1, e2, SharedPtr.ResetPtr, f1, f2, SharedPtr_Swap_eq, SimOpt]
        exact ⟨sim_dtor h2 g2 p q f3 e3, rfl, sim_set _ S T i _ _ hS rfl, hW⟩
  | sharedSwap i j =>
    rcases sim_lookup _ S T i hS with ⟨e1, e2⟩ | ⟨p, q, e1, e2, e3⟩
    · simp [step, e1, e2, SimOpt]
    · rcases sim_lookup _ S T j hS with ⟨d1, d2⟩ | ⟨p2, q2, d1, d2, d3⟩
      · simp [step, e1, e2, d1, d2, SimOpt]
      · simp only [step, e1, e2, d1, d2, SharedPtr_Swap_eq, SimOpt]
        exact ⟨hs, rfl, sim_set _ _ _ j p q (sim_set _ S T i p2 q2 hS d3) e3, hW⟩
  | sharedDestroy i =>
    rcases sim_lookup _ S T i hS with ⟨e1, e2⟩ | ⟨p, q, e1, e2, e3⟩
    · simp [step, e1, e2, SimOpt]
    · simp only [step, e1, e2, SimOpt]
      exact ⟨sim_dtor h g p q hs e3, rfl, sim_erase _ S T i hS, hW⟩
  | weakDefault =>
    simp only [step, SimOpt]
    exact ⟨hs, rfl, hS, sim_push _ W V _ _ hW rfl⟩
  | weakCopy j =>
    rcases sim_lookup _ W V j hW with ⟨e1, e2⟩ | ⟨w, v, e1, e2, e3⟩
    · simp [step, e1, e2, SimOpt]
    · simp only [step, e1, e2, WeakPtr_copy_closed, SimOpt]
      exact ⟨sim_weak_AddRef h g ⟨w.block_, _⟩ ⟨v.block_, _⟩ hs e3, rfl, hS,
        sim_push _ W V ⟨w.block_, _⟩ ⟨v.block_, _⟩ hW e3⟩
  | weakMove j =>
    rcases sim_lookup _ W V j hW with ⟨e1, e2⟩ | ⟨w, v, e1, e2, e3⟩
    · simp [step, e1, e2, SimOpt]
    · simp only [step, e1, e2, WeakPtr_move_closed, SimOpt]
      exact ⟨sim_weak_dtor _ _ w v
          (sim_weak_AddRef h g ⟨w.block_, if w.Expired h then 0 else w.observed_⟩
            ⟨v.block_, if v.Expired g then 0 else v.observed_⟩ hs e3) e3,
        rfl, hS,
        sim_push _ _ _ ⟨w.block_, if w.Expired h then 0 else w.observed_⟩
          ⟨v.block_, if v.Expired g then 0 else v.observed_⟩
          (sim_set _ W V j WeakPtr.default WeakPtr.default hW rfl) e3⟩
  | weakFromShared i =>
    rcases sim_lookup _ S T i hS with ⟨e1, e2⟩ | ⟨p, q, e1, e2, e3⟩
    · simp [step, e1, e2, SimOpt]
    · simp only [step, e1, e2, WeakPtr.fromShared, SimOpt]
      exact ⟨sim_weak_AddRef h g ⟨p.block_, _⟩ ⟨q.block_, _⟩ hs e3, rfl, hS,
        sim_push _ W V ⟨p.block_, _⟩ ⟨q.block_, _⟩ hW e3⟩
  | weakAssign i j =>
    rcases sim_lookup _ W V i hW with ⟨e1, e2⟩ | ⟨w, v, e1, e2, e3⟩
    · simp [step, e1, e2, SimOpt]
    · rcases sim_lookup _ W V j hW with ⟨d1, d2⟩ | ⟨w2, v2, d1, d2, d3⟩
      · simp [step, e1, e2, d1, d2, SimOpt]
      · simp only [step, e1, e2, d1, d2, WeakPtr_assign_closed, SimOpt]
        exact ⟨sim_weak_dtor _ _ w v
            (sim_weak_AddRef h g ⟨w2.block_, _⟩ ⟨v2.block_, _⟩ hs d3) e3,
          rfl, hS, sim_set _ W V i ⟨w2.block_, _⟩ ⟨v2.block_, _⟩ hW d3⟩
  | weakMoveAssign i j =>
    rcases sim_lookup _ W V j hW with ⟨d1, d2⟩ | ⟨w2, v2, d1, d2, d3⟩
    · simp [step, d1, d2, SimOpt]
    · have hW1 := sim_set _ W V j WeakPtr.default WeakPtr.default hW rfl
      have hh1 := sim_weak_dtor _ _ w2 v2
        (sim_weak_AddRef h g ⟨w2.block_, if w2.Expired h then 0 else w2.observed_⟩
          ⟨v2.block_, if v2.Expired g then 0 else v2.observed_⟩ hs d3) d3
      rcases sim_lookup _ _ _ i hW1 with ⟨e1, e2⟩ | ⟨w, v, e1, e2, e3⟩
      · simp [step, d1, d2, WeakPtr_move_closed, e1, e2, SimOpt]
      · simp only [step, d1, d2, WeakPtr_move_closed, e1, e2, WeakPtr_Swap_eq, SimOpt]
        exact ⟨sim_weak_dtor _ _ w v hh1 e3, rfl, hS,
          sim_set _ _ _ i ⟨w2.block_, if w2.Expired h then 0 else w2.observed_⟩
            ⟨v2.block_, if v2.Expired g then 0 else v2.observed_⟩ hW1 d3⟩
  | weakReset j =>
    rcases sim_lookup _ W V j hW with ⟨e1, e2⟩ | ⟨w, v, e1, e2, e3⟩
    · simp [step, e1, e2, SimOpt]
    · simp only [step, e1, e2, WeakPtr_Reset_eq, SimOpt]
      exact ⟨sim_weak_dtor h g w v hs e3, rfl, hS, sim_set _ W V j _ _ hW rfl⟩
  | weakSwap i j =>
    rcases sim_lookup _ W V i hW with ⟨e1, e2⟩ | ⟨w, v, e1, e2, e3⟩
    · simp [step, e1, e2, SimOpt]
    · rcases sim_lookup _ W V j hW with ⟨d1, d2⟩ | ⟨w2, v2, d1, d2, d3⟩
      · simp [step, e1, e2, d1, d2, SimOpt]
      · simp only [step, e1, e2, d1, d2, WeakPtr_Swap_eq, SimOpt]
        exact ⟨hs, rfl, hS, sim_set _ _ _ j w v (sim_set _ W V i w2 v2 hW d3) e3⟩
  | weakDestroy j =>
    rcases sim_lookup _ W V j hW with ⟨e1, e2⟩ | ⟨w, v, e1, e2, e3⟩
    · simp [step, e1, e2, SimOpt]
    · simp only [step, e1, e2, SimOpt]
      exact ⟨sim_weak_dtor h g w v hs e3, rfl, hS, sim_erase _ W V j hW⟩
  | weakLock j =>
    rcases sim_lookup _ W V j hW with ⟨e1, e2⟩ | ⟨w, v, e1, e2, e3⟩
    · simp [step, e1, e2, SimOpt]
    · obtain ⟨h1, g1, p, q, f1, f2, f3, f4⟩ := sim_Lock h g w v hs e3
      simp only [step, e1, e2, f1, f2, SimOpt]
      exact ⟨f3, rfl, sim_push _ S T p q hS f4, hW⟩
  | sharedFromThis b =>
    obtain ⟨c1, c2, c3, c4⟩ := hs b
    simp only [step, ← c3]
    split_ifs with hg
    · rcases hw : (h b).weak_this_ with _ | w <;> rcases hv : (g b).weak_this_ with _ | v
      · simp [SimOpt]
      · simp [hw, hv] at c2
      · simp [hw, hv] at c2
      · have e3 : w.block_ = v.block_ := by simpa [hw, hv] using c2
        simp only [EnableSharedFromThis.SharedFromThis]
        rcases sim_fromWeak h g w v hs e3 with ⟨f1, f2⟩ | ⟨h1, g1, p, q, f1, f2, f3, f4⟩
        · simp only [f1, f2, SimOpt]
          exact ⟨hs, rfl, hS, hW⟩
        · simp only [f1, f2, SimOpt]
          exact ⟨f3, rfl, sim_push _ S T p q hS f4, hW⟩
    · simp [SimOpt]
  | weakFromThis b =>
    obtain ⟨c1, c2, c3, c4⟩ := hs b
    simp only [step, ← c3]
    split_ifs with hg
    · rcases hw : (h b).weak_this_ with _ | w <;> rcases hv : (g b).weak_this_ with _ | v
      · simp [SimOpt]
      · simp [hw, hv] at c2
      · simp [hw, hv] at c2
      · have e3 : w.block_ = v.block_ := by simpa [hw, hv] using c2
        simp only [EnableSharedFromThis.WeakFromThis, WeakPtr_copy_closed, SimOpt]
        exact ⟨sim_weak_AddRef h g ⟨w.block_, _⟩ ⟨v.block_, _⟩ hs e3, rfl, hS,
          sim_push _ W V ⟨w.block_, _⟩ ⟨v.block_, _⟩ hW e3⟩
    · simp [SimOpt]

theorem run_sim (ops : List Op) (s t : State) (hsim : Sim s t) :
    SimOpt (run s ops) (run t ops) := by
  induction ops generalizing s t with
  | nil => exact hsim
  | cons op ops ih =>
    have h1 := step_sim s t op hsim
    simp only [run]
    rcases hs : step s op with _ | s1 <;> rcases ht : step t op with _ | t1
    · trivial
    · simp [hs, ht, SimOpt] at h1
    · simp [hs, ht, SimOpt] at h1
    · simp only [hs, ht, SimOpt] at h1
      exact ih s1 t1 h1

theorem map_through {α β γ : Type} (f : α → β) (F G : α → γ) (K : β → γ) (S T : List α)
    (hm : S.map f = T.map f) (hF : ∀ p, F p = K (f p)) (hG : ∀ q, G q = K (f q)) :
    S.map F = T.map G := by
  have e1 : S.map F = (S.map f).map K := by
    rw [List.map_map]
    exact congrArg (fun k => List.map k S) (funext hF)
  have e2 : T.map G = (T.map f).map K := by
    rw [List.map_map]
    exact congrArg (fun k => List.map k T) (funext hG)
  rw [e1, e2, hm]

theorem lockIsEmpty_eq (h : Heap) (w : WeakPtr) : lockIsEmpty h w = w.Expired h := by
  unfold lockIsEmpty
  rw [Lock_closed]
  by_cases he : w.Expired h = true
  · simp [he, SharedPtr.default, SharedPtr.toBool]
  · have he2 : w.Expired h = false := by simpa using he
    rcases w with ⟨_ | b, o⟩
    · simp [WeakPtr.Expired] at he
    · simp [he2, SharedPtr.toBool]

theorem observe_sim (s t : State) (hsim : Sim s t) : observe s = observe t := by
  obtain ⟨hs, hn, hS, hW⟩ := hsim
  have hcount : ∀ b, (t.heap b).GetReferenceCount = (s.heap b).GetReferenceCount :=
    fun b => (sim_counts s.heap t.heap b hs).1.symm
  have k1 : s.shared.map (fun p => p.UseCount s.heap) =
      t.shared.map (fun p => p.UseCount t.heap) :=
    map_through (fun p => p.block_) _ _
      (fun o => match o with
        | none => 0
        | some b => (s.heap b).GetReferenceCount) _ _ hS
      (fun p => by rcases p with ⟨o, _ | b⟩ <;> rfl)
      (fun p => by
        rcases p with ⟨o, _ | b⟩
        · rfl
        · exact hcount b)
  have k2 : s.weak.map (fun w => w.UseCount s.heap) =
      t.weak.map (fun w => w.UseCount t.heap) :=
    map_through (fun w => w.block_) _ _
      (fun o => match o with
        | none => 0
        | some b => (s.heap b).GetReferenceCount) _ _ hW
      (fun w => by rcases w with ⟨_ | b, o⟩ <;> rfl)
      (fun w => by
        rcases w with ⟨_ | b, o⟩
        · rfl
        · exact hcount b)
  have k3 : s.weak.map (fun w => w.Expired s.heap) =
      t.weak.map (fun w => w.Expired t.heap) :=
    map_through (fun w => w.block_) _ _
      (fun o => match o with
        | none => true
        | some b => (s.heap b).GetReferenceCount == 0) _ _ hW
      (fun w => by rcases w with ⟨_ | b, o⟩ <;> rfl)
      (fun w => by
        rcases w with ⟨_ | b, o⟩
        · rfl
        · simp [WeakPtr.Expired, hcount b])
  have k4 : s.weak.map (fun w => lockIsEmpty s.heap w) =
      t.weak.map (fun w => lockIsEmpty t.heap w) := by
    simpa only [lockIsEmpty_eq] using k3
  have k5 : (fun c => (s.heap c).deleteObjectCalls) =
      (fun c => (t.heap c).deleteObjectCalls) := funext fun c => (hs c).2.2.1
  simp only [observe, k1, k2, k3, k4, k5, hn]

/-- C14: the observations after `MakeShared<T>(args)` followed by any sequence of
operations and after `SharedPtr<T>(new T(args))` followed by the same sequence agree:
either both runs are undefined, or both are defined with the same `UseCount()` of every
handle and observer, the same `Expired()` and `Lock()`-emptiness of every observer,
and the same number of destructions of every managed object (so the object dies at
the same step). The raw address is non-null when the type derives from
`EnableSharedFromThis`. -/
theorem C14_construction_equivalence (s : State) (storage ptr : Addr) (esft : Bool)
    (hp : esft = true → ptr ≠ 0) (ops : List Op) :
    (run s (Op.makeShared storage esft :: ops)).map observe =
      (run s (Op.sharedFromRaw ptr esft :: ops)).map observe := by
  obtain ⟨h, n, S, W⟩ := s
  obtain ⟨h2, g2, e1, e2, e3⟩ :=
    sim_MakeShared_fromRaw h h n storage ptr esft (SimHeap_refl h) hp
  have hsim : Sim (State.mk h2 (n + 1) (S ++ [SharedPtr.mk storage (some n)]) W)
      (State.mk g2 (n + 1) (S ++ [SharedPtr.mk ptr (some n)]) W) :=
    ⟨e3, rfl, sim_push _ _ _ _ _ rfl rfl, rfl⟩
  have hrun := run_sim ops _ _ hsim
  simp only [run, step, e1, e2]
  rcases hs : run (State.mk h2 (n + 1) (S ++ [SharedPtr.mk storage (some n)]) W) ops
    with _ | s1 <;>
  rcases ht : run (State.mk g2 (n + 1) (S ++ [SharedPtr.mk ptr (some n)]) W) ops
    with _ | t1
  · rfl
  · simp [hs, ht, SimOpt] at hrun
  · simp [hs, ht, SimOpt] at hrun
  · simp only [hs, ht, SimOpt] at hrun
    simp only [Option.map_some']
    rw [observe_sim s1 t1 hrun]

theorem C14_witness :
    (run State.init (Op.sharedFromRaw 7 true :: demoOpsAfter)).map observe =
        some { useCounts := [0], weakUseCounts := [0], expired := [true],
               lockEmpty := [true], destroyed := [1] } ∧
      (run State.init (Op.makeShared 100 true :: demoOpsAfter)).map observe =
        (run State.init (Op.sharedFromRaw 7 true :: demoOpsAfter)).map observe :=
  ⟨by decide, C14_construction_equivalence State.init 100 7 true (fun _ => by decide)
    demoOpsAfter⟩

/-- C21: self-assignment is safe. For a live non-empty handle `p` with
`strong_count == n`, both `p = p` and `p = std::move(p)` leave the whole state (so
`p.Get()`, `p`'s block, `strong_count == n`, and every counter of `DeleteObject` and
`delete block_` calls) exactly as it was, also when `n == 1`; the counters of calls
are also unchanged after the `AddRef()` of the temporary, the only point at which the
heap differs. -/
theorem C21_self_assignment (s : State) (hr : Reachable s) (i : Nat) (o : Addr)
    (b : BlockId) (hl : s.shared[i]? = some (SharedPtr.mk o (some b))) :
    step s (Op.sharedAssign i i) = some s ∧
    step s (Op.sharedMoveAssign i i) = some s ∧
    1 ≤ (s.heap b).GetReferenceCount ∧
    (s.heap b).deleteObjectCalls = 0 ∧ (s.heap b).deleteCalls = 0 ∧
    (∀ c, ((SharedPtr.AddRef s.heap (SharedPtr.mk o (some b))) c).deleteObjectCalls =
        (s.heap c).deleteObjectCalls ∧
      ((SharedPtr.AddRef s.heap (SharedPtr.mk o (some b))) c).deleteCalls =
        (s.heap c).deleteCalls) ∧
    SharedPtr.dtor (SharedPtr.AddRef s.heap (SharedPtr.mk o (some b)))
      (SharedPtr.mk o (some b)) = s.heap := by
  have hpos := live_handle_pos s hr i o b hl
  have hi := Reachable_Inv s hr
  have hb : b < s.next := CellInv_lt s.heap b s.next _ _ (hi b) (Or.inl hpos)
  have hdel : (s.heap b).deleteObjectCalls = 0 := by
    have := (hi b).del hb
    rw [if_neg (by omega)] at this
    exact this
  have hfree : (s.heap b).deleteCalls = 0 := by
    have := (hi b).free hb
    rw [if_neg (by omega)] at this
    exact this
  have hback : SharedPtr.dtor (SharedPtr.AddRef s.heap (SharedPtr.mk o (some b)))
      (SharedPtr.mk o (some b)) = s.heap := by
    simp only [SharedPtr.AddRef]
    exact dtor_Increment s.heap b o hpos
  have hlt : i < s.shared.length := (List.getElem?_eq_some.mp hl).1
  have hself : s.shared.set i (SharedPtr.mk o (some b)) = s.shared :=
    set_self_of_getElem? s.shared i _ hl
  refine ⟨?_, ?_, hpos, hdel, hfree, ?_, hback⟩
  · obtain ⟨h, n, S, W⟩ := s
    simp only at hl hback hself
    simp only [step, hl, SharedPtr_assign_eq, hback, hself]
  · obtain ⟨h, n, S, W⟩ := s
    simp only at hl hback hself hlt
    have e1 : (S.set i SharedPtr.default)[i]? = some SharedPtr.default := by
      simp [hlt]
    simp only [step, hl, SharedPtr_move_eq, e1, SharedPtr_Swap_eq, hback,
      SharedPtr_dtor_default, List.set_set, hself]
  · intro c
    by_cases hc : c = b
    · subst hc
      simp [SharedPtr.AddRef, Heap.Increment]
    · simp [SharedPtr.AddRef, Heap.Increment, Function.update_noteq hc]

theorem C21_witness :
    Reachable demoState ∧ demoState.shared[0]? = some (SharedPtr.mk 100 (some 0)) ∧
    (demoState.heap 0).GetReferenceCount = 1 ∧
    step demoState (Op.sharedAssign 0 0) = some demoState ∧
    step demoState (Op.sharedMoveAssign 0 0) = some demoState :=
  ⟨⟨demoOps, rfl⟩, rfl, by decide,
    (C21_self_assignment demoState ⟨demoOps, rfl⟩ 0 100 0 rfl).1,
    (C21_self_assignment demoState ⟨demoOps, rfl⟩ 0 100 0 rfl).2.1⟩

/-- C22: for every live handle `p` of a reachable state, `static_cast<bool>(p)` is
true exactly when `p` has a block, and exactly when `p.UseCount() >= 1`; it does not
depend on `p.Get()`: a handle adopted from a null raw pointer is true although it
observes `nullptr`, and an aliasing handle built from an empty owner is false
whatever address it observes. -/
theorem C22_operator_bool (s : State) (hr : Reachable s) (i : Nat) (p : SharedPtr)
    (hl : s.shared[i]? = some p) :
    (p.toBool = true ↔ p.block_ ≠ none) ∧
    (p.block_ ≠ none ↔ 1 ≤ p.UseCount s.heap) ∧
    (∀ a : Addr, SharedPtr.toBool ⟨a, p.block_⟩ = p.toBool) ∧
    (∃ t q, step s (Op.sharedFromRaw 0 false) = some t ∧ t.shared = s.shared ++ [q] ∧
      q.Get = 0 ∧ q.toBool = true ∧ q.UseCount t.heap = 1) ∧
    (∀ a : Addr, p.block_ = none →
      ∃ t q, step s (Op.sharedAlias i a) = some t ∧ t.shared = s.shared ++ [q] ∧
        q.Get = a ∧ q.toBool = false ∧ q.UseCount t.heap = 0) := by
  have hi := Reachable_Inv s hr
  refine ⟨?_, ?_, ?_, ?_, ?_⟩
  · simp [SharedPtr.toBool]
  · rcases p with ⟨o, _ | b⟩
    · simp [SharedPtr.UseCount]
    · have hpos := live_handle_pos s hr i o b hl
      simp only [SharedPtr.UseCount, ControlBlockBase.GetReferenceCount]
      constructor
      · intro _
        exact hpos
      · intro _
        simp
  · intro a
    simp [SharedPtr.toBool]
  · refine ⟨State.mk (Function.update s.heap s.next (Block.mk ⟨1, 0⟩ (BlockKind.pointer 0)
        none 0 0)) (s.next + 1) (s.shared ++ [⟨0, some s.next⟩]) s.weak,
      ⟨0, some s.next⟩, ?_, rfl, rfl, rfl, ?_⟩
    · simp [step, fromRaw_plain]
    · simp [SharedPtr.UseCount, ControlBlockBase.GetReferenceCount]
  · intro a hn
    rcases p with ⟨o, blk⟩
    simp only at hn
    subst hn
    refine ⟨State.mk s.heap s.next (s.shared ++ [⟨a, none⟩]) s.weak, ⟨a, none⟩, ?_, rfl, rfl,
      rfl, rfl⟩
    simp [step, hl, SharedPtr.alias, SharedPtr.AddRef]

theorem C22_witness :
    Reachable demoStateTwo ∧ demoStateTwo.shared[0]? = some (SharedPtr.mk 7 (some 0)) ∧
    (SharedPtr.toBool (SharedPtr.mk 7 (some 0)) = true ↔
      (SharedPtr.mk 7 (some 0)).block_ ≠ none) ∧
    ((SharedPtr.mk 7 (some 0)).block_ ≠ none ↔
      1 ≤ SharedPtr.UseCount demoStateTwo.heap (SharedPtr.mk 7 (some 0))) ∧
    SharedPtr.toBool (SharedPtr.mk 7 (some 0)) = true ∧
    SharedPtr.toBool (SharedPtr.alias State.init.heap SharedPtr.default 5).2 = false :=
  ⟨⟨demoOpsTwo, rfl⟩, rfl,
    (C22_operator_bool demoStateTwo ⟨demoOpsTwo, rfl⟩ 0 ⟨7, some 0⟩ rfl).1,
    (C22_operator_bool demoStateTwo ⟨demoOpsTwo, rfl⟩ 0 ⟨7, some 0⟩ rfl).2.1,
    by decide, by decide⟩

/-! ## The intrusive pointer -/

theorem IntrusiveInvC_congr (h : ObjHeap) (n : ObjId) (cnt cnt2 : ObjId → Nat)
    (hi : IntrusiveInvC h n cnt) (he : ∀ o, cnt o = cnt2 o) : IntrusiveInvC h n cnt2 := by
  have : cnt = cnt2 := funext he
  rw [← this]
  exact hi

theorem ind_self (o : ObjId) : ind (some o) o = 1 := by simp [ind]

theorem ind_other (o c : ObjId) (hc : c ≠ o) : ind (some o) c = 0 := by
  simp only [ind, Option.some.injEq]
  rw [if_neg (fun e => hc e.symm)]

theorem IncRef_at (h : ObjHeap) (o : ObjId) :
    (RefCounted.IncRef h o) o =
      { counter_ := { count_ := (h o).counter_.count_ + 1 },
        destroyCalls := (h o).destroyCalls, incRefCalls := (h o).incRefCalls + 1 } := by
  simp [RefCounted.IncRef, SimpleCounter.IncRef]

theorem IncRef_other (h : ObjHeap) (o c : ObjId) (hc : c ≠ o) :
    (RefCounted.IncRef h o) c = h c := by
  simp [RefCounted.IncRef, Function.update_noteq hc]

theorem DecRef_other (h : ObjHeap) (o c : ObjId) (hc : c ≠ o) :
    (RefCounted.DecRef h o) c = h c := by
  simp only [RefCounted.DecRef, Deleter.Destroy]
  split_ifs <;> simp [Function.update_noteq hc]

/-- `DecRef()` on a counter that is `k + 1`: the counter becomes `k`, and `Destroy`
runs exactly when `k = 0`. -/
theorem DecRef_at (h : ObjHeap) (o : ObjId) (k : Nat) (hk : (h o).counter_.count_ = k + 1) :
    (RefCounted.DecRef h o) o =
      { counter_ := { count_ := k },
        destroyCalls := (h o).destroyCalls + (if k = 0 then 1 else 0),
        incRefCalls := (h o).incRefCalls } := by
  by_cases h0 : k = 0
  · simp [RefCounted.DecRef, Deleter.Destroy, SimpleCounter.DecRef, SimpleCounter.RefCount,
      hk, h0]
  · simp [RefCounted.DecRef, Deleter.Destroy, SimpleCounter.DecRef, SimpleCounter.RefCount,
      hk, h0]

theorem IncRef_inv (h : ObjHeap) (n : ObjId) (cnt : ObjId → Nat) (o : ObjId)
    (hi : IntrusiveInvC h n cnt) (hn : o < n) (hd : (h o).destroyCalls = 0) :
    IntrusiveInvC (RefCounted.IncRef h o) n (fun c => cnt c + ind (some o) c) := by
  intro c
  by_cases hc : c = o
  · subst hc
    have hc0 := hi c
    rw [IncRef_at]
    simp only [ind_self]
    refine ⟨?_, ?_, ?_, ?_⟩
    · simp [hc0.count]
    · simp [hd]
    · intro _
      exact Nat.succ_pos _
    · intro hna
      exact absurd hn hna
  · rw [IncRef_other h o c hc]
    simp only [ind_other o c hc, Nat.add_zero]
    exact hi c

theorem DecRef_inv (h : ObjHeap) (n : ObjId) (cnt : ObjId → Nat) (o : ObjId)
    (hi : IntrusiveInvC h n (fun c => cnt c + ind (some o) c)) :
    IntrusiveInvC (RefCounted.DecRef h o) n cnt := by
  intro c
  by_cases hc : c = o
  · subst hc
    have hc0 := hi c
    simp only [ind_self] at hc0
    have hcount := hc0.count
    have honce := hc0.once
    have href := hc0.referenced (Nat.succ_pos _)
    rw [if_neg (by omega)] at honce
    rw [DecRef_at h c (cnt c) hcount]
    refine ⟨rfl, ?_, ?_, ?_⟩
    · simp only [honce, Nat.zero_add]
      by_cases h0 : cnt c = 0
      · simp [h0, href]
      · simp [h0]
    · intro _
      exact href
    · intro hna
      have := hc0.fresh hna
      omega
  · rw [DecRef_other h o c hc]
    have := hi c
    simp only [ind_other o c hc, Nat.add_zero] at this
    exact this

theorem Intrusive_dtor_inv (h : ObjHeap) (n : ObjId) (cnt : ObjId → Nat) (p : IntrusivePtr)
    (hi : IntrusiveInvC h n (fun c => cnt c + ind p.ptr_ c)) :
    IntrusiveInvC (IntrusivePtr.dtor h p) n cnt := by
  rcases p with ⟨_ | o⟩
  · simp only [IntrusivePtr.dtor]
    exact IntrusiveInvC_congr h n _ cnt hi (fun c => by simp [ind_none])
  · simp only [IntrusivePtr.dtor]
    exact DecRef_inv h n cnt o hi

/-- An object that has a live handle is allocated and has not been destroyed. -/
theorem Intrusive_live (h : ObjHeap) (n : ObjId) (cnt : ObjId → Nat) (o : ObjId)
    (hi : IntrusiveInvC h n cnt) (hpos : 0 < cnt o) :
    o < n ∧ (h o).destroyCalls = 0 := by
  have hc := hi o
  constructor
  · by_contra hna
    have := (hc.fresh hna).1
    omega
  · have := hc.once
    rw [if_neg (by omega)] at this
    exact this

theorem Intrusive_copy_inv (h : ObjHeap) (n : ObjId) (cnt : ObjId → Nat) (p : IntrusivePtr)
    (hi : IntrusiveInvC h n cnt) (hpos : ∀ o, p.ptr_ = some o → 0 < cnt o) :
    (IntrusivePtr.copy h p).2 = p ∧
    IntrusiveInvC (IntrusivePtr.copy h p).1 n (fun c => cnt c + ind p.ptr_ c) := by
  rcases p with ⟨_ | o⟩
  · simp only [IntrusivePtr.copy, IntrusivePtr.Get]
    exact ⟨trivial, IntrusiveInvC_congr h n cnt _ hi (fun c => by simp [ind_none])⟩
  · simp only [IntrusivePtr.copy, IntrusivePtr.Get]
    have hl := Intrusive_live h n cnt o hi (hpos o rfl)
    exact ⟨trivial, IncRef_inv h n cnt o hi hl.1 hl.2⟩

theorem Intrusive_fromRaw_inv (s : IntrusiveState) (cnt : ObjId → Nat) (ptr : Option ObjId)
    (hi : IntrusiveInvC s.heap s.next cnt) (hv : s.validRaw ptr = true) :
    (IntrusivePtr.fromRaw s.heap ptr).2 = IntrusivePtr.mk ptr ∧
    IntrusiveInvC (IntrusivePtr.fromRaw s.heap ptr).1 s.next (fun c => cnt c + ind ptr c) := by
  rcases ptr with _ | o
  · simp only [IntrusivePtr.fromRaw]
    exact ⟨trivial, IntrusiveInvC_congr _ _ cnt _ hi (fun c => by simp [ind_none])⟩
  · simp only [IntrusivePtr.fromRaw]
    simp only [IntrusiveState.validRaw, IntrusiveState.alive, Bool.and_eq_true,
      decide_eq_true_eq] at hv
    exact ⟨trivial, IncRef_inv _ _ cnt o hi hv.1 hv.2⟩

theorem countHandles_append (l : List IntrusivePtr) (p : IntrusivePtr) (o : ObjId) :
    countHandles (l ++ [p]) o = countHandles l o + ind p.ptr_ o := by
  simp only [countHandles, List.filter_append, List.length_append, ind_eq, List.filter_cons]
  by_cases h1 : (p.ptr_ == some o) = true <;> simp [h1]

theorem countHandles_set (l : List IntrusivePtr) (i : Nat) (a x : IntrusivePtr) (o : ObjId)
    (hl : l[i]? = some a) :
    countHandles (l.set i x) o + ind a.ptr_ o = countHandles l o + ind x.ptr_ o := by
  simp only [countHandles, ind_eq]
  exact filter_length_set (fun p => p.ptr_ == some o) l i a x hl

theorem countHandles_eraseIdx (l : List IntrusivePtr) (i : Nat) (a : IntrusivePtr)
    (o : ObjId) (hl : l[i]? = some a) :
    countHandles (l.eraseIdx i) o + ind a.ptr_ o = countHandles l o := by
  simp only [countHandles, ind_eq]
  exact filter_length_eraseIdx (fun p => p.ptr_ == some o) l i a hl

theorem countHandles_pos (l : List IntrusivePtr) (i : Nat) (a : IntrusivePtr) (o : ObjId)
    (hl : l[i]? = some a) (ha : a.ptr_ = some o) : 0 < countHandles l o := by
  simp only [countHandles]
  exact filter_length_pos (fun p => p.ptr_ == some o) l i a hl (by simp [ha])

theorem Intrusive_Swap_eq (a b : IntrusivePtr) : IntrusivePtr.Swap a b = (b, a) := rfl

theorem Intrusive_move_eq (p : IntrusivePtr) :
    IntrusivePtr.move p = (p, IntrusivePtr.default) := rfl

theorem Intrusive_assign_eq (h : ObjHeap) (self other : IntrusivePtr) :
    IntrusivePtr.assign h self other =
      (IntrusivePtr.dtor (IntrusivePtr.copy h other).1 self, (IntrusivePtr.copy h other).2) :=
  rfl

theorem Intrusive_Reset_eq (h : ObjHeap) (self : IntrusivePtr) :
    IntrusivePtr.Reset h self = (IntrusivePtr.dtor h self, IntrusivePtr.default) := rfl

theorem Intrusive_ResetPtr_eq (h : ObjHeap) (self : IntrusivePtr) (ptr : Option ObjId) :
    IntrusivePtr.ResetPtr h self ptr =
      (IntrusivePtr.dtor (IntrusivePtr.fromRaw h ptr).1 self,
        (IntrusivePtr.fromRaw h ptr).2) := rfl

theorem newObject_inv (h : ObjHeap) (n : ObjId) (cnt : ObjId → Nat)
    (hi : IntrusiveInvC h n cnt) : IntrusiveInvC (h.newObject n none) (n + 1) cnt := by
  intro c
  by_cases hc : c = n
  · subst hc
    have h0 : cnt c = 0 := ((hi c).fresh (Nat.lt_irrefl c)).1
    simp only [ObjHeap.newObject, Function.update_same]
    refine ⟨?_, ?_, ?_, ?_⟩
    · simp [RefCounted.default, SimpleCounter.default, h0]
    · simp [RefCounted.default]
    · intro hp
      omega
    · intro hna
      exact absurd (Nat.lt_succ_self c) hna
  · have hc0 := hi c
    simp only [ObjHeap.newObject, Function.update_noteq hc]
    refine ⟨hc0.count, hc0.once, hc0.referenced, ?_⟩
    intro hna
    exact hc0.fresh (fun hlt => hna (Nat.lt_succ_of_lt hlt))

theorem MakeIntrusive_inv (h : ObjHeap) (n : ObjId) (cnt : ObjId → Nat)
    (hi : IntrusiveInvC h n cnt) :
    (MakeIntrusive h n none).2 = IntrusivePtr.mk (some n) ∧
    IntrusiveInvC (MakeIntrusive h n none).1 (n + 1) (fun c => cnt c + ind (some n) c) := by
  refine ⟨rfl, ?_⟩
  simp only [MakeIntrusive]
  apply IncRef_inv _ _ cnt n (newObject_inv h n cnt hi) (Nat.lt_succ_self n)
  simp [ObjHeap.newObject, RefCounted.default]

/-- Every operation that constructs no object as a copy keeps the invariant. -/
theorem intrusiveStep_inv (s t : IntrusiveState) (op : IntrusiveOp) (hi : IntrusiveInv s)
    (hf : op.constructsFresh = true) (hs : intrusiveStep s op = some t) :
    IntrusiveInv t := by
  obtain ⟨h, n, H⟩ := s
  simp only [IntrusiveInv] at hi
  cases op with
  | default =>
    simp only [intrusiveStep, Option.some.injEq] at hs
    subst hs
    exact IntrusiveInvC_congr h n _ _ hi (fun c => by
      simp [countHandles_append, IntrusivePtr.default, ind_none])
  | newObject src =>
    cases src with
    | some q => simp [IntrusiveOp.constructsFresh] at hf
    | none =>
      simp only [intrusiveStep, IntrusiveState.validRaw, if_true, Option.some.injEq] at hs
      subst hs
      exact newObject_inv h n _ hi
  | fromRaw ptr =>
    by_cases hv : (IntrusiveState.mk h n H).validRaw ptr = true
    · simp only [intrusiveStep, hv, if_true, Option.some.injEq] at hs
      subst hs
      have hr := Intrusive_fromRaw_inv (IntrusiveState.mk h n H) _ ptr hi hv
      simp only [IntrusiveInv]
      exact IntrusiveInvC_congr _ n _ _ hr.2 (fun c => by
        simp [countHandles_append, hr.1])
    · simp [intrusiveStep, hv] at hs
  | make src =>
    cases src with
    | some q => simp [IntrusiveOp.constructsFresh] at hf
    | none =>
      simp only [intrusiveStep, IntrusiveState.validRaw, if_true, Option.some.injEq] at hs
      subst hs
      have hr := MakeIntrusive_inv h n _ hi
      simp only [IntrusiveInv]
      exact IntrusiveInvC_congr _ _ _ _ hr.2 (fun c => by
        simp [countHandles_append, hr.1])
  | copy i =>
    rcases hl : H[i]? with _ | other
    · simp [intrusiveStep, hl] at hs
    · simp only [intrusiveStep, hl, Option.some.injEq] at hs
      subst hs
      have hr := Intrusive_copy_inv h n _ other hi
        (fun o ho => countHandles_pos H i other o hl ho)
      simp only [IntrusiveInv]
      exact IntrusiveInvC_congr _ _ _ _ hr.2 (fun c => by
        simp [countHandles_append, hr.1])
  | move i =>
    rcases hl : H[i]? with _ | other
    · simp [intrusiveStep, hl] at hs
    · simp only [intrusiveStep, hl, Option.some.injEq, Intrusive_move_eq] at hs
      subst hs
      simp only [IntrusiveInv]
      refine IntrusiveInvC_congr _ _ _ _ hi (fun c => ?_)
      have e := countHandles_set H i other IntrusivePtr.default c hl
      simp only [IntrusivePtr.default, ind_none, Nat.add_zero] at e
      rw [countHandles_append]
      exact e.symm
  | assign i j =>
    rcases hl : H[i]? with _ | self
    · simp [intrusiveStep, hl] at hs
    · rcases hj : H[j]? with _ | other
      · simp [intrusiveStep, hl, hj] at hs
      · simp only [intrusiveStep, hl, hj, Option.some.injEq, Intrusive_assign_eq] at hs
        subst hs
        have hr := Intrusive_copy_inv h n _ other hi
          (fun o ho => countHandles_pos H j other o hj ho)
        simp only [IntrusiveInv, hr.1]
        apply Intrusive_dtor_inv
        refine IntrusiveInvC_congr _ _ _ _ hr.2 (fun c => ?_)
        exact (countHandles_set H i self other c hl).symm
  | moveAssign i j =>
    rcases hj : H[j]? with _ | other
    · simp [intrusiveStep, hj] at hs
    · rcases hl : (H.set j IntrusivePtr.default)[i]? with _ | self
      · simp [intrusiveStep, hj, hl, Intrusive_move_eq] at hs
      · simp only [intrusiveStep, hj, hl, Option.some.injEq, Intrusive_move_eq,
          Intrusive_Swap_eq] at hs
        subst hs
        simp only [IntrusiveInv]
        apply Intrusive_dtor_inv
        refine IntrusiveInvC_congr _ _ _ _ hi (fun c => ?_)
        have e1 := countHandles_set H j other IntrusivePtr.default c hj
        have e2 := countHandles_set (H.set j IntrusivePtr.default) i self other c hl
        have hz : ind IntrusivePtr.default.ptr_ c = 0 := ind_none c
        omega
  | reset i =>
    rcases hl : H[i]? with _ | self
    · simp [intrusiveStep, hl] at hs
    · simp only [intrusiveStep, hl, Option.some.injEq, Intrusive_Reset_eq] at hs
      subst hs
      simp only [IntrusiveInv]
      apply Intrusive_dtor_inv
      refine IntrusiveInvC_congr _ _ _ _ hi (fun c => ?_)
      have e := countHandles_set H i self IntrusivePtr.default c hl
      simp only [IntrusivePtr.default, ind_none, Nat.add_zero] at e
      exact e.symm
  | resetPtr i ptr =>
    rcases hl : H[i]? with _ | self
    · simp [intrusiveStep, hl] at hs
    · by_cases hv : (IntrusiveState.mk h n H).validRaw ptr = true
      · simp only [intrusiveStep, hl, hv, if_true, Option.some.injEq,
          Intrusive_ResetPtr_eq] at hs
        subst hs
        have hr := Intrusive_fromRaw_inv (IntrusiveState.mk h n H) _ ptr hi hv
        simp only [IntrusiveInv, hr.1]
        apply Intrusive_dtor_inv
        refine IntrusiveInvC_congr _ _ _ _ hr.2 (fun c => ?_)
        exact (countHandles_set H i self (IntrusivePtr.mk ptr) c hl).symm
      · simp [intrusiveStep, hl, hv] at hs
  | swap i j =>
    rcases hl : H[i]? with _ | a
    · simp [intrusiveStep, hl] at hs
    · rcases hj : H[j]? with _ | b
      · simp [intrusiveStep, hl, hj] at hs
      · simp only [intrusiveStep, hl, hj, Option.some.injEq, Intrusive_Swap_eq] at hs
        subst hs
        simp only [IntrusiveInv]
        refine IntrusiveInvC_congr _ _ _ _ hi (fun c => ?_)
        have hj2 : (H.set i b)[j]? = some b := by
          rw [getElem?_set_some H i j b a b hl hj]
          simp
        have e1 := countHandles_set H i a b c hl
        have e2 := countHandles_set (H.set i b) j b a c hj2
        omega
  | destroy i =>
    rcases hl : H[i]? with _ | p
    · simp [intrusiveStep, hl] at hs
    · simp only [intrusiveStep, hl, Option.some.injEq] at hs
      subst hs
      simp only [IntrusiveInv]
      apply Intrusive_dtor_inv
      refine IntrusiveInvC_congr _ _ _ _ hi (fun c => ?_)
      exact (countHandles_eraseIdx H i p c hl).symm

theorem intrusiveRun_inv (ops : List IntrusiveOp) (s t : IntrusiveState)
    (hi : IntrusiveInv s) (hf : ∀ op ∈ ops, op.constructsFresh = true)
    (hr : intrusiveRun s ops = some t) : IntrusiveInv t := by
  induction ops generalizing s with
  | nil =>
    simp only [intrusiveRun, Option.some.injEq] at hr
    subst hr
    exact hi
  | cons op ops ih =>
    rcases hs : intrusiveStep s op with _ | s1
    · simp [intrusiveRun, hs] at hr
    · simp only [intrusiveRun, hs] at hr
      exact ih s1 (intrusiveStep_inv s s1 op hi (hf op (List.mem_cons_self _ _)) hs)
        (fun op2 h2 => hf op2 (List.mem_cons_of_mem _ h2)) hr

theorem IntrusiveInv_init : IntrusiveInv IntrusiveState.init := by
  intro o
  refine ⟨?_, ?_, ?_, ?_⟩
  · simp [IntrusiveState.init, RefCounted.default, SimpleCounter.default, countHandles]
  · simp [IntrusiveState.init, RefCounted.default]
  · intro hp
    simp [IntrusiveState.init, countHandles] at hp
  · intro _
    simp [IntrusiveState.init, RefCounted.default, countHandles]

/-- `DecRef()` invokes `Deleter::Destroy` exactly when it leaves the counter at 0, and
then once. -/
theorem DecRef_destroys_at_zero (h : ObjHeap) (o : ObjId) :
    ((RefCounted.DecRef h o) o).destroyCalls =
      (h o).destroyCalls + (if ((RefCounted.DecRef h o) o).RefCount = 0 then 1 else 0) := by
  by_cases h0 : (h o).counter_.count_ = 0
  · simp [RefCounted.DecRef, Deleter.Destroy, SimpleCounter.DecRef, SimpleCounter.RefCount,
      RefCounted.RefCount, h0, SIZE_MAX]
  · by_cases h1 : (h o).counter_.count_ - 1 = 0
    · simp [RefCounted.DecRef, Deleter.Destroy, SimpleCounter.DecRef,
        SimpleCounter.RefCount, RefCounted.RefCount, h0, h1]
    · simp [RefCounted.DecRef, Deleter.Destroy, SimpleCounter.DecRef,
        SimpleCounter.RefCount, RefCounted.RefCount, h0, h1]

/-- `IncRef()` never invokes `Deleter::Destroy`. -/
theorem IncRef_destroyCalls (h : ObjHeap) (o c : ObjId) :
    ((RefCounted.IncRef h o) c).destroyCalls = (h c).destroyCalls := by
  by_cases hc : c = o
  · subst hc
    rw [IncRef_at]
  · rw [IncRef_other h o c hc]

/-- As long as every object is constructed afresh (none as a copy of another object),
after every sequence of operations the counter of every object is the number of live
handles pointing at it, and `Deleter::Destroy` has been invoked on it once if it has
been referenced and has no handle left, and never otherwise. -/
theorem Intrusive_count_eq_handles (ops : List IntrusiveOp) (s : IntrusiveState)
    (hf : ∀ op ∈ ops, op.constructsFresh = true)
    (hr : intrusiveRun IntrusiveState.init ops = some s) (o : ObjId) :
    (s.heap o).RefCount = countHandles s.handles o ∧
    (s.heap o).destroyCalls =
      (if countHandles s.handles o = 0 ∧ 0 < (s.heap o).incRefCalls then 1 else 0) := by
  have hi := intrusiveRun_inv ops IntrusiveState.init s IntrusiveInv_init hf hr
  exact ⟨(hi o).count, (hi o).once⟩

theorem Intrusive_count_eq_handles_example :
    intrusiveRun IntrusiveState.init demoIntrusiveFreshOps = some demoIntrusiveFresh ∧
    demoIntrusiveFresh.handles = [⟨none⟩, ⟨some 0⟩, ⟨some 0⟩] ∧
    (demoIntrusiveFresh.heap 0).RefCount = 2 ∧
    (demoIntrusiveFresh.heap 0).RefCount = countHandles demoIntrusiveFresh.handles 0 ∧
    (demoIntrusiveFresh.heap 0).destroyCalls = 0 :=
  ⟨rfl, rfl, rfl,
    (Intrusive_count_eq_handles demoIntrusiveFreshOps demoIntrusiveFresh (by decide) rfl 0).1,
    rfl⟩

/-- C23 does not hold for an object that is constructed as a copy of a referenced
object. `MakeIntrusive<T>()` makes object 0, then `MakeIntrusive<T>(*p)` makes object 1
as a copy of object 0: the implicitly-defined copy constructor of `RefCounted` copies the
counter 1 and `IncRef()` raises it, so `RefCount()` of object 1 is 2 with one live handle
pointing at it. When that handle is destroyed, `DecRef()` leaves the counter at 1, so
`Deleter::Destroy` is never invoked on object 1 although no handle is left. -/
theorem C23_copy_constructed_object :
    intrusiveRun IntrusiveState.init [IntrusiveOp.make none, IntrusiveOp.make (some 0)] =
      some demoIntrusive ∧
    demoIntrusive.handles = [⟨some 0⟩, ⟨some 1⟩] ∧
    countHandles demoIntrusive.handles 1 = 1 ∧
    (demoIntrusive.heap 1).RefCount = 2 ∧
    (∃ t, intrusiveStep demoIntrusive (IntrusiveOp.destroy 1) = some t ∧
      countHandles t.handles 1 = 0 ∧ (t.heap 1).RefCount = 1 ∧
      (t.heap 1).incRefCalls = 1 ∧ (t.heap 1).destroyCalls = 0) :=
  ⟨rfl, rfl, rfl, rfl, _, rfl, rfl, rfl, rfl, rfl⟩

/-! ## The order of calls in `~SharedPtr`, and two implicit construction paths -/

/-- The calls of `~SharedPtr` leave the heap that `SharedPtr.dtor` computes. -/
theorem dtorTrace_heap (h : Heap) (p : SharedPtr) :
    (SharedPtr.dtorTrace h p).2 = SharedPtr.dtor h p := by
  rcases p with ⟨o, _ | b⟩
  · rfl
  · simp only [SharedPtr.dtorTrace, SharedPtr.dtor]
    split_ifs <;> rfl

/-- C15: in `~SharedPtr` the decrement of `strong_count` is the first call, and every
call of `DeleteObject` comes after it: the heap in which `DeleteObject` is called is
the decremented heap, in which `strong_count` is 0, and `DeleteObject` is called
exactly when the decremented count is 0. In that heap, and in the heap in which the
managed object's destructor runs before its `weak_this_` member dies, every observer
of the block (also `weak_this_` itself) reports `Expired() == true` and `Lock()`
returns the empty handle and changes nothing. The calls leave the heap that
`SharedPtr.dtor` computes. -/
theorem C15_decrement_before_DeleteObject (h : Heap) (p : SharedPtr) :
    (SharedPtr.dtorTrace h p).2 = SharedPtr.dtor h p ∧
    (∀ b g, DtorEvent.DeleteObject b g ∈ (SharedPtr.dtorTrace h p).1 →
      p.block_ = some b ∧
      (∃ rest, (SharedPtr.dtorTrace h p).1 = DtorEvent.Decrement b :: rest ∧
        DtorEvent.DeleteObject b g ∈ rest ∧
        ∀ c, DtorEvent.Decrement c ∉ rest) ∧
      g = h.Decrement b ∧
      (g b).GetReferenceCount = 0 ∧
      ∀ w : WeakPtr, w.block_ = some b →
        (w.Expired g = true ∧ WeakPtr.Lock g w = (g, Except.ok SharedPtr.default)) ∧
        (w.Expired (Function.update g b
            { g b with deleteObjectCalls := (g b).deleteObjectCalls + 1 }) = true ∧
          WeakPtr.Lock (Function.update g b
            { g b with deleteObjectCalls := (g b).deleteObjectCalls + 1 }) w =
            (Function.update g b
              { g b with deleteObjectCalls := (g b).deleteObjectCalls + 1 },
              Except.ok SharedPtr.default))) ∧
    (∀ b, p.block_ = some b →
      ((∃ g, DtorEvent.DeleteObject b g ∈ (SharedPtr.dtorTrace h p).1) ↔
        ((h.Decrement b) b).GetReferenceCount = 0)) := by
  refine ⟨dtorTrace_heap h p, ?_, ?_⟩
  · intro b g hm
    rcases p with ⟨o, _ | b2⟩
    · simp [SharedPtr.dtorTrace] at hm
    · have key : b = b2 ∧ g = h.Decrement b2 ∧ ((h.Decrement b2) b2).GetReferenceCount = 0 ∧
          ∃ rest, (SharedPtr.dtorTrace h ⟨o, some b2⟩).1 = DtorEvent.Decrement b2 :: rest ∧
            DtorEvent.DeleteObject b2 (h.Decrement b2) ∈ rest ∧
            ∀ c, DtorEvent.Decrement c ∉ rest := by
        simp only [SharedPtr.dtorTrace] at hm ⊢
        split_ifs at hm ⊢ with h1 h2
        · simp at hm
          exact ⟨hm.1, hm.2, h1.1, _, rfl, by simp, by simp⟩
        · simp at hm
          exact ⟨hm.1, hm.2, h2, _, rfl, by simp, by simp⟩
        · simp at hm
      obtain ⟨hb, hg, hz, rest, hrest, hin, hno⟩ := key
      subst hb
      subst hg
      refine ⟨rfl, ⟨rest, hrest, hin, hno⟩, rfl, hz, ?_⟩
      intro w hw
      have e1 := expired_of_zero (h.Decrement b) b w hz hw
      have hz2 : ((Function.update (h.Decrement b) b
          { (h.Decrement b) b with
            deleteObjectCalls := ((h.Decrement b) b).deleteObjectCalls + 1 }) b).GetReferenceCount
          = 0 := by
        simpa [ControlBlockBase.GetReferenceCount] using hz
      have e2 := expired_of_zero _ b w hz2 hw
      exact ⟨⟨e1.1, e1.2.2⟩, ⟨e2.1, e2.2.2⟩⟩
  · intro b hb
    rcases p with ⟨o, pb⟩
    simp only at hb
    subst hb
    simp only [SharedPtr.dtorTrace]
    constructor
    · rintro ⟨g, hm⟩
      split_ifs at hm with h1 h2
      · exact h1.1
      · exact h2
      · simp at hm
    · intro hz
      refine ⟨h.Decrement b, ?_⟩
      split_ifs with h1
      · simp
      · simp

theorem C15_witness :
    (demoStateTwo.heap 1).GetReferenceCount = 1 ∧
    (demoStateTwo.heap 1).weak_this_ = some ⟨some 1, 100⟩ ∧
    (SharedPtr.dtorTrace demoStateTwo.heap ⟨100, some 1⟩).1 =
      [DtorEvent.Decrement 1, DtorEvent.DeleteObject 1 (demoStateTwo.heap.Decrement 1)] ∧
    ((demoStateTwo.heap.Decrement 1) 1).GetReferenceCount = 0 ∧
    WeakPtr.Expired (demoStateTwo.heap.Decrement 1) ⟨some 1, 100⟩ = true ∧
    WeakPtr.Lock (demoStateTwo.heap.Decrement 1) ⟨some 1, 100⟩ =
      (demoStateTwo.heap.Decrement 1, Except.ok SharedPtr.default) :=
  ⟨by decide, by decide, rfl,
    ((C15_decrement_before_DeleteObject demoStateTwo.heap ⟨100, some 1⟩).2.1 1
      (demoStateTwo.heap.Decrement 1) (List.mem_cons_of_mem _ (List.mem_singleton.mpr rfl))).2.2.2.1,
    (((C15_decrement_before_DeleteObject demoStateTwo.heap ⟨100, some 1⟩).2.1 1
      (demoStateTwo.heap.Decrement 1)
      (List.mem_cons_of_mem _ (List.mem_singleton.mpr rfl))).2.2.2.2 ⟨some 1, 100⟩ rfl).1.1,
    (((C15_decrement_before_DeleteObject demoStateTwo.heap ⟨100, some 1⟩).2.1 1
      (demoStateTwo.heap.Decrement 1)
      (List.mem_cons_of_mem _ (List.mem_singleton.mpr rfl))).2.2.2.2 ⟨some 1, 100⟩ rfl).1.2⟩

/-- C7 does not hold for an object that is copy-constructed from an owned object.
`MakeShared<Self>()` makes the object behind block 0, owned by `p`; `Self x(*p);`
copy-constructs `x`, which no `SharedPtr` has ever owned. The implicitly-defined copy
constructor of `EnableSharedFromThis` copies `weak_this_`, so `x.weak_this_` observes
block 0: `x.SharedFromThis()` does not throw `BadWeakPtr` but returns a handle to the
object of `p` (address 100) and raises its `strong_count` to 2, and
`x.WeakFromThis()` returns an observer with `Expired() == false`. -/
theorem C7_copy_constructed_object :
    run State.init [Op.makeShared 100 true] = some demoStateOwned ∧
    demoStateOwned.shared = [⟨100, some 0⟩] ∧
    (demoStateOwned.heap 0).weak_this_ = some ⟨some 0, 100⟩ ∧
    (demoStateOwned.heap 0).GetReferenceCount = 1 ∧
    (∃ h1 x, EnableSharedFromThis.copyCtor demoStateOwned.heap ⟨⟨some 0, 100⟩⟩ =
        some (h1, x) ∧
      x.weak_this_ = ⟨some 0, 100⟩ ∧
      (x.SharedFromThis h1).2 = Except.ok ⟨100, some 0⟩ ∧
      ((x.SharedFromThis h1).1 0).GetReferenceCount = 2 ∧
      ∃ h2 w, x.WeakFromThis h1 = some (h2, w) ∧ w.block_ = some 0 ∧
        w.Expired h2 = false) :=
  ⟨rfl, rfl, rfl, rfl, _, _, rfl, rfl, rfl, rfl, _, _, rfl, rfl, rfl⟩

/-- C20 does not hold for move-construction from an observer of another type. In
`demoState` the observer `w` of type `WeakPtr<Y>` has block 0 with `strong_count` 1
and `weak_count` 2. `WeakPtr<T> v(std::move(w));` runs the converting copy
constructor, because the converting move constructor can never be selected:
`weak_count` becomes 3 and `w` keeps its block. Moving from an observer of the same
type leaves `weak_count` at 2 and the source without a block. -/
theorem C20_converting_move :
    run State.init demoOps = some demoState ∧
    demoState.weak = [⟨some 0, 100⟩] ∧
    (demoState.heap 0).GetReferenceCount = 1 ∧
    (demoState.heap 0).GetWeakCount = 2 ∧
    (∃ h1 v src, WeakPtr.moveConverting demoState.heap ⟨some 0, 100⟩ = some (h1, v, src) ∧
      v.block_ = some 0 ∧ src.block_ = some 0 ∧
      (h1 0).GetWeakCount = 3 ∧ (h1 0).GetReferenceCount = 1) ∧
    (∃ h2 v2 src2, WeakPtr.move demoState.heap ⟨some 0, 100⟩ = some (h2, v2, src2) ∧
      v2.block_ = some 0 ∧ src2.block_ = none ∧
      (h2 0).GetWeakCount = 2 ∧ (h2 0).GetReferenceCount = 1) :=
  ⟨rfl, rfl, rfl, rfl, ⟨_, _, _, rfl, rfl, rfl, rfl, rfl⟩, ⟨_, _, _, rfl, rfl, rfl, rfl, rfl⟩⟩

end SmartPointers
